import Mathlib

/-!
Verification of the maze generator / solver in `random_maze_solver_json.py`.

The Python module stores a maze as a `(height+1) x (width+1)` array of cells
(JSON dictionaries), each with boolean fields `top`, `left`, `path`,
`visited`.  We embed the grid as a total function `Nat → Nat → Cell`
(indexed `x` = column, `y` = row, so Python's `grid[y][x]` is `g x y`),
together with the explicit `width`/`height` that the Python code recovers
from the list lengths of the JSON array.  The bounds guards of the two
recursive walks keep all reads and writes inside `0 ≤ x ≤ width`,
`0 ≤ y ≤ height` (proved below), so the function representation is faithful.

Randomness (`random.randrange`, `random.shuffle`) is modelled by threading
an explicit stream `RNG := Nat → Nat` of natural numbers; `randrange n`
consumes one element of the stream modulo `n`, and `shuffle` is a
selection shuffle consuming one element per step.  All theorems quantify
over every stream, hence over every possible sequence of random choices.

Python's recursive `enter_cell` / `test_path` are embedded with an explicit
fuel argument; the fuel used by `get_maze` / `set_maze_path` is proved
sufficient (the recursion depth is bounded by the number of unvisited
cells, which only ever shrinks).
-/

/-- One maze cell: the JSON dictionary
`{'top': …, 'left': …, 'path': …, 'visited': …}`. -/
structure Cell where
  top : Bool
  left : Bool
  path : Bool
  visited : Bool
deriving DecidableEq

/-- The maze grid, `g x y` being Python's `grid[y][x]`. -/
def Grid : Type := Nat → Nat → Cell

/-- Stream of random natural numbers driving `randrange` and `shuffle`. -/
def RNG : Type := Nat → Nat

/-- Drop the first element of a random stream. -/
def RNG.tail (r : RNG) : RNG := fun i => r (i + 1)

/-- `random.randrange(n)`: one stream element reduced mod `n`
(total model, used only with `n ≥ 1`; every value `< n` is reachable by
some stream, so quantifying over streams covers every random outcome). -/
def randrange (n : Nat) (r : RNG) : Nat × RNG := (r 0 % n, r.tail)

/-- Selection shuffle, fuel = list length: repeatedly extract the element
at a random index.  Models `random.shuffle`; only the fact that the result
is a permutation of the input is used by the proofs. -/
def shuffleAux {α : Type} : Nat → List α → RNG → List α
  | 0, _, _ => []
  | Nat.succ fuel, l, r =>
    if h : 0 < l.length then
      l.get ⟨r 0 % l.length, Nat.mod_lt _ h⟩ ::
        shuffleAux fuel (l.eraseIdx (r 0 % l.length)) r.tail
    else []

/-- `random.shuffle`, returning the shuffled list and the advanced stream
(the Python global RNG state after the call). -/
def shuffle {α : Type} (l : List α) (r : RNG) : List α × RNG :=
  (shuffleAux l.length l r, fun i => r (i + l.length))

/-- The initial grid of `get_maze` (lines 66–95): interior cells walled and
unvisited, right closure column (`x = width`) and bottom closure row
(`y = height`) pre-visited with the boundary wall pattern.  Python never
materialises cells outside the `(width+1) × (height+1)` array; the walks
never touch such coordinates (proved below), so their value is
irrelevant; we give them the corner cell's value. -/
def initGrid (width height : Nat) : Grid := fun x y =>
  if x < width ∧ y < height then ⟨true, true, false, false⟩
  else if x = width ∧ y < height then ⟨false, true, false, true⟩
  else if x < width ∧ y = height then ⟨true, false, false, true⟩
  else ⟨false, false, false, true⟩

/-- `grid[y][x]['visited'] = True`. -/
def setVisited (g : Grid) (x y : Nat) : Grid := fun a b =>
  if a = x ∧ b = y then { g a b with visited := true } else g a b

/-- `grid[y][x]['visited'] = False`. -/
def setUnvisited (g : Grid) (x y : Nat) : Grid := fun a b =>
  if a = x ∧ b = y then { g a b with visited := false } else g a b

/-- `grid[y][x]['top'] = False`. -/
def setTopFalse (g : Grid) (x y : Nat) : Grid := fun a b =>
  if a = x ∧ b = y then { g a b with top := false } else g a b

/-- `grid[y][x]['left'] = False`. -/
def setLeftFalse (g : Grid) (x y : Nat) : Grid := fun a b =>
  if a = x ∧ b = y then { g a b with left := false } else g a b

/-- `grid[y][x]['path'] = True`. -/
def setPath (g : Grid) (x y : Nat) : Grid := fun a b =>
  if a = x ∧ b = y then { g a b with path := true } else g a b

/-- The neighbour list built by both `enter_cell` (lines 115–123) and
`test_path` (lines 169–177): left, right, up, down, each guarded by the
bounds check of the source. -/
def nbrs (width height x y : Nat) : List (Nat × Nat) :=
  (if 0 < x then [(x - 1, y)] else []) ++
  (if x < width then [(x + 1, y)] else []) ++
  (if 0 < y then [(x, y - 1)] else []) ++
  (if y < height then [(x, y + 1)] else [])

/-- Wall removal between `(x, y)` and the chosen neighbour `(nx, ny)`
(lines 128–131): a vertical move clears `grid[max(y,ny)][x]['top']`, a
horizontal move clears `grid[y][max(x,nx)]['left']`. -/
def carveWall (g : Grid) (x y nx ny : Nat) : Grid :=
  let g1 := if nx = x then setTopFalse g x (max y ny) else g
  if ny = y then setLeftFalse g1 (max x nx) y else g1

/-- The `for (nx, ny) in neighbors:` loop of `enter_cell` (lines 125–132):
skip visited neighbours, otherwise remove the shared wall and recurse
(`next` is the recursive call of `enter_cell` at the next depth). -/
def carveLoop (next : Grid → RNG → Nat → Nat → Grid × RNG) :
    Grid → RNG → Nat → Nat → List (Nat × Nat) → Grid × RNG
  | g, r, _, _, [] => (g, r)
  | g, r, x, y, (nx, ny) :: rest =>
    if (g nx ny).visited then carveLoop next g r x y rest
    else
      let g2 := carveWall g x y nx ny
      let p := next g2 r nx ny
      carveLoop next p.1 p.2 x y rest

/-- `enter_cell(x, y)` (lines 101–132): mark the cell visited, shuffle its
neighbour list, and walk the shuffled list. -/
def enterCell (width height : Nat) : Nat → Grid → RNG → Nat → Nat → Grid × RNG
  | 0, g, r, _, _ => (g, r)
  | Nat.succ fuel, g, r, x, y =>
    let g1 := setVisited g x y
    let s := shuffle (nbrs width height x y) r
    carveLoop (enterCell width height fuel) g1 s.2 x y s.1

/-- `get_maze(width, height)` (lines 59–136) for positive dimensions:
initialise the grid, clear the entrance wall `grid[0][0]['left']` and the
exit wall `grid[height-1][width]['left']`, pick a random start cell and
carve.  The fuel `width * height` bounds the depth of the recursion
(each nested `enter_cell` call enters a distinct, previously unvisited
playable cell). -/
def get_maze (width height : Nat) (r : RNG) : Grid :=
  let g0 := initGrid width height
  let g1 := setLeftFalse g0 0 0
  let g2 := setLeftFalse g1 width (height - 1)
  let p1 := randrange width r
  let p2 := randrange height p1.2
  (enterCell width height (width * height) g2 p2.2 p1.1 p2.1).1

/-- The `for (nx, ny) in neighbors:` loop of `test_path` (lines 178–188):
skip a neighbour that is visited or separated by a wall, recurse into the
rest; on a successful recursive return mark `path` and succeed
(`next` is the recursive call of `test_path` at the next depth). -/
def tryLoop (next : Grid → Nat → Nat → Grid × Bool) :
    Grid → Nat → Nat → List (Nat × Nat) → Grid × Bool
  | g, _, _, [] => (g, false)
  | g, x, y, (nx, ny) :: rest =>
    if (g nx ny).visited then tryLoop next g x y rest
    else if nx = x ∧ (g x (max y ny)).top then tryLoop next g x y rest
    else if ny = y ∧ (g (max x nx) y).left then tryLoop next g x y rest
    else
      let p := next g nx ny
      if p.2 then (setPath p.1 x y, true)
      else tryLoop next p.1 x y rest

/-- `test_path(x, y)` (lines 150–189): mark the cell visited, succeed at
the goal cell `(width-1, height-1)` marking its path flag, otherwise try
the neighbour list in order. -/
def testPath (width height : Nat) : Nat → Grid → Nat → Nat → Grid × Bool
  | 0, g, _, _ => (g, false)
  | Nat.succ fuel, g, x, y =>
    let g1 := setVisited g x y
    if x = width - 1 ∧ y = height - 1 then (setPath g1 x y, true)
    else tryLoop (testPath width height fuel) g1 x y (nbrs width height x y)

/-- The reset loop of `set_maze_path` (lines 193–195): clear the `visited`
flag of every playable cell (`x < width`, `y < height`). -/
def resetVisited (width height : Nat) (g : Grid) : Grid := fun a b =>
  if a < width ∧ b < height then { g a b with visited := false } else g a b

/-- `set_maze_path(data)` (lines 139–197): reset the visited flags and run
`test_path(0, 0)`; the boolean result is discarded (`_ = test_path(0, 0)`)
and the grid is returned unconditionally.  `width`/`height` stand for the
row lengths the Python code recovers from the JSON array.  The fuel
bounds the recursion depth by the total number of cells. -/
def set_maze_path (width height : Nat) (g : Grid) : Grid :=
  (testPath width height ((width + 1) * (height + 1))
    (resetVisited width height g) 0 0).1

/-! ### Derived notions used to state the claims -/

/-- Number of removed interior walls of a `width × height` maze: a `top`
wall at `(x, y)` with `x < width`, `1 ≤ y < height` separates the playable
cells `(x, y-1)` and `(x, y)`; a `left` wall at `(x, y)` with
`1 ≤ x < width`, `y < height` separates `(x-1, y)` and `(x, y)`.  All
these walls are present in `initGrid`, so counting the cleared flags
counts the walls removed by the carving walk. -/
def removedWallCount (width height : Nat) (g : Grid) : Nat :=
  ((Finset.range width ×ˢ Finset.Ico 1 height).filter
    (fun p => (g p.1 p.2).top = false)).card +
  ((Finset.Ico 1 width ×ˢ Finset.range height).filter
    (fun p => (g p.1 p.2).left = false)).card

/-- Number of cells of the `(width+1) × (height+1)` grid with `path = true`. -/
def pathCount (width height : Nat) (g : Grid) : Nat :=
  ((Finset.range (width + 1) ×ˢ Finset.range (height + 1)).filter
    (fun p => (g p.1 p.2).path = true)).card

/-- Number of visited playable cells. -/
def visitedPlayCount (width height : Nat) (g : Grid) : Nat :=
  ((Finset.range width ×ˢ Finset.range height).filter
    (fun p => (g p.1 p.2).visited = true)).card

/-- Number of unvisited cells of the whole `(width+1) × (height+1)` grid
(bounds the recursion depth of both walks). -/
def unvisitedCount (width height : Nat) (g : Grid) : Nat :=
  ((Finset.range (width + 1) ×ˢ Finset.range (height + 1)).filter
    (fun p => (g p.1 p.2).visited = false)).card

/-- One directed open step of the maze: `q` is the cell below `p` and the
shared wall (`top` of the lower cell, per the max-coordinate rule) is
removed, or `q` is the cell right of `p` and the shared wall (`left` of
the right cell) is removed. -/
def openStep (g : Grid) (p q : Nat × Nat) : Prop :=
  (q.1 = p.1 ∧ q.2 = p.2 + 1 ∧ (g p.1 q.2).top = false) ∨
  (q.2 = p.2 ∧ q.1 = p.1 + 1 ∧ (g q.1 p.2).left = false)

/-- Undirected open adjacency. -/
def openMove (g : Grid) (p q : Nat × Nat) : Prop := openStep g p q ∨ openStep g q p

/-- The open-wall graph on the playable `width × height` cells. -/
def mazeGraph (width height : Nat) (g : Grid) : SimpleGraph (Fin width × Fin height) :=
  SimpleGraph.fromRel (fun p q => openStep g (p.1.val, p.2.val) (q.1.val, q.2.val))

/-- One solver move: an open move between two playable cells. -/
def playStep (width height : Nat) (g : Grid) (p q : Nat × Nat) : Prop :=
  p.1 < width ∧ p.2 < height ∧ q.1 < width ∧ q.2 < height ∧ openMove g p q

/-- The goal cell `(width-1, height-1)` is reachable from the entrance
`(0, 0)` through open walls of playable cells. -/
def Solvable (width height : Nat) (g : Grid) : Prop :=
  Relation.ReflTransGen (playStep width height g) (0, 0) (width - 1, height - 1)

/-- Well-formedness used by the solver claims: every cell of the closure
column / closure row (the non-playable cells of the grid) is marked
visited, the invariant the generator establishes so that the walks stay
inside the playable region. -/
def ClosedOutside (width height : Nat) (g : Grid) : Prop :=
  ∀ x y : Nat, x ≤ width → y ≤ height → ¬(x < width ∧ y < height) →
    (g x y).visited = true

/-- Agreement of two grids on the `visited` flag and both wall flags of
every cell (they may differ in `path` flags); the solver's control flow
reads only these fields, so it behaves identically on such grids. -/
def AgreeVW (g1 g2 : Grid) : Prop :=
  ∀ a b : Nat, (g1 a b).visited = (g2 a b).visited ∧
    (g1 a b).top = (g2 a b).top ∧ (g1 a b).left = (g2 a b).left

/-- Every removed interior wall has both of the playable cells it
separated already visited (the carving walk removes a wall only when
moving from a visited cell into a cell it immediately marks visited). -/
def WallsVisited (W H : Nat) (g : Grid) : Prop :=
  (∀ x y, x < W → 1 ≤ y → y < H → (g x y).top = false →
    (g x y).visited = true ∧ (g x (y - 1)).visited = true) ∧
  (∀ x y, 1 ≤ x → x < W → y < H → (g x y).left = false →
    (g x y).visited = true ∧ (g (x - 1) y).visited = true)

/-- Running invariant of the carving walk, relative to the random start
cell `(x0, y0)`: the closure region stays visited, removed walls join
visited cells, the number of removed interior walls is one less than the
number of visited playable cells, every visited playable cell is
reachable from the start through open walls, and the open-wall graph is
acyclic. -/
def CarveInv (W H x0 y0 : Nat) (g : Grid) : Prop :=
  ClosedOutside W H g ∧
  WallsVisited W H g ∧
  removedWallCount W H g + 1 = visitedPlayCount W H g ∧
  (∀ a b, a < W → b < H → (g a b).visited = true →
    Relation.ReflTransGen (playStep W H g) (x0, y0) (a, b)) ∧
  (mazeGraph W H g).IsAcyclic

/-- Variant of `get_maze` that performs the carve but not the two
entrance/exit wall clears of lines 97–99; used to compare the openings
the code actually forces with the openings claim C3 describes. -/
def get_maze_noforce (width height : Nat) (r : RNG) : Grid :=
  let g0 := initGrid width height
  let p1 := randrange width r
  let p2 := randrange height p1.2
  (enterCell width height (width * height) g0 p2.2 p1.1 p2.1).1

/-- Modelled from the spec: the forcing step claim C3 describes, applied
to the carved grid — clear the `left` wall of the entrance cell `(0, 0)`
and of the cell `(width-1, height)` of the closure row. -/
def forceWallsSpecC3 (width height : Nat) (g : Grid) : Grid :=
  setLeftFalse (setLeftFalse g 0 0) (width - 1) height

/-! ### Python-faithful error model of `get_maze` for arbitrary integer
dimensions (claim C5).

The source performs no dimension validation: line 68 allocates the
`(height+1) × (width+1)` array of `None` placeholders unconditionally,
the initialisation loops fill it, and non-positive dimensions surface as
exceptions of later steps (`IndexError` from an out-of-range list index,
`TypeError` from subscripting a `None` placeholder, `ValueError` from
`randrange` on an empty range).  The model mirrors this: Python list
indexing (including negative indices), placeholder cells as `Option Cell`,
and each step returning `Except`. -/

/-- A Python list slot: `None` or an initialised cell dictionary. -/
def PCell : Type := Option Cell

/-- The raw grid of lists the Python code manipulates. -/
def PGrid : Type := List (List PCell)

/-- Effective index of Python `l[i]` for a list of length `len`:
`0 ≤ i < len` is used directly, `-len ≤ i < 0` counts from the end,
anything else raises `IndexError`. -/
def pyIdx (len : Nat) (i : Int) : Option Nat :=
  if 0 ≤ i ∧ i < (len : Int) then some i.toNat
  else if -(len : Int) ≤ i ∧ i < 0 then some (i + len).toNat
  else none

/-- Python list read `l[i]`. -/
def pyGet {α : Type} (l : List α) (i : Int) : Except String α :=
  match pyIdx l.length i with
  | some n =>
    match l.get? n with
    | some a => Except.ok a
    | none => Except.error "IndexError"
  | none => Except.error "IndexError"

/-- Python list assignment `l[i] = a`. -/
def pySet {α : Type} (l : List α) (i : Int) (a : α) : Except String (List α) :=
  match pyIdx l.length i with
  | some n => Except.ok (l.set n a)
  | none => Except.error "IndexError"

/-- Python `grid[y][x] = c`. -/
def pySetCell (g : PGrid) (y x : Int) (c : PCell) : Except String PGrid := do
  let row ← pyGet g y
  let row2 ← pySet row x c
  pySet g y row2

/-- Python `grid[y][x]['left'] = False`: subscripting a `None` placeholder
raises `TypeError`. -/
def pySetLeftFalse (g : PGrid) (y x : Int) : Except String PGrid := do
  let row ← pyGet g y
  let pc ← pyGet row x
  match pc with
  | none => Except.error "TypeError"
  | some c => do
    let row2 ← pySet row x (some { c with left := false })
    pySet g y row2

/-- Line 68: `[[None] * (width + 1) for i in range(height + 1)]`
(a multiplier `≤ 0` yields the empty list, a range bound `≤ 0` an empty
range — allocation itself never fails). -/
def allocGrid (width height : Int) : PGrid :=
  List.replicate (height + 1).toNat (List.replicate (width + 1).toNat none)

/-- Lines 69–82: fill the interior cells and the right closure column,
one row per `y in range(height)`. -/
def initRows (width height : Int) (g : PGrid) : Except String PGrid :=
  (List.range height.toNat).foldlM
    (fun g y => do
      let g ← (List.range width.toNat).foldlM
        (fun g x => pySetCell g (y : Int) (x : Int)
          (some ⟨true, true, false, false⟩)) g
      pySetCell g (y : Int) width (some ⟨false, true, false, true⟩))
    g

/-- Lines 83–95: fill the bottom closure row and the corner cell. -/
def initBottom (width height : Int) (g : PGrid) : Except String PGrid := do
  let g ← (List.range width.toNat).foldlM
    (fun g x => pySetCell g height (x : Int)
      (some ⟨true, false, false, true⟩)) g
  pySetCell g height width (some ⟨false, false, false, true⟩)

/-- `random.randrange(n)`: raises `ValueError` on an empty range. -/
def pyRandrange (n : Int) (r : RNG) : Except String (Nat × RNG) :=
  if n ≤ 0 then Except.error "ValueError"
  else Except.ok (r 0 % n.toNat, r.tail)

/-- View a fully initialised `PGrid` as a function grid (placeholders and
out-of-range coordinates get the corner cell's value; by the time the
carve runs, every cell of the array is an initialised dictionary). -/
def toGrid (g : PGrid) : Grid := fun x y =>
  ((g.getD y []).getD x none).getD ⟨false, false, false, true⟩

/-- Whether an `Except` computation ended in an exception. -/
def isError {ε α : Type} : Except ε α → Bool
  | Except.error _ => true
  | Except.ok _ => false

/-- Result of a `get_maze` call in the error model: whether the line-68
allocation was performed, and the outcome (a grid, or the exception that
escaped). -/
structure GenRun where
  allocated : Bool
  result : Except String Grid

/-- `get_maze(width, height)` for arbitrary integer arguments, following
the Python control flow step by step: allocate (line 68, unconditional),
initialise (lines 69–95), clear the entrance and exit walls (lines
97–99), draw the two `randrange` values (line 135) and carve.  Errors of
each step propagate as the exception the corresponding Python line
raises. -/
def get_maze_py (width height : Int) (r : RNG) : GenRun :=
  let g0 := allocGrid width height
  { allocated := true
    result := do
      let g1 ← initRows width height g0
      let g2 ← initBottom width height g1
      let g3 ← pySetLeftFalse g2 0 0
      let g4 ← pySetLeftFalse g3 (height - 1) width
      let p1 ← pyRandrange width r
      let p2 ← pyRandrange height p1.2
      Except.ok ((enterCell width.toNat height.toNat
        (width.toNat * height.toNat) (toGrid g4) p2.2 p1.1 p2.1).1) }

/-- What one carve step can do to the grid: visited flags only get set,
walls only get removed, path flags are untouched, and cells outside the
`(W+1) × (H+1)` domain are untouched. -/
def CarveEvol (W H : Nat) (g g' : Grid) : Prop :=
  (∀ a b, (g a b).visited = true → (g' a b).visited = true) ∧
  (∀ a b, (g a b).top = false → (g' a b).top = false) ∧
  (∀ a b, (g a b).left = false → (g' a b).left = false) ∧
  (∀ a b, (g' a b).path = (g a b).path) ∧
  (∀ a b, W < a ∨ H < b → g' a b = g a b)

/-- What one solver step can do: walls are never modified, visited and
path flags only get set, cells outside the domain are untouched. -/
def SolveEvol (W H : Nat) (g g' : Grid) : Prop :=
  (∀ a b, (g' a b).top = (g a b).top) ∧
  (∀ a b, (g' a b).left = (g a b).left) ∧
  (∀ a b, (g a b).visited = true → (g' a b).visited = true) ∧
  (∀ a b, (g a b).path = true → (g' a b).path = true) ∧
  (∀ a b, W < a ∨ H < b → g' a b = g a b)

/-- Exhaustive-exploration record of one segment of the solving search:
every cell the segment newly visited is not the goal and has every one of
its open playable neighbours visited by the end of the segment.  When the
whole failed search satisfies this and the playable region started fresh,
no path from the entrance to the goal can exist. -/
def ExploredSeg (W H : Nat) (g g' : Grid) : Prop :=
  ∀ a b : Nat, a < W → b < H →
    (g' a b).visited = true → (g a b).visited = false →
    ¬(a = W - 1 ∧ b = H - 1) ∧
    ∀ q : Nat × Nat, q.1 < W → q.2 < H → openMove g' (a, b) q →
      (g' q.1 q.2).visited = true

/-! ### Basic pointwise lemmas -/

theorem setVisited_ne {g : Grid} {x y a b : Nat} (h : ¬(a = x ∧ b = y)) :
    setVisited g x y a b = g a b := by
  simp [setVisited, h]

theorem setVisited_self (g : Grid) (x y : Nat) :
    (setVisited g x y x y).visited = true := by
  simp [setVisited]

theorem top_setVisited (g : Grid) (x y a b : Nat) :
    (setVisited g x y a b).top = (g a b).top := by
  by_cases h : a = x ∧ b = y <;> simp [setVisited, h]

theorem left_setVisited (g : Grid) (x y a b : Nat) :
    (setVisited g x y a b).left = (g a b).left := by
  by_cases h : a = x ∧ b = y <;> simp [setVisited, h]

theorem path_setVisited (g : Grid) (x y a b : Nat) :
    (setVisited g x y a b).path = (g a b).path := by
  by_cases h : a = x ∧ b = y <;> simp [setVisited, h]

theorem visited_setVisited_mono {g : Grid} {x y a b : Nat}
    (h : (g a b).visited = true) : (setVisited g x y a b).visited = true := by
  by_cases hc : a = x ∧ b = y <;> simp [setVisited, hc, h]

theorem visited_setVisited_iff (g : Grid) (x y a b : Nat) :
    (setVisited g x y a b).visited = true ↔
      ((a = x ∧ b = y) ∨ (g a b).visited = true) := by
  by_cases hc : a = x ∧ b = y <;> simp [setVisited, hc]

theorem setPath_ne {g : Grid} {x y a b : Nat} (h : ¬(a = x ∧ b = y)) :
    setPath g x y a b = g a b := by
  simp [setPath, h]

theorem setPath_self (g : Grid) (x y : Nat) :
    (setPath g x y x y).path = true := by
  simp [setPath]

theorem top_setPath (g : Grid) (x y a b : Nat) :
    (setPath g x y a b).top = (g a b).top := by
  by_cases h : a = x ∧ b = y <;> simp [setPath, h]

theorem left_setPath (g : Grid) (x y a b : Nat) :
    (setPath g x y a b).left = (g a b).left := by
  by_cases h : a = x ∧ b = y <;> simp [setPath, h]

theorem visited_setPath (g : Grid) (x y a b : Nat) :
    (setPath g x y a b).visited = (g a b).visited := by
  by_cases h : a = x ∧ b = y <;> simp [setPath, h]

theorem path_setPath_iff (g : Grid) (x y a b : Nat) :
    (setPath g x y a b).path = true ↔
      ((a = x ∧ b = y) ∨ (g a b).path = true) := by
  by_cases hc : a = x ∧ b = y <;> simp [setPath, hc]

theorem setTopFalse_ne {g : Grid} {x y a b : Nat} (h : ¬(a = x ∧ b = y)) :
    setTopFalse g x y a b = g a b := by
  simp [setTopFalse, h]

theorem setLeftFalse_ne {g : Grid} {x y a b : Nat} (h : ¬(a = x ∧ b = y)) :
    setLeftFalse g x y a b = g a b := by
  simp [setLeftFalse, h]

theorem left_setLeftFalse_self (g : Grid) (x y : Nat) :
    (setLeftFalse g x y x y).left = false := by
  simp [setLeftFalse]

theorem top_setTopFalse_self (g : Grid) (x y : Nat) :
    (setTopFalse g x y x y).top = false := by
  simp [setTopFalse]

theorem visited_setTopFalse (g : Grid) (x y a b : Nat) :
    (setTopFalse g x y a b).visited = (g a b).visited := by
  by_cases h : a = x ∧ b = y <;> simp [setTopFalse, h]

theorem visited_setLeftFalse (g : Grid) (x y a b : Nat) :
    (setLeftFalse g x y a b).visited = (g a b).visited := by
  by_cases h : a = x ∧ b = y <;> simp [setLeftFalse, h]

theorem path_setTopFalse (g : Grid) (x y a b : Nat) :
    (setTopFalse g x y a b).path = (g a b).path := by
  by_cases h : a = x ∧ b = y <;> simp [setTopFalse, h]

theorem path_setLeftFalse (g : Grid) (x y a b : Nat) :
    (setLeftFalse g x y a b).path = (g a b).path := by
  by_cases h : a = x ∧ b = y <;> simp [setLeftFalse, h]

theorem left_setTopFalse (g : Grid) (x y a b : Nat) :
    (setTopFalse g x y a b).left = (g a b).left := by
  by_cases h : a = x ∧ b = y <;> simp [setTopFalse, h]

theorem top_setLeftFalse (g : Grid) (x y a b : Nat) :
    (setLeftFalse g x y a b).top = (g a b).top := by
  by_cases h : a = x ∧ b = y <;> simp [setLeftFalse, h]

theorem top_setTopFalse_mono {g : Grid} {x y a b : Nat}
    (h : (g a b).top = false) : (setTopFalse g x y a b).top = false := by
  by_cases hc : a = x ∧ b = y <;> simp [setTopFalse, hc, h]

theorem left_setLeftFalse_mono {g : Grid} {x y a b : Nat}
    (h : (g a b).left = false) : (setLeftFalse g x y a b).left = false := by
  by_cases hc : a = x ∧ b = y <;> simp [setLeftFalse, hc, h]

/-! ### Neighbour list lemmas -/

theorem mem_nbrs {width height x y : Nat} {p : Nat × Nat} :
    p ∈ nbrs width height x y ↔
      ((0 < x ∧ p = (x - 1, y)) ∨ (x < width ∧ p = (x + 1, y)) ∨
       (0 < y ∧ p = (x, y - 1)) ∨ (y < height ∧ p = (x, y + 1))) := by
  unfold nbrs
  by_cases h1 : 0 < x <;> by_cases h2 : x < width <;>
    by_cases h3 : 0 < y <;> by_cases h4 : y < height <;>
    simp [h1, h2, h3, h4]

theorem nbrs_bounds {width height x y : Nat} (hx : x ≤ width) (hy : y ≤ height)
    {p : Nat × Nat} (hp : p ∈ nbrs width height x y) :
    p.1 ≤ width ∧ p.2 ≤ height := by
  rcases mem_nbrs.1 hp with ⟨h, rfl⟩ | ⟨h, rfl⟩ | ⟨h, rfl⟩ | ⟨h, rfl⟩ <;>
    simp <;> omega

/-! ### Shuffle is a permutation -/

theorem shuffleAux_perm {α : Type} [DecidableEq α] :
    ∀ (fuel : Nat) (l : List α) (r : RNG), l.length ≤ fuel →
      (shuffleAux fuel l r).Perm l := by
  intro fuel
  induction fuel with
  | zero =>
    intro l r h
    have : l = [] := List.eq_nil_of_length_eq_zero (Nat.le_zero.1 h)
    subst this
    simp [shuffleAux]
  | succ fuel ih =>
    intro l r h
    by_cases hl : 0 < l.length
    · have hk : r 0 % l.length < l.length := Nat.mod_lt _ hl
      have hlen : (l.eraseIdx (r 0 % l.length)).length ≤ fuel := by
        have := List.length_eraseIdx_add_one hk
        omega
      have h1 := ih (l.eraseIdx (r 0 % l.length)) r.tail hlen
      have h2 : l.Perm (l.get ⟨r 0 % l.length, hk⟩ :: l.eraseIdx (r 0 % l.length)) := by
        refine (List.perm_cons_erase (List.get_mem l _ hk)).trans (List.Perm.cons _ ?_)
        simpa using List.erase_getElem hk
      simp only [shuffleAux, hl, dite_true]
      exact (List.Perm.cons _ h1).trans h2.symm
    · have : l = [] := by
        simp only [Nat.not_lt, Nat.le_zero] at hl
        exact List.eq_nil_of_length_eq_zero hl
      subst this
      simp [shuffleAux]

theorem shuffle_perm {α : Type} [DecidableEq α] (l : List α) (r : RNG) :
    (shuffle l r).1.Perm l :=
  shuffleAux_perm l.length l r le_rfl

theorem mem_shuffle {α : Type} [DecidableEq α] {l : List α} {r : RNG} {a : α} :
    a ∈ (shuffle l r).1 ↔ a ∈ l :=
  (shuffle_perm l r).mem_iff

/-! ### Initial grid case lemmas -/

theorem initGrid_interior {width height x y : Nat} (hx : x < width) (hy : y < height) :
    initGrid width height x y = ⟨true, true, false, false⟩ := by
  simp [initGrid, hx, hy]

theorem initGrid_closureCol {width height y : Nat} (hy : y < height) :
    initGrid width height width y = ⟨false, true, false, true⟩ := by
  simp [initGrid, hy]

theorem initGrid_closureRow {width height x : Nat} (hx : x < width) :
    initGrid width height x height = ⟨true, false, false, true⟩ := by
  simp [initGrid, hx]

theorem initGrid_corner (width height : Nat) :
    initGrid width height width height = ⟨false, false, false, true⟩ := by
  simp [initGrid]

theorem initGrid_visited_outside {width height x y : Nat}
    (h : ¬(x < width ∧ y < height)) :
    (initGrid width height x y).visited = true := by
  unfold initGrid
  by_cases h1 : x < width ∧ y < height
  · exact absurd h1 h
  · simp only [h1, if_false]
    by_cases h2 : x = width ∧ y < height <;>
      [skip; by_cases h3 : x < width ∧ y = height] <;> simp [*]

theorem initGrid_unvisited_iff (width height x y : Nat) :
    (initGrid width height x y).visited = false ↔ (x < width ∧ y < height) := by
  constructor
  · intro h
    by_contra hc
    rw [initGrid_visited_outside hc] at h
    cases h
  · intro h
    rw [initGrid_interior h.1 h.2]

/-! ### Preservation templates for the two recursive walks -/

theorem carveLoop_pres {W H : Nat} (P : Grid → Grid → Prop)
    (hrefl : ∀ g, P g g)
    (htrans : ∀ {a b c : Grid}, P a b → P b c → P a c)
    (hcarve : ∀ g x y nx ny, x ≤ W → y ≤ H → nx ≤ W → ny ≤ H →
      P g (carveWall g x y nx ny))
    (next : Grid → RNG → Nat → Nat → Grid × RNG)
    (hnext : ∀ g r nx ny, nx ≤ W → ny ≤ H → P g (next g r nx ny).1) :
    ∀ (ns : List (Nat × Nat)) (g : Grid) (r : RNG) (x y : Nat),
      x ≤ W → y ≤ H → (∀ p ∈ ns, p.1 ≤ W ∧ p.2 ≤ H) →
      P g (carveLoop next g r x y ns).1 := by
  intro ns
  induction ns with
  | nil => intro g r x y _ _ _; exact hrefl g
  | cons q rest ih =>
    obtain ⟨nx, ny⟩ := q
    intro g r x y hx hy hns
    have hq := hns (nx, ny) (List.mem_cons_self _ _)
    have hrest : ∀ p ∈ rest, p.1 ≤ W ∧ p.2 ≤ H :=
      fun p hp => hns p (List.mem_cons_of_mem _ hp)
    show P g (if (g nx ny).visited then carveLoop next g r x y rest
      else carveLoop next (next (carveWall g x y nx ny) r nx ny).1
        (next (carveWall g x y nx ny) r nx ny).2 x y rest).1
    split
    · exact ih g r x y hx hy hrest
    · exact htrans (hcarve g x y nx ny hx hy hq.1 hq.2)
        (htrans (hnext _ r nx ny hq.1 hq.2) (ih _ _ x y hx hy hrest))

theorem enterCell_pres {W H : Nat} (P : Grid → Grid → Prop)
    (hrefl : ∀ g, P g g)
    (htrans : ∀ {a b c : Grid}, P a b → P b c → P a c)
    (hset : ∀ g x y, x ≤ W → y ≤ H → P g (setVisited g x y))
    (hcarve : ∀ g x y nx ny, x ≤ W → y ≤ H → nx ≤ W → ny ≤ H →
      P g (carveWall g x y nx ny)) :
    ∀ (fuel : Nat) (g : Grid) (r : RNG) (x y : Nat), x ≤ W → y ≤ H →
      P g (enterCell W H fuel g r x y).1 := by
  intro fuel
  induction fuel with
  | zero => intro g r x y _ _; exact hrefl g
  | succ fuel ih =>
    intro g r x y hx hy
    show P g (carveLoop (enterCell W H fuel) (setVisited g x y)
      (shuffle (nbrs W H x y) r).2 x y (shuffle (nbrs W H x y) r).1).1
    refine htrans (hset g x y hx hy)
      (carveLoop_pres P hrefl htrans hcarve _
        (fun g r nx ny h1 h2 => ih g r nx ny h1 h2) _ _ _ x y hx hy ?_)
    intro p hp
    exact nbrs_bounds hx hy (mem_shuffle.1 hp)

theorem tryLoop_pres {W H : Nat} (P : Grid → Grid → Prop)
    (hrefl : ∀ g, P g g)
    (htrans : ∀ {a b c : Grid}, P a b → P b c → P a c)
    (hpath : ∀ g x y, x ≤ W → y ≤ H → P g (setPath g x y))
    (next : Grid → Nat → Nat → Grid × Bool)
    (hnext : ∀ g nx ny, nx ≤ W → ny ≤ H → P g (next g nx ny).1) :
    ∀ (ns : List (Nat × Nat)) (g : Grid) (x y : Nat),
      x ≤ W → y ≤ H → (∀ p ∈ ns, p.1 ≤ W ∧ p.2 ≤ H) →
      P g (tryLoop next g x y ns).1 := by
  intro ns
  induction ns with
  | nil => intro g x y _ _ _; exact hrefl g
  | cons q rest ih =>
    obtain ⟨nx, ny⟩ := q
    intro g x y hx hy hns
    have hq := hns (nx, ny) (List.mem_cons_self _ _)
    have hrest : ∀ p ∈ rest, p.1 ≤ W ∧ p.2 ≤ H :=
      fun p hp => hns p (List.mem_cons_of_mem _ hp)
    show P g (if (g nx ny).visited then tryLoop next g x y rest
      else if nx = x ∧ (g x (max y ny)).top then tryLoop next g x y rest
      else if ny = y ∧ (g (max x nx) y).left then tryLoop next g x y rest
      else if (next g nx ny).2 then (setPath (next g nx ny).1 x y, true)
      else tryLoop next (next g nx ny).1 x y rest).1
    split
    · exact ih g x y hx hy hrest
    split
    · exact ih g x y hx hy hrest
    split
    · exact ih g x y hx hy hrest
    split
    · exact htrans (hnext g nx ny hq.1 hq.2) (hpath _ x y hx hy)
    · exact htrans (hnext g nx ny hq.1 hq.2) (ih _ x y hx hy hrest)

theorem testPath_pres {W H : Nat} (P : Grid → Grid → Prop)
    (hrefl : ∀ g, P g g)
    (htrans : ∀ {a b c : Grid}, P a b → P b c → P a c)
    (hset : ∀ g x y, x ≤ W → y ≤ H → P g (setVisited g x y))
    (hpath : ∀ g x y, x ≤ W → y ≤ H → P g (setPath g x y)) :
    ∀ (fuel : Nat) (g : Grid) (x y : Nat), x ≤ W → y ≤ H →
      P g (testPath W H fuel g x y).1 := by
  intro fuel
  induction fuel with
  | zero => intro g x y _ _; exact hrefl g
  | succ fuel ih =>
    intro g x y hx hy
    show P g (if x = W - 1 ∧ y = H - 1 then (setPath (setVisited g x y) x y, true)
      else tryLoop (testPath W H fuel) (setVisited g x y) x y (nbrs W H x y)).1
    split
    · exact htrans (hset g x y hx hy) (hpath _ x y hx hy)
    · refine htrans (hset g x y hx hy)
        (tryLoop_pres P hrefl htrans hpath _
          (fun g nx ny h1 h2 => ih g nx ny h1 h2) _ _ x y hx hy ?_)
      intro p hp
      exact nbrs_bounds hx hy hp

/-! ### Evolution invariants of the carving walk -/

theorem carveEvol_refl (W H : Nat) (g : Grid) : CarveEvol W H g g :=
  ⟨fun _ _ h => h, fun _ _ h => h, fun _ _ h => h, fun _ _ => rfl, fun _ _ _ => rfl⟩

theorem carveEvol_trans {W H : Nat} {a b c : Grid}
    (h1 : CarveEvol W H a b) (h2 : CarveEvol W H b c) : CarveEvol W H a c :=
  ⟨fun x y h => h2.1 x y (h1.1 x y h),
   fun x y h => h2.2.1 x y (h1.2.1 x y h),
   fun x y h => h2.2.2.1 x y (h1.2.2.1 x y h),
   fun x y => (h2.2.2.2.1 x y).trans (h1.2.2.2.1 x y),
   fun x y h => (h2.2.2.2.2 x y h).trans (h1.2.2.2.2 x y h)⟩

theorem carveEvol_setVisited {W H : Nat} (g : Grid) (x y : Nat)
    (hx : x ≤ W) (hy : y ≤ H) : CarveEvol W H g (setVisited g x y) := by
  refine ⟨fun a b h => visited_setVisited_mono h,
    fun a b h => ?_, fun a b h => ?_, fun a b => path_setVisited g x y a b,
    fun a b h => ?_⟩
  · rw [top_setVisited]; exact h
  · rw [left_setVisited]; exact h
  · refine setVisited_ne fun hc => ?_
    rcases h with h | h <;> omega

theorem carveEvol_setTopFalse {W H : Nat} (g : Grid) (x y : Nat)
    (hx : x ≤ W) (hy : y ≤ H) : CarveEvol W H g (setTopFalse g x y) := by
  refine ⟨fun a b h => ?_, fun a b h => top_setTopFalse_mono h,
    fun a b h => ?_, fun a b => path_setTopFalse g x y a b, fun a b h => ?_⟩
  · rw [visited_setTopFalse]; exact h
  · rw [left_setTopFalse]; exact h
  · refine setTopFalse_ne fun hc => ?_
    rcases h with h | h <;> omega

theorem carveEvol_setLeftFalse {W H : Nat} (g : Grid) (x y : Nat)
    (hx : x ≤ W) (hy : y ≤ H) : CarveEvol W H g (setLeftFalse g x y) := by
  refine ⟨fun a b h => ?_, fun a b h => ?_,
    fun a b h => left_setLeftFalse_mono h,
    fun a b => path_setLeftFalse g x y a b, fun a b h => ?_⟩
  · rw [visited_setLeftFalse]; exact h
  · rw [top_setLeftFalse]; exact h
  · refine setLeftFalse_ne fun hc => ?_
    rcases h with h | h <;> omega

theorem carveEvol_carveWall {W H : Nat} (g : Grid) (x y nx ny : Nat)
    (hx : x ≤ W) (hy : y ≤ H) (hnx : nx ≤ W) (hny : ny ≤ H) :
    CarveEvol W H g (carveWall g x y nx ny) := by
  show CarveEvol W H g
    (if ny = y then
      setLeftFalse (if nx = x then setTopFalse g x (max y ny) else g) (max x nx) y
    else (if nx = x then setTopFalse g x (max y ny) else g))
  by_cases h1 : nx = x <;> by_cases h2 : ny = y <;>
    simp only [h1, h2, if_true, if_false, if_pos rfl, if_neg, not_false_iff,
      ite_true, ite_false, max_self]
  · exact carveEvol_trans (carveEvol_setTopFalse g x y hx hy)
      (carveEvol_setLeftFalse _ x y hx hy)
  · exact carveEvol_setTopFalse g x (max y ny) hx (by omega)
  · exact carveEvol_setLeftFalse _ (max x nx) y (by omega) hy
  · exact carveEvol_refl W H g

theorem enterCell_evol {W H : Nat} (fuel : Nat) (g : Grid) (r : RNG)
    (x y : Nat) (hx : x ≤ W) (hy : y ≤ H) :
    CarveEvol W H g (enterCell W H fuel g r x y).1 :=
  enterCell_pres (CarveEvol W H) (carveEvol_refl W H)
    (fun h1 h2 => carveEvol_trans h1 h2) carveEvol_setVisited
    carveEvol_carveWall fuel g r x y hx hy

/-! ### Evolution invariants of the solving walk -/

theorem solveEvol_refl (W H : Nat) (g : Grid) : SolveEvol W H g g :=
  ⟨fun _ _ => rfl, fun _ _ => rfl, fun _ _ h => h, fun _ _ h => h,
   fun _ _ _ => rfl⟩

theorem solveEvol_trans {W H : Nat} {a b c : Grid}
    (h1 : SolveEvol W H a b) (h2 : SolveEvol W H b c) : SolveEvol W H a c :=
  ⟨fun x y => (h2.1 x y).trans (h1.1 x y),
   fun x y => (h2.2.1 x y).trans (h1.2.1 x y),
   fun x y h => h2.2.2.1 x y (h1.2.2.1 x y h),
   fun x y h => h2.2.2.2.1 x y (h1.2.2.2.1 x y h),
   fun x y h => (h2.2.2.2.2 x y h).trans (h1.2.2.2.2 x y h)⟩

theorem solveEvol_setVisited {W H : Nat} (g : Grid) (x y : Nat)
    (hx : x ≤ W) (hy : y ≤ H) : SolveEvol W H g (setVisited g x y) := by
  refine ⟨fun a b => top_setVisited g x y a b,
    fun a b => left_setVisited g x y a b,
    fun a b h => visited_setVisited_mono h, fun a b h => ?_, fun a b h => ?_⟩
  · rw [path_setVisited]; exact h
  · refine setVisited_ne fun hc => ?_
    rcases h with h | h <;> omega

theorem solveEvol_setPath {W H : Nat} (g : Grid) (x y : Nat)
    (hx : x ≤ W) (hy : y ≤ H) : SolveEvol W H g (setPath g x y) := by
  refine ⟨fun a b => top_setPath g x y a b,
    fun a b => left_setPath g x y a b, fun a b h => ?_,
    fun a b h => (path_setPath_iff g x y a b).2 (Or.inr h), fun a b h => ?_⟩
  · rw [visited_setPath]; exact h
  · refine setPath_ne fun hc => ?_
    rcases h with h | h <;> omega

theorem testPath_evol {W H : Nat} (fuel : Nat) (g : Grid) (x y : Nat)
    (hx : x ≤ W) (hy : y ≤ H) :
    SolveEvol W H g (testPath W H fuel g x y).1 :=
  testPath_pres (SolveEvol W H) (solveEvol_refl W H)
    (fun h1 h2 => solveEvol_trans h1 h2) solveEvol_setVisited
    solveEvol_setPath fuel g x y hx hy

/-! ### Unfolding get_maze -/

theorem get_maze_eq (W H : Nat) (r : RNG) :
    get_maze W H r =
      (enterCell W H (W * H)
        (setLeftFalse (setLeftFalse (initGrid W H) 0 0) W (H - 1))
        (RNG.tail (RNG.tail r)) (r 0 % W) (RNG.tail r 0 % H)).1 := rfl

/-! ### Claim C6 -/

/-- Claim C6: the grid `get_maze` builds (lines 66–95), before the
entrance/exit clears and the carving walk, satisfies the initialisation
invariant: interior cells are `top=true, left=true, path=false,
visited=false`; the closure column is `top=false, left=true, path=false,
visited=true`; the closure row is `top=true, left=false, path=false,
visited=true`; the corner is `top=false, left=false, path=false,
visited=true`. -/
theorem init_invariant (W H : Nat) (_hW : 1 ≤ W) (_hH : 1 ≤ H) :
    (∀ x < W, ∀ y < H, initGrid W H x y = ⟨true, true, false, false⟩) ∧
    (∀ y < H, initGrid W H W y = ⟨false, true, false, true⟩) ∧
    (∀ x < W, initGrid W H x H = ⟨true, false, false, true⟩) ∧
    initGrid W H W H = ⟨false, false, false, true⟩ :=
  ⟨fun _ hx _ hy => initGrid_interior hx hy,
   fun _ hy => initGrid_closureCol hy,
   fun _ hx => initGrid_closureRow hx,
   initGrid_corner W H⟩

/-- Witness for C6 at `W = 2`, `H = 2`. -/
theorem init_invariant_witness :
    1 ≤ 2 ∧
    ((∀ x < 2, ∀ y < 2, initGrid 2 2 x y = ⟨true, true, false, false⟩) ∧
     (∀ y < 2, initGrid 2 2 2 y = ⟨false, true, false, true⟩) ∧
     (∀ x < 2, initGrid 2 2 x 2 = ⟨true, false, false, true⟩) ∧
     initGrid 2 2 2 2 = ⟨false, false, false, true⟩) :=
  ⟨by decide, init_invariant 2 2 (by decide) (by decide)⟩

/-! ### Claim C3 (corrected) -/

/-- Claim C3, as amended: `get_maze` force-clears the `left` wall of the
entrance cell `(0, 0)` and the `left` wall of the closure-column cell
`(W, H-1)` (line 99 indexes `grid[height-1][width]`), the latter being a
genuine forcing (`initGrid` has that wall present).  The closure-row cell
`(W-1, H)` named by the claim has `left = false` already from
initialisation, not from a forcing step. -/
theorem entrance_exit_openings (W H : Nat) (r : RNG) (hW : 1 ≤ W) (hH : 1 ≤ H) :
    ((get_maze W H r) 0 0).left = false ∧
    ((get_maze W H r) W (H - 1)).left = false ∧
    (initGrid W H W (H - 1)).left = true ∧
    (initGrid W H (W - 1) H).left = false := by
  rw [get_maze_eq]
  set g2 := setLeftFalse (setLeftFalse (initGrid W H) 0 0) W (H - 1) with hg2
  have hevol : CarveEvol W H g2
      ((enterCell W H (W * H) g2 (RNG.tail (RNG.tail r)) (r 0 % W)
        (RNG.tail r 0 % H)).1) :=
    enterCell_evol _ _ _ _ _ (le_of_lt (Nat.mod_lt _ hW)) (le_of_lt (Nat.mod_lt _ hH))
  refine ⟨hevol.2.2.1 0 0 ?_, hevol.2.2.1 W (H - 1) ?_, ?_, ?_⟩
  · rw [hg2, setLeftFalse_ne (by omega)]
    exact left_setLeftFalse_self _ 0 0
  · rw [hg2]
    exact left_setLeftFalse_self _ W (H - 1)
  · rw [initGrid_closureCol (by omega)]
  · rw [initGrid_closureRow (by omega)]

/-- Witness for C3 at `W = 2`, `H = 1`, the all-zero random stream. -/
theorem entrance_exit_openings_witness :
    1 ≤ 2 ∧
    (((get_maze 2 1 (fun _ => 0)) 0 0).left = false ∧
     ((get_maze 2 1 (fun _ => 0)) 2 0).left = false ∧
     (initGrid 2 1 2 0).left = true ∧
     (initGrid 2 1 1 1).left = false) :=
  ⟨by decide, entrance_exit_openings 2 1 (fun _ => 0) (by decide) (by decide)⟩

/-- Counterexample to C3 as stated: at `W = 2`, `H = 1` the opening the
claim describes — forcing the `left` wall of the closure-row cell
`(W-1, H) = (1, 1)` after carving — does not reproduce `get_maze`: that
wall is already open before any forcing, and the grids differ at the
closure-column cell `(W, H-1) = (2, 0)`, where `get_maze` actually
opens the exit. -/
theorem entrance_exit_openings_cex :
    ((get_maze_noforce 2 1 (fun _ => 0)) 1 1).left = false ∧
    ((forceWallsSpecC3 2 1 (get_maze_noforce 2 1 (fun _ => 0))) 2 0).left = true ∧
    ((get_maze 2 1 (fun _ => 0)) 2 0).left = false := by
  refine ⟨by decide, by decide, by decide⟩

/-! ### Claim C10 -/

/-- Claim C10: for coordinates within the `(W+1) × (H+1)` grid, every
neighbour the walks enumerate is again within the grid (the guards
`x > 0`, `x < width`, `y > 0`, `y < height` ensure this), and
consequently neither the carving walk nor the solving walk ever touches
a cell outside the grid: both leave every out-of-range cell of the total
embedding unchanged. -/
theorem walks_in_bounds (W H x y : Nat) (hx : x ≤ W) (hy : y ≤ H) :
    (∀ p ∈ nbrs W H x y, p.1 ≤ W ∧ p.2 ≤ H) ∧
    (∀ (fuel : Nat) (g : Grid) (r : RNG) (a b : Nat), W < a ∨ H < b →
      (enterCell W H fuel g r x y).1 a b = g a b) ∧
    (∀ (fuel : Nat) (g : Grid) (a b : Nat), W < a ∨ H < b →
      (testPath W H fuel g x y).1 a b = g a b) := by
  refine ⟨fun p hp => nbrs_bounds hx hy hp, ?_, ?_⟩
  · intro fuel g r a b hab
    exact (enterCell_evol fuel g r x y hx hy).2.2.2.2 a b hab
  · intro fuel g a b hab
    exact (testPath_evol fuel g x y hx hy).2.2.2.2 a b hab

/-- Witness for C10 at `W = 2`, `H = 1`, `x = 2`, `y = 1`. -/
theorem walks_in_bounds_witness :
    (2 : Nat) ≤ 2 ∧
    ((∀ p ∈ nbrs 2 1 2 1, p.1 ≤ 2 ∧ p.2 ≤ 1) ∧
     (∀ (fuel : Nat) (g : Grid) (r : RNG) (a b : Nat), 2 < a ∨ 1 < b →
       (enterCell 2 1 fuel g r 2 1).1 a b = g a b) ∧
     (∀ (fuel : Nat) (g : Grid) (a b : Nat), 2 < a ∨ 1 < b →
       (testPath 2 1 fuel g 2 1).1 a b = g a b)) :=
  ⟨by decide, walks_in_bounds 2 1 2 1 (by decide) (by decide)⟩

/-! ### Claim C5 (corrected) -/

theorem error_bind {eps a b : Type} (e : eps) (f : a -> Except eps b) :
    (Except.error e >>= f) = Except.error e := rfl

theorem ok_bind {eps a b : Type} (v : a) (f : a -> Except eps b) :
    (Except.ok v >>= f) = f v := rfl

/-- Claim C5, as amended: for every non-positive width or height the
`get_maze` call fails with a synchronous exception (`IndexError`,
`TypeError` or `ValueError` from a later step — the code performs no
dimension validation), so no clamped or half-built grid is ever returned;
but the failure happens after the line-68 grid allocation, which is
performed unconditionally, not before it. -/
theorem invalid_dims_rejection (w h : Int) (r : RNG) (hinv : w ≤ 0 ∨ h ≤ 0) :
    isError (get_maze_py w h r).result = true ∧
    (get_maze_py w h r).allocated = true := by
  refine ⟨?_, rfl⟩
  show isError (do
      let g1 ← initRows w h (allocGrid w h)
      let g2 ← initBottom w h g1
      let g3 ← pySetLeftFalse g2 0 0
      let g4 ← pySetLeftFalse g3 (h - 1) w
      let p1 ← pyRandrange w r
      let p2 ← pyRandrange h p1.2
      Except.ok ((enterCell w.toNat h.toNat
        (w.toNat * h.toNat) (toGrid g4) p2.2 p1.1 p2.1).1) : Except String Grid) = true
  cases h1 : initRows w h (allocGrid w h) with
  | error e => simp only [h1, ok_bind, error_bind, isError]
  | ok g1 =>
    cases h2 : initBottom w h g1 with
    | error e => simp only [h1, h2, ok_bind, error_bind, isError]
    | ok g2 =>
      cases h3 : pySetLeftFalse g2 0 0 with
      | error e => simp only [h1, h2, h3, ok_bind, error_bind, isError]
      | ok g3 =>
        cases h4 : pySetLeftFalse g3 (h - 1) w with
        | error e => simp only [h1, h2, h3, h4, ok_bind, error_bind, isError]
        | ok g4 =>
          by_cases hw : w ≤ 0
          · have h5 : pyRandrange w r = Except.error "ValueError" := by
              simp [pyRandrange, hw]
            simp only [h1, h2, h3, h4, h5, ok_bind, error_bind, isError]
          · have hh : h ≤ 0 := hinv.resolve_left hw
            have h5 : pyRandrange w r =
                Except.ok (r 0 % w.toNat, r.tail) := by
              simp [pyRandrange, hw]
            have h6 : pyRandrange h (RNG.tail r) = Except.error "ValueError" := by
              simp [pyRandrange, hh]
            simp only [h1, h2, h3, h4, h5, ok_bind, error_bind] ; simp only [h6, ok_bind, error_bind, isError]

/-- Witness for C5 at `width = 0`, `height = 5`. -/
theorem invalid_dims_rejection_witness :
    ((0 : Int) ≤ 0 ∨ (5 : Int) ≤ 0) ∧
    (isError (get_maze_py 0 5 (fun _ => 0)).result = true ∧
     (get_maze_py 0 5 (fun _ => 0)).allocated = true) :=
  ⟨Or.inl (by decide), invalid_dims_rejection 0 5 (fun _ => 0) (Or.inl (by decide))⟩

/-- Counterexample to C5 as stated: at `width = 0`, `height = 5` the call
does fail, but not before the grid allocation — the line-68 allocation is
performed (the model records it), and the failure is the incidental
`ValueError` that `randrange(0)` raises at line 135, not a prior
dimension check. -/
theorem invalid_dims_cex :
    ¬(isError (get_maze_py 0 5 (fun _ => 0)).result = true ∧
      (get_maze_py 0 5 (fun _ => 0)).allocated = false) := by
  intro hc
  have : (get_maze_py 0 5 (fun _ => 0)).allocated = true := rfl
  rw [this] at hc
  exact absurd hc.2 (by decide)

/-! ### Claim C9 -/

theorem carveLoop_all_visited (next : Grid → RNG → Nat → Nat → Grid × RNG)
    (g : Grid) (x y : Nat) :
    ∀ (l : List (Nat × Nat)) (r : RNG),
      (∀ p ∈ l, (g p.1 p.2).visited = true) →
      carveLoop next g r x y l = (g, r) := by
  intro l
  induction l with
  | nil => intro r _; rfl
  | cons q rest ih =>
    obtain ⟨nx, ny⟩ := q
    intro r hl
    have hq : (g nx ny).visited = true := hl (nx, ny) (List.mem_cons_self _ _)
    show (if (g nx ny).visited then carveLoop next g r x y rest
      else carveLoop next (next (carveWall g x y nx ny) r nx ny).1
        (next (carveWall g x y nx ny) r nx ny).2 x y rest) = (g, r)
    rw [hq, if_pos rfl]
    exact ih r fun p hp => hl p (List.mem_cons_of_mem _ hp)

theorem get_maze_one_one (r : RNG) :
    get_maze 1 1 r =
      setVisited (setLeftFalse (setLeftFalse (initGrid 1 1) 0 0) 1 0) 0 0 := by
  rw [get_maze_eq]
  set g2 := setLeftFalse (setLeftFalse (initGrid 1 1) 0 0) 1 0 with hg2
  have hx : r 0 % 1 = 0 := Nat.mod_one _
  have hy : RNG.tail r 0 % 1 = 0 := Nat.mod_one _
  rw [hx, hy]
  show (carveLoop (enterCell 1 1 0) (setVisited g2 0 0)
    (shuffle (nbrs 1 1 0 0) (RNG.tail (RNG.tail r))).2 0 0
    (shuffle (nbrs 1 1 0 0) (RNG.tail (RNG.tail r))).1).1 = setVisited g2 0 0
  have hvis : ∀ p ∈ (shuffle (nbrs 1 1 0 0) (RNG.tail (RNG.tail r))).1,
      ((setVisited g2 0 0) p.1 p.2).visited = true := by
    intro p hp
    have hp2 : p ∈ nbrs 1 1 0 0 := mem_shuffle.1 hp
    have : p = (1, 0) ∨ p = (0, 1) := by
      rcases mem_nbrs.1 hp2 with ⟨h, rfl⟩ | ⟨h, rfl⟩ | ⟨h, rfl⟩ | ⟨h, rfl⟩
      · omega
      · exact Or.inl rfl
      · omega
      · exact Or.inr rfl
    rcases this with rfl | rfl <;> decide
  rw [carveLoop_all_visited _ _ _ _ _ _ hvis]

/-- Claim C9: for the minimal maze `get_maze(1, 1)`, the two forced
openings (entrance and exit, which coincide on the single playable cell
`(0, 0)`) are both walls of that cell: its west wall (`left` of `(0,0)`)
and its east wall (`left` of the closure cell `(1, 0)`, per the
max-coordinate rule) are forced false; and `set_maze_path` marks `(0,0)`
as the solution path immediately (it is the goal cell), giving a path of
length exactly 1. -/
theorem minimal_maze (r : RNG) :
    ((get_maze 1 1 r) 0 0).left = false ∧
    ((get_maze 1 1 r) 1 0).left = false ∧
    ((set_maze_path 1 1 (get_maze 1 1 r)) 0 0).path = true ∧
    pathCount 1 1 (set_maze_path 1 1 (get_maze 1 1 r)) = 1 := by
  rw [get_maze_one_one r]
  refine ⟨by decide, by decide, by decide, by decide⟩

/-! ### Claim C7 -/

/-- Claim C7: `set_maze_path` first resets the `visited` flag of every
playable cell to false, touching neither `path` flags nor walls
(lines 193–195), and over the whole run only `visited` and `path` fields
change: every `top` and `left` wall flag of the returned grid equals its
value in the input grid. -/
theorem solver_frame (W H : Nat) (g : Grid) :
    (∀ x y, x < W → y < H → (resetVisited W H g x y).visited = false) ∧
    (∀ x y, (resetVisited W H g x y).path = (g x y).path) ∧
    (∀ x y, (resetVisited W H g x y).top = (g x y).top ∧
      (resetVisited W H g x y).left = (g x y).left) ∧
    (∀ x y, (set_maze_path W H g x y).top = (g x y).top ∧
      (set_maze_path W H g x y).left = (g x y).left) := by
  have hreset : ∀ x y, (resetVisited W H g x y).path = (g x y).path ∧
      (resetVisited W H g x y).top = (g x y).top ∧
      (resetVisited W H g x y).left = (g x y).left := by
    intro x y
    unfold resetVisited
    by_cases h : x < W ∧ y < H <;> simp [h]
  refine ⟨?_, fun x y => (hreset x y).1, fun x y => (hreset x y).2, ?_⟩
  · intro x y hx hy
    unfold resetVisited
    simp [hx, hy]
  · intro x y
    have hevol : SolveEvol W H (resetVisited W H g)
        (testPath W H ((W + 1) * (H + 1)) (resetVisited W H g) 0 0).1 :=
      testPath_evol _ _ 0 0 (Nat.zero_le _) (Nat.zero_le _)
    constructor
    · rw [show (set_maze_path W H g x y).top =
        ((testPath W H ((W + 1) * (H + 1)) (resetVisited W H g) 0 0).1 x y).top from rfl,
        hevol.1 x y, (hreset x y).2.1]
    · rw [show (set_maze_path W H g x y).left =
        ((testPath W H ((W + 1) * (H + 1)) (resetVisited W H g) 0 0).1 x y).left from rfl,
        hevol.2.1 x y, (hreset x y).2.2]

/-! ### Solver: failure leaves path flags unchanged -/

theorem tryLoop_false_paths {W H : Nat} (next : Grid → Nat → Nat → Grid × Bool)
    (hnextF : ∀ g nx ny, nx ≤ W → ny ≤ H → (next g nx ny).2 = false →
      ∀ a b, ((next g nx ny).1 a b).path = (g a b).path) :
    ∀ (ns : List (Nat × Nat)) (g : Grid) (x y : Nat),
      (∀ p ∈ ns, p.1 ≤ W ∧ p.2 ≤ H) →
      (tryLoop next g x y ns).2 = false →
      ∀ a b, ((tryLoop next g x y ns).1 a b).path = (g a b).path := by
  intro ns
  induction ns with
  | nil => intro g x y _ _ a b; rfl
  | cons q rest ih =>
    obtain ⟨nx, ny⟩ := q
    intro g x y hns hf a b
    have hq := hns (nx, ny) (List.mem_cons_self _ _)
    have hrest : ∀ p ∈ rest, p.1 ≤ W ∧ p.2 ≤ H :=
      fun p hp => hns p (List.mem_cons_of_mem _ hp)
    have hdef : tryLoop next g x y ((nx, ny) :: rest) =
        (if (g nx ny).visited then tryLoop next g x y rest
        else if nx = x ∧ (g x (max y ny)).top then tryLoop next g x y rest
        else if ny = y ∧ (g (max x nx) y).left then tryLoop next g x y rest
        else if (next g nx ny).2 then (setPath (next g nx ny).1 x y, true)
        else tryLoop next (next g nx ny).1 x y rest) := rfl
    rw [hdef] at hf ⊢
    by_cases h1 : (g nx ny).visited = true
    · rw [if_pos h1] at hf ⊢; exact ih g x y hrest hf a b
    rw [if_neg h1] at hf ⊢
    by_cases h2 : nx = x ∧ (g x (max y ny)).top = true
    · rw [if_pos h2] at hf ⊢; exact ih g x y hrest hf a b
    rw [if_neg h2] at hf ⊢
    by_cases h3 : ny = y ∧ (g (max x nx) y).left = true
    · rw [if_pos h3] at hf ⊢; exact ih g x y hrest hf a b
    rw [if_neg h3] at hf ⊢
    by_cases h4 : (next g nx ny).2 = true
    · rw [if_pos h4] at hf; cases hf
    · rw [if_neg h4] at hf ⊢
      rw [ih _ x y hrest hf a b]
      exact hnextF g nx ny hq.1 hq.2 (by simpa using h4) a b

theorem testPath_false_paths {W H : Nat} :
    ∀ (fuel : Nat) (g : Grid) (x y : Nat), x ≤ W → y ≤ H →
      (testPath W H fuel g x y).2 = false →
      ∀ a b, ((testPath W H fuel g x y).1 a b).path = (g a b).path := by
  intro fuel
  induction fuel with
  | zero => intro g x y _ _ _ a b; rfl
  | succ fuel ih =>
    intro g x y hx hy hf a b
    have hdef : testPath W H (fuel + 1) g x y =
        (if x = W - 1 ∧ y = H - 1 then (setPath (setVisited g x y) x y, true)
        else tryLoop (testPath W H fuel) (setVisited g x y) x y (nbrs W H x y)) := rfl
    rw [hdef] at hf ⊢
    by_cases h0 : x = W - 1 ∧ y = H - 1
    · rw [if_pos h0] at hf; cases hf
    · rw [if_neg h0] at hf ⊢
      rw [tryLoop_false_paths (testPath W H fuel)
        (fun g nx ny h1 h2 hb a b => ih g nx ny h1 h2 hb a b)
        (nbrs W H x y) (setVisited g x y) x y
        (fun p hp => nbrs_bounds hx hy hp) hf a b]
      exact path_setVisited g x y a b

/-! ### Solver soundness: a successful search implies reachability -/

theorem openMove_walls_iff {g g' : Grid}
    (hw : ∀ a b, (g' a b).top = (g a b).top ∧ (g' a b).left = (g a b).left)
    (p q : Nat × Nat) : openMove g' p q ↔ openMove g p q := by
  unfold openMove openStep
  rw [(hw p.1 q.2).1, (hw q.1 p.2).2, (hw q.1 p.2).1, (hw p.1 q.2).2]

theorem reach_walls {W H : Nat} {g g' : Grid}
    (hw : ∀ a b, (g' a b).top = (g a b).top ∧ (g' a b).left = (g a b).left)
    {u v : Nat × Nat} (h : Relation.ReflTransGen (playStep W H g') u v) :
    Relation.ReflTransGen (playStep W H g) u v := by
  refine Relation.ReflTransGen.mono ?_ h
  intro p q hpq
  exact ⟨hpq.1, hpq.2.1, hpq.2.2.1, hpq.2.2.2.1,
    (openMove_walls_iff hw p q).1 hpq.2.2.2.2⟩

theorem closedOutside_mono {W H : Nat} {g g' : Grid}
    (h : ClosedOutside W H g)
    (he : ∀ a b, (g a b).visited = true → (g' a b).visited = true) :
    ClosedOutside W H g' :=
  fun x y hx hy hnp => he x y (h x y hx hy hnp)

theorem open_of_guards {W H x y : Nat} {g : Grid} {p : Nat × Nat}
    (hp : p ∈ nbrs W H x y)
    (h2 : ¬(p.1 = x ∧ (g x (max y p.2)).top = true))
    (h3 : ¬(p.2 = y ∧ (g (max x p.1) y).left = true)) :
    openMove g (x, y) p := by
  rcases mem_nbrs.1 hp with ⟨h, rfl⟩ | ⟨h, rfl⟩ | ⟨h, rfl⟩ | ⟨h, rfl⟩
  · -- left neighbour (x-1, y)
    have hm : max x (x - 1) = x := by omega
    rw [hm] at h3
    have hl : (g x y).left = false := by
      rcases Bool.eq_false_or_eq_true (g x y).left with hb | hb
      · exact absurd ⟨rfl, hb⟩ h3
      · exact hb
    refine Or.inr (Or.inr ?_)
    exact ⟨rfl, by omega, by simpa using hl⟩
  · -- right neighbour (x+1, y)
    have hm : max x (x + 1) = x + 1 := by omega
    rw [hm] at h3
    have hl : (g (x + 1) y).left = false := by
      rcases Bool.eq_false_or_eq_true (g (x + 1) y).left with hb | hb
      · exact absurd ⟨rfl, hb⟩ h3
      · exact hb
    exact Or.inl (Or.inr ⟨rfl, rfl, hl⟩)
  · -- upper neighbour (x, y-1)
    have hm : max y (y - 1) = y := by omega
    rw [hm] at h2
    have ht : (g x y).top = false := by
      rcases Bool.eq_false_or_eq_true (g x y).top with hb | hb
      · exact absurd ⟨rfl, hb⟩ h2
      · exact hb
    refine Or.inr (Or.inl ?_)
    exact ⟨rfl, by omega, by simpa using ht⟩
  · -- lower neighbour (x, y+1)
    have hm : max y (y + 1) = y + 1 := by omega
    rw [hm] at h2
    have ht : (g x (y + 1)).top = false := by
      rcases Bool.eq_false_or_eq_true (g x (y + 1)).top with hb | hb
      · exact absurd ⟨rfl, hb⟩ h2
      · exact hb
    exact Or.inl (Or.inl ⟨rfl, rfl, ht⟩)

theorem tryLoop_sound {W H : Nat} (next : Grid → Nat → Nat → Grid × Bool)
    (hnextE : ∀ g nx ny, nx ≤ W → ny ≤ H → SolveEvol W H g (next g nx ny).1)
    (hnextS : ∀ g nx ny, ClosedOutside W H g → nx < W → ny < H →
      (next g nx ny).2 = true →
      Relation.ReflTransGen (playStep W H g) (nx, ny) (W - 1, H - 1)) :
    ∀ (ns : List (Nat × Nat)) (g : Grid) (x y : Nat),
      ClosedOutside W H g → x < W → y < H →
      (∀ p ∈ ns, p ∈ nbrs W H x y) →
      (tryLoop next g x y ns).2 = true →
      Relation.ReflTransGen (playStep W H g) (x, y) (W - 1, H - 1) := by
  intro ns
  induction ns with
  | nil => intro g x y _ _ _ _ ht; cases ht
  | cons q rest ih =>
    obtain ⟨nx, ny⟩ := q
    intro g x y hC hx hy hns ht
    have hq : (nx, ny) ∈ nbrs W H x y := hns (nx, ny) (List.mem_cons_self _ _)
    have hqb := nbrs_bounds (le_of_lt hx) (le_of_lt hy) hq
    have hrest : ∀ p ∈ rest, p ∈ nbrs W H x y :=
      fun p hp => hns p (List.mem_cons_of_mem _ hp)
    have hdef : tryLoop next g x y ((nx, ny) :: rest) =
        (if (g nx ny).visited then tryLoop next g x y rest
        else if nx = x ∧ (g x (max y ny)).top then tryLoop next g x y rest
        else if ny = y ∧ (g (max x nx) y).left then tryLoop next g x y rest
        else if (next g nx ny).2 then (setPath (next g nx ny).1 x y, true)
        else tryLoop next (next g nx ny).1 x y rest) := rfl
    rw [hdef] at ht
    by_cases h1 : (g nx ny).visited = true
    · rw [if_pos h1] at ht; exact ih g x y hC hx hy hrest ht
    rw [if_neg h1] at ht
    by_cases h2 : nx = x ∧ (g x (max y ny)).top = true
    · rw [if_pos h2] at ht; exact ih g x y hC hx hy hrest ht
    rw [if_neg h2] at ht
    by_cases h3 : ny = y ∧ (g (max x nx) y).left = true
    · rw [if_pos h3] at ht; exact ih g x y hC hx hy hrest ht
    rw [if_neg h3] at ht
    have hplay : nx < W ∧ ny < H := by
      by_contra hc
      exact h1 (hC nx ny hqb.1 hqb.2 hc)
    by_cases h4 : (next g nx ny).2 = true
    · have hreach := hnextS g nx ny hC hplay.1 hplay.2 h4
      exact Relation.ReflTransGen.head
        ⟨hx, hy, hplay.1, hplay.2, open_of_guards hq h2 h3⟩ hreach
    · rw [if_neg h4] at ht
      have hE := hnextE g nx ny hqb.1 hqb.2
      have hC1 : ClosedOutside W H (next g nx ny).1 :=
        closedOutside_mono hC hE.2.2.1
      have hreach := ih (next g nx ny).1 x y hC1 hx hy hrest ht
      exact reach_walls (fun a b => ⟨hE.1 a b, hE.2.1 a b⟩) hreach

theorem testPath_sound {W H : Nat} :
    ∀ (fuel : Nat) (g : Grid) (x y : Nat),
      ClosedOutside W H g → x < W → y < H →
      (testPath W H fuel g x y).2 = true →
      Relation.ReflTransGen (playStep W H g) (x, y) (W - 1, H - 1) := by
  intro fuel
  induction fuel with
  | zero => intro g x y _ _ _ ht; cases ht
  | succ fuel ih =>
    intro g x y hC hx hy ht
    have hdef : testPath W H (fuel + 1) g x y =
        (if x = W - 1 ∧ y = H - 1 then (setPath (setVisited g x y) x y, true)
        else tryLoop (testPath W H fuel) (setVisited g x y) x y (nbrs W H x y)) := rfl
    rw [hdef] at ht
    by_cases h0 : x = W - 1 ∧ y = H - 1
    · rw [h0.1, h0.2]
    · rw [if_neg h0] at ht
      have hC1 : ClosedOutside W H (setVisited g x y) :=
        closedOutside_mono hC (fun a b h => visited_setVisited_mono h)
      have hreach := tryLoop_sound (testPath W H fuel)
        (fun g nx ny hnx hny => testPath_evol fuel g nx ny hnx hny)
        (fun g nx ny hc h1 h2 hb => ih g nx ny hc h1 h2 hb)
        (nbrs W H x y) (setVisited g x y) x y hC1 hx hy (fun p hp => hp) ht
      exact reach_walls
        (fun a b => ⟨top_setVisited g x y a b, left_setVisited g x y a b⟩) hreach

/-! ### Reset lemmas -/

theorem top_resetVisited (W H : Nat) (g : Grid) (a b : Nat) :
    (resetVisited W H g a b).top = (g a b).top := by
  unfold resetVisited
  by_cases h : a < W ∧ b < H <;> simp [h]

theorem left_resetVisited (W H : Nat) (g : Grid) (a b : Nat) :
    (resetVisited W H g a b).left = (g a b).left := by
  unfold resetVisited
  by_cases h : a < W ∧ b < H <;> simp [h]

theorem path_resetVisited (W H : Nat) (g : Grid) (a b : Nat) :
    (resetVisited W H g a b).path = (g a b).path := by
  unfold resetVisited
  by_cases h : a < W ∧ b < H <;> simp [h]

theorem resetVisited_outside {W H : Nat} (g : Grid) {a b : Nat}
    (h : ¬(a < W ∧ b < H)) : resetVisited W H g a b = g a b := by
  unfold resetVisited
  simp [h]

theorem closedOutside_reset {W H : Nat} {g : Grid} (h : ClosedOutside W H g) :
    ClosedOutside W H (resetVisited W H g) := by
  intro x y hx hy hnp
  rw [resetVisited_outside g hnp]
  exact h x y hx hy hnp

/-! ### Claim C4 (corrected) -/

theorem c4grid_closed :
    ClosedOutside 2 1 (setPath (setLeftFalse (initGrid 2 1) 0 0) 0 0) := by
  intro x y hx hy hnp
  interval_cases x <;> interval_cases y <;>
    first
      | exact absurd (by omega) hnp
      | decide

theorem c4grid_unsolvable :
    ¬Solvable 2 1 (setPath (setLeftFalse (initGrid 2 1) 0 0) 0 0) := by
  intro h
  have hnostep : ∀ c : Nat × Nat,
      ¬playStep 2 1 (setPath (setLeftFalse (initGrid 2 1) 0 0) 0 0) (0, 0) c := by
    rintro ⟨cx, cy⟩ ⟨h1, h2, h3, h4, hm⟩
    have hcx : cx < 2 := h3
    have hcy : cy < 1 := h4
    interval_cases cx <;> interval_cases cy <;> revert hm <;>
      (unfold openMove openStep) <;> decide
  rcases Relation.ReflTransGen.cases_head h with heq | ⟨c, hstep, _⟩
  · exact absurd heq (by decide)
  · exact hnostep c hstep

/-- Claim C4, as amended: on a well-formed grid (closure cells visited)
with no open-wall path from the entrance to the goal, the solver
terminates with `test_path(0, 0)` returning false and leaves every `path`
flag exactly as it was in the input (all false whenever the input's were
false).  The boolean result, however, is discarded by
`_ = test_path(0, 0)` (line 196): `set_maze_path` returns only the grid
and no distinct failure report reaches the caller; in particular
pre-existing `path` flags are not cleared. -/
theorem solver_no_path_behavior (W H : Nat) (g : Grid)
    (hW : 1 ≤ W) (hH : 1 ≤ H)
    (hwf : ClosedOutside W H g) (hun : ¬Solvable W H g) :
    (testPath W H ((W + 1) * (H + 1)) (resetVisited W H g) 0 0).2 = false ∧
    (∀ a b, (set_maze_path W H g a b).path = (g a b).path) := by
  have hCr : ClosedOutside W H (resetVisited W H g) := closedOutside_reset hwf
  have hwalls : ∀ a b,
      ((resetVisited W H g) a b).top = (g a b).top ∧
      ((resetVisited W H g) a b).left = (g a b).left :=
    fun a b => ⟨top_resetVisited W H g a b, left_resetVisited W H g a b⟩
  have hflag : (testPath W H ((W + 1) * (H + 1)) (resetVisited W H g) 0 0).2 = false := by
    by_contra hc
    have ht : (testPath W H ((W + 1) * (H + 1)) (resetVisited W H g) 0 0).2 = true := by
      simpa using hc
    have hreach := testPath_sound ((W + 1) * (H + 1)) (resetVisited W H g)
      0 0 hCr (by omega) (by omega) ht
    exact hun (reach_walls hwalls hreach)
  refine ⟨hflag, fun a b => ?_⟩
  have h1 : ((testPath W H ((W + 1) * (H + 1)) (resetVisited W H g) 0 0).1 a b).path =
      ((resetVisited W H g) a b).path :=
    testPath_false_paths ((W + 1) * (H + 1)) (resetVisited W H g) 0 0
      (Nat.zero_le _) (Nat.zero_le _) hflag a b
  exact h1.trans (path_resetVisited W H g a b)

/-- Witness for C4 at the 2×1 grid whose interior wall is still present
(goal unreachable) and whose entrance carries a stale `path` flag. -/
theorem solver_no_path_behavior_witness :
    ClosedOutside 2 1 (setPath (setLeftFalse (initGrid 2 1) 0 0) 0 0) ∧
    ¬Solvable 2 1 (setPath (setLeftFalse (initGrid 2 1) 0 0) 0 0) ∧
    ((testPath 2 1 6 (resetVisited 2 1
        (setPath (setLeftFalse (initGrid 2 1) 0 0) 0 0)) 0 0).2 = false ∧
     (∀ a b, (set_maze_path 2 1 (setPath (setLeftFalse (initGrid 2 1) 0 0) 0 0) a b).path =
       ((setPath (setLeftFalse (initGrid 2 1) 0 0) 0 0) a b).path)) :=
  ⟨c4grid_closed, c4grid_unsolvable,
    solver_no_path_behavior 2 1 _ (by decide) (by decide)
      c4grid_closed c4grid_unsolvable⟩

/-- Counterexample to C4 as stated: the same well-formed, unsolvable 2×1
grid carries a stale `path = true` flag on the entrance cell (e.g. from a
solve that preceded the wall edit); `set_maze_path` returns it with that
flag still true — not "all path flags false" — and the only failure
signal, the boolean of `test_path`, is discarded. -/
theorem solver_failure_cex :
    ClosedOutside 2 1 (setPath (setLeftFalse (initGrid 2 1) 0 0) 0 0) ∧
    ¬Solvable 2 1 (setPath (setLeftFalse (initGrid 2 1) 0 0) 0 0) ∧
    ((set_maze_path 2 1 (setPath (setLeftFalse (initGrid 2 1) 0 0) 0 0)) 0 0).path = true :=
  ⟨c4grid_closed, c4grid_unsolvable, by decide⟩

/-! ### Solver congruence: path flags do not influence the run -/

theorem bool_eq_of_iff {a b : Bool} (h : a = true ↔ b = true) : a = b := by
  cases a <;> cases b <;> simp_all

theorem agreeVW_setVisited {g1 g2 : Grid} (x y : Nat) (h : AgreeVW g1 g2) :
    AgreeVW (setVisited g1 x y) (setVisited g2 x y) := by
  intro a b
  by_cases hc : a = x ∧ b = y <;> simp [setVisited, hc]
  · exact ⟨(h x y).2.1, (h x y).2.2⟩
  · exact h a b

theorem agreeVW_setPath {g1 g2 : Grid} (x y : Nat) (h : AgreeVW g1 g2) :
    AgreeVW (setPath g1 x y) (setPath g2 x y) := by
  intro a b
  by_cases hc : a = x ∧ b = y <;> simp [setPath, hc]
  · exact h x y
  · exact h a b

set_option maxHeartbeats 1000000 in
theorem tryLoop_congr (next : Grid → Nat → Nat → Grid × Bool)
    (hnext : ∀ g1 g2 nx ny, AgreeVW g1 g2 →
      (next g1 nx ny).2 = (next g2 nx ny).2 ∧
      AgreeVW (next g1 nx ny).1 (next g2 nx ny).1 ∧
      ∃ mk : Nat → Nat → Prop,
        (∀ a b, ((next g1 nx ny).1 a b).path = true ↔
          ((g1 a b).path = true ∨ mk a b)) ∧
        (∀ a b, ((next g2 nx ny).1 a b).path = true ↔
          ((g2 a b).path = true ∨ mk a b))) :
    ∀ (ns : List (Nat × Nat)) (g1 g2 : Grid) (x y : Nat), AgreeVW g1 g2 →
      (tryLoop next g1 x y ns).2 = (tryLoop next g2 x y ns).2 ∧
      AgreeVW (tryLoop next g1 x y ns).1 (tryLoop next g2 x y ns).1 ∧
      ∃ mk : Nat → Nat → Prop,
        (∀ a b, ((tryLoop next g1 x y ns).1 a b).path = true ↔
          ((g1 a b).path = true ∨ mk a b)) ∧
        (∀ a b, ((tryLoop next g2 x y ns).1 a b).path = true ↔
          ((g2 a b).path = true ∨ mk a b)) := by
  intro ns
  induction ns with
  | nil =>
    intro g1 g2 x y hA
    exact ⟨rfl, hA, fun _ _ => False, fun a b => by simp [tryLoop],
      fun a b => by simp [tryLoop]⟩
  | cons q rest ih =>
    obtain ⟨nx, ny⟩ := q
    intro g1 g2 x y hA
    have hd1 : tryLoop next g1 x y ((nx, ny) :: rest) =
        (if (g1 nx ny).visited then tryLoop next g1 x y rest
        else if nx = x ∧ (g1 x (max y ny)).top then tryLoop next g1 x y rest
        else if ny = y ∧ (g1 (max x nx) y).left then tryLoop next g1 x y rest
        else if (next g1 nx ny).2 then (setPath (next g1 nx ny).1 x y, true)
        else tryLoop next (next g1 nx ny).1 x y rest) := rfl
    have hd2 : tryLoop next g2 x y ((nx, ny) :: rest) =
        (if (g2 nx ny).visited then tryLoop next g2 x y rest
        else if nx = x ∧ (g2 x (max y ny)).top then tryLoop next g2 x y rest
        else if ny = y ∧ (g2 (max x nx) y).left then tryLoop next g2 x y rest
        else if (next g2 nx ny).2 then (setPath (next g2 nx ny).1 x y, true)
        else tryLoop next (next g2 nx ny).1 x y rest) := rfl
    rw [hd1, hd2]
    by_cases h1 : (g1 nx ny).visited = true
    · have h1' : (g2 nx ny).visited = true := by rw [← (hA nx ny).1]; exact h1
      rw [if_pos h1, if_pos h1']
      exact ih g1 g2 x y hA
    · have h1' : ¬(g2 nx ny).visited = true := by rw [← (hA nx ny).1]; exact h1
      rw [if_neg h1, if_neg h1']
      by_cases h2 : nx = x ∧ (g1 x (max y ny)).top = true
      · have h2' : nx = x ∧ (g2 x (max y ny)).top = true :=
          ⟨h2.1, by rw [← (hA x (max y ny)).2.1]; exact h2.2⟩
        rw [if_pos h2, if_pos h2']
        exact ih g1 g2 x y hA
      · have h2' : ¬(nx = x ∧ (g2 x (max y ny)).top = true) := by
          rw [← (hA x (max y ny)).2.1]; exact h2
        rw [if_neg h2, if_neg h2']
        by_cases h3 : ny = y ∧ (g1 (max x nx) y).left = true
        · have h3' : ny = y ∧ (g2 (max x nx) y).left = true :=
            ⟨h3.1, by rw [← (hA (max x nx) y).2.2]; exact h3.2⟩
          rw [if_pos h3, if_pos h3']
          exact ih g1 g2 x y hA
        · have h3' : ¬(ny = y ∧ (g2 (max x nx) y).left = true) := by
            rw [← (hA (max x nx) y).2.2]; exact h3
          rw [if_neg h3, if_neg h3']
          obtain ⟨hbeq, hA1, mk1, hm1, hm2⟩ := hnext g1 g2 nx ny hA
          by_cases h4 : (next g1 nx ny).2 = true
          · have h4' : (next g2 nx ny).2 = true := by rw [← hbeq]; exact h4
            rw [if_pos h4, if_pos h4']
            refine ⟨rfl, agreeVW_setPath x y hA1,
              fun a b => mk1 a b ∨ (a = x ∧ b = y), fun a b => ?_, fun a b => ?_⟩
            · rw [path_setPath_iff, hm1 a b]; tauto
            · rw [path_setPath_iff, hm2 a b]; tauto
          · have h4' : ¬(next g2 nx ny).2 = true := by rw [← hbeq]; exact h4
            rw [if_neg h4, if_neg h4']
            obtain ⟨hbeq2, hA2, mk2, hn1, hn2⟩ :=
              ih (next g1 nx ny).1 (next g2 nx ny).1 x y hA1
            refine ⟨hbeq2, hA2, fun a b => mk1 a b ∨ mk2 a b,
              fun a b => ?_, fun a b => ?_⟩
            · rw [hn1 a b, hm1 a b]; tauto
            · rw [hn2 a b, hm2 a b]; tauto

set_option maxHeartbeats 1000000 in
theorem testPath_congr {W H : Nat} :
    ∀ (fuel : Nat) (g1 g2 : Grid) (x y : Nat), AgreeVW g1 g2 →
      (testPath W H fuel g1 x y).2 = (testPath W H fuel g2 x y).2 ∧
      AgreeVW (testPath W H fuel g1 x y).1 (testPath W H fuel g2 x y).1 ∧
      ∃ mk : Nat → Nat → Prop,
        (∀ a b, ((testPath W H fuel g1 x y).1 a b).path = true ↔
          ((g1 a b).path = true ∨ mk a b)) ∧
        (∀ a b, ((testPath W H fuel g2 x y).1 a b).path = true ↔
          ((g2 a b).path = true ∨ mk a b)) := by
  intro fuel
  induction fuel with
  | zero =>
    intro g1 g2 x y hA
    exact ⟨rfl, hA, fun _ _ => False, fun a b => by simp [testPath],
      fun a b => by simp [testPath]⟩
  | succ fuel ih =>
    intro g1 g2 x y hA
    have hd1 : testPath W H (fuel + 1) g1 x y =
        (if x = W - 1 ∧ y = H - 1 then (setPath (setVisited g1 x y) x y, true)
        else tryLoop (testPath W H fuel) (setVisited g1 x y) x y (nbrs W H x y)) := rfl
    have hd2 : testPath W H (fuel + 1) g2 x y =
        (if x = W - 1 ∧ y = H - 1 then (setPath (setVisited g2 x y) x y, true)
        else tryLoop (testPath W H fuel) (setVisited g2 x y) x y (nbrs W H x y)) := rfl
    rw [hd1, hd2]
    have hAs : AgreeVW (setVisited g1 x y) (setVisited g2 x y) :=
      agreeVW_setVisited x y hA
    by_cases h0 : x = W - 1 ∧ y = H - 1
    · rw [if_pos h0, if_pos h0]
      refine ⟨rfl, agreeVW_setPath x y hAs,
        fun a b => a = x ∧ b = y, fun a b => ?_, fun a b => ?_⟩
      · rw [path_setPath_iff, path_setVisited]; tauto
      · rw [path_setPath_iff, path_setVisited]; tauto
    · rw [if_neg h0, if_neg h0]
      obtain ⟨hbeq, hA2, mk, hm1, hm2⟩ :=
        tryLoop_congr (testPath W H fuel)
          (fun g1 g2 nx ny hA => ih g1 g2 nx ny hA)
          (nbrs W H x y) (setVisited g1 x y) (setVisited g2 x y) x y hAs
      refine ⟨hbeq, hA2, mk, fun a b => ?_, fun a b => ?_⟩
      · rw [hm1 a b, path_setVisited]
      · rw [hm2 a b, path_setVisited]

/-! ### Claim C8 -/

theorem get_maze_visited_outside {W H : Nat} (r : RNG) (hW : 1 ≤ W) (hH : 1 ≤ H) :
    ∀ a b, ¬(a < W ∧ b < H) → ((get_maze W H r) a b).visited = true := by
  intro a b hab
  rw [get_maze_eq]
  set g2 := setLeftFalse (setLeftFalse (initGrid W H) 0 0) W (H - 1) with hg2
  have h0 : (g2 a b).visited = true := by
    rw [hg2, visited_setLeftFalse, visited_setLeftFalse]
    exact initGrid_visited_outside hab
  exact (enterCell_evol _ _ _ _ _ (le_of_lt (Nat.mod_lt _ hW))
    (le_of_lt (Nat.mod_lt _ hH))).1 a b h0

/-- Claim C8: solving is idempotent on generator output — applying
`set_maze_path` twice yields exactly the same set of `path = true` cells
as applying it once (the solver's control flow reads only `visited` and
wall flags, which agree after the reset loop, so the second run marks the
same cells). -/
theorem solve_idempotent (W H : Nat) (r : RNG) (hW : 1 ≤ W) (hH : 1 ≤ H) :
    ∀ a b, ((set_maze_path W H (set_maze_path W H (get_maze W H r))) a b).path =
      ((set_maze_path W H (get_maze W H r)) a b).path := by
  set g := get_maze W H r with hg
  have hs1 : set_maze_path W H g =
      (testPath W H ((W + 1) * (H + 1)) (resetVisited W H g) 0 0).1 := rfl
  have hvisg : ∀ a b, ¬(a < W ∧ b < H) → (g a b).visited = true :=
    get_maze_visited_outside r hW hH
  have hevol : SolveEvol W H (resetVisited W H g)
      (testPath W H ((W + 1) * (H + 1)) (resetVisited W H g) 0 0).1 :=
    testPath_evol _ _ 0 0 (Nat.zero_le _) (Nat.zero_le _)
  have hA : AgreeVW (resetVisited W H (set_maze_path W H g)) (resetVisited W H g) := by
    intro a b
    have hw1 : ((set_maze_path W H g) a b).top = (g a b).top := by
      rw [hs1, hevol.1 a b, top_resetVisited]
    have hw2 : ((set_maze_path W H g) a b).left = (g a b).left := by
      rw [hs1, hevol.2.1 a b, left_resetVisited]
    by_cases hc : a < W ∧ b < H
    · refine ⟨?_, ?_, ?_⟩
      · show (resetVisited W H (set_maze_path W H g) a b).visited =
          (resetVisited W H g a b).visited
        unfold resetVisited
        simp [hc]
      · rw [top_resetVisited, top_resetVisited, hw1]
      · rw [left_resetVisited, left_resetVisited, hw2]
    · rw [resetVisited_outside _ hc, resetVisited_outside _ hc]
      refine ⟨?_, hw1, hw2⟩
      have hg1 : (g a b).visited = true := hvisg a b hc
      have hs1v : ((set_maze_path W H g) a b).visited = true := by
        rw [hs1]
        refine hevol.2.2.1 a b ?_
        rw [resetVisited_outside _ hc]
        exact hg1
      rw [hs1v, hg1]
  obtain ⟨hbeq, hA2, mk, hm1, hm2⟩ :=
    testPath_congr ((W + 1) * (H + 1))
      (resetVisited W H (set_maze_path W H g)) (resetVisited W H g) 0 0 hA
  intro a b
  apply bool_eq_of_iff
  have hL : ((set_maze_path W H (set_maze_path W H g)) a b).path = true ↔
      (((set_maze_path W H g) a b).path = true ∨ mk a b) := by
    rw [show set_maze_path W H (set_maze_path W H g) =
      (testPath W H ((W + 1) * (H + 1))
        (resetVisited W H (set_maze_path W H g)) 0 0).1 from rfl]
    rw [hm1 a b, path_resetVisited]
  have hR : ((set_maze_path W H g) a b).path = true ↔
      ((g a b).path = true ∨ mk a b) := by
    rw [hs1, hm2 a b, path_resetVisited]
  rw [hL, hR]
  tauto

/-- Witness for C8 at `W = 2`, `H = 1`, the all-zero random stream. -/
theorem solve_idempotent_witness :
    1 ≤ 2 ∧
    (∀ a b, ((set_maze_path 2 1 (set_maze_path 2 1 (get_maze 2 1 (fun _ => 0)))) a b).path =
      ((set_maze_path 2 1 (get_maze 2 1 (fun _ => 0))) a b).path) :=
  ⟨by decide, solve_idempotent 2 1 (fun _ => 0) (by decide) (by decide)⟩

/-! ### Counting lemmas for the carving walk -/

theorem unvisitedCount_eq_of_visited_eq {W H : Nat} {g g' : Grid}
    (h : ∀ a b, (g' a b).visited = (g a b).visited) :
    unvisitedCount W H g' = unvisitedCount W H g := by
  unfold unvisitedCount
  congr 1
  apply Finset.filter_congr
  intro p _
  rw [h p.1 p.2]

theorem unvisitedCount_carveWall (W H : Nat) (g : Grid) (x y nx ny : Nat) :
    unvisitedCount W H (carveWall g x y nx ny) = unvisitedCount W H g :=
  unvisitedCount_eq_of_visited_eq (fun a b => by
    show ((if ny = y then
        setLeftFalse (if nx = x then setTopFalse g x (max y ny) else g) (max x nx) y
      else (if nx = x then setTopFalse g x (max y ny) else g)) a b).visited = _
    by_cases h1 : nx = x <;> by_cases h2 : ny = y <;>
      simp [h1, h2, visited_setLeftFalse, visited_setTopFalse])

theorem unvisitedCount_le_of_mono {W H : Nat} {g g' : Grid}
    (h : ∀ a b, (g a b).visited = true → (g' a b).visited = true) :
    unvisitedCount W H g' ≤ unvisitedCount W H g := by
  unfold unvisitedCount
  apply Finset.card_le_card
  intro p hp
  rw [Finset.mem_filter] at hp ⊢
  refine ⟨hp.1, ?_⟩
  rcases Bool.eq_false_or_eq_true (g p.1 p.2).visited with hb | hb
  · have hv := h p.1 p.2 hb
    rw [hp.2] at hv
    cases hv
  · exact hb

theorem unvisitedCount_setVisited_succ {W H : Nat} {g : Grid} {x y : Nat}
    (hx : x ≤ W) (hy : y ≤ H) (hun : (g x y).visited = false) :
    unvisitedCount W H (setVisited g x y) + 1 = unvisitedCount W H g := by
  unfold unvisitedCount
  have hmem : (x, y) ∈ (Finset.range (W + 1) ×ˢ Finset.range (H + 1)).filter
      (fun p => (g p.1 p.2).visited = false) := by
    rw [Finset.mem_filter, Finset.mem_product, Finset.mem_range, Finset.mem_range]
    exact ⟨⟨by omega, by omega⟩, hun⟩
  have hset : (Finset.range (W + 1) ×ˢ Finset.range (H + 1)).filter
      (fun p => ((setVisited g x y) p.1 p.2).visited = false) =
      ((Finset.range (W + 1) ×ˢ Finset.range (H + 1)).filter
        (fun p => (g p.1 p.2).visited = false)).erase (x, y) := by
    apply Finset.ext
    intro p
    rw [Finset.mem_erase, Finset.mem_filter, Finset.mem_filter]
    constructor
    · intro ⟨hd, hv⟩
      by_cases hc : p.1 = x ∧ p.2 = y
      · exfalso
        rw [show ((setVisited g x y) p.1 p.2) = { g p.1 p.2 with visited := true } by
          simp [setVisited, hc]] at hv
        cases hv
      · rw [setVisited_ne hc] at hv
        refine ⟨?_, hd, hv⟩
        intro he
        exact hc ⟨by rw [he], by rw [he]⟩
    · intro ⟨hne, hd, hv⟩
      have hc : ¬(p.1 = x ∧ p.2 = y) := by
        intro hc
        exact hne (Prod.ext hc.1 hc.2)
      rw [setVisited_ne hc]
      exact ⟨hd, hv⟩
  have hpos : 0 < ((Finset.range (W + 1) ×ˢ Finset.range (H + 1)).filter
      (fun p => (g p.1 p.2).visited = false)).card :=
    Finset.card_pos.2 ⟨_, hmem⟩
  rw [hset, Finset.card_erase_of_mem hmem]
  omega

theorem unvisitedCount_setVisited_lt {W H : Nat} {g : Grid} {x y : Nat}
    (hx : x ≤ W) (hy : y ≤ H) (hun : (g x y).visited = false) :
    unvisitedCount W H (setVisited g x y) < unvisitedCount W H g := by
  have := unvisitedCount_setVisited_succ (W := W) (H := H) hx hy hun
  omega

/-! ### Carve completeness: the walk visits every playable cell -/

theorem visited_carveWall (g : Grid) (x y nx ny a b : Nat) :
    (carveWall g x y nx ny a b).visited = (g a b).visited := by
  show ((if ny = y then
      setLeftFalse (if nx = x then setTopFalse g x (max y ny) else g) (max x nx) y
    else (if nx = x then setTopFalse g x (max y ny) else g)) a b).visited = _
  by_cases h1 : nx = x <;> by_cases h2 : ny = y <;>
    simp [h1, h2, visited_setLeftFalse, visited_setTopFalse]

theorem carveLoop_evol {W H fuel : Nat} :
    ∀ (ns : List (Nat × Nat)) (g : Grid) (r : RNG) (x y : Nat),
      x ≤ W → y ≤ H → (∀ p ∈ ns, p.1 ≤ W ∧ p.2 ≤ H) →
      CarveEvol W H g (carveLoop (enterCell W H fuel) g r x y ns).1 :=
  carveLoop_pres (CarveEvol W H) (carveEvol_refl W H)
    (fun h1 h2 => carveEvol_trans h1 h2) carveEvol_carveWall
    (enterCell W H fuel) (fun g r nx ny h1 h2 => enterCell_evol fuel g r nx ny h1 h2)

theorem carveLoop_complete {W H : Nat} (fuel : Nat)
    (ihC : ∀ (g : Grid) (r : RNG) (nx ny : Nat), nx ≤ W → ny ≤ H →
      unvisitedCount W H (setVisited g nx ny) < fuel →
      (((enterCell W H fuel g r nx ny).1 nx ny).visited = true) ∧
      (∀ p ∈ nbrs W H nx ny, ((enterCell W H fuel g r nx ny).1 p.1 p.2).visited = true) ∧
      (∀ a b, a ≤ W → b ≤ H → (g a b).visited = false →
        ((enterCell W H fuel g r nx ny).1 a b).visited = true →
        ∀ p ∈ nbrs W H a b, ((enterCell W H fuel g r nx ny).1 p.1 p.2).visited = true)) :
    ∀ (ns : List (Nat × Nat)) (g : Grid) (r : RNG) (x y : Nat),
      x ≤ W → y ≤ H → (∀ p ∈ ns, p.1 ≤ W ∧ p.2 ≤ H) →
      unvisitedCount W H g ≤ fuel →
      (∀ p ∈ ns, ((carveLoop (enterCell W H fuel) g r x y ns).1 p.1 p.2).visited = true) ∧
      (∀ a b, a ≤ W → b ≤ H → (g a b).visited = false →
        ((carveLoop (enterCell W H fuel) g r x y ns).1 a b).visited = true →
        ∀ p ∈ nbrs W H a b,
          ((carveLoop (enterCell W H fuel) g r x y ns).1 p.1 p.2).visited = true) := by
  intro ns
  induction ns with
  | nil =>
    intro g r x y hx hy _ _
    refine ⟨fun p hp => absurd hp (List.not_mem_nil p), ?_⟩
    intro a b _ _ hun hvis
    rw [show (carveLoop (enterCell W H fuel) g r x y []).1 = g from rfl] at hvis
    rw [hun] at hvis
    cases hvis
  | cons q rest ih =>
    obtain ⟨nx, ny⟩ := q
    intro g r x y hx hy hns hfuel
    have hq := hns (nx, ny) (List.mem_cons_self _ _)
    have hrest : ∀ p ∈ rest, p.1 ≤ W ∧ p.2 ≤ H :=
      fun p hp => hns p (List.mem_cons_of_mem _ hp)
    have hdef : carveLoop (enterCell W H fuel) g r x y ((nx, ny) :: rest) =
        (if (g nx ny).visited then carveLoop (enterCell W H fuel) g r x y rest
        else carveLoop (enterCell W H fuel)
          (enterCell W H fuel (carveWall g x y nx ny) r nx ny).1
          (enterCell W H fuel (carveWall g x y nx ny) r nx ny).2 x y rest) := rfl
    by_cases h1 : (g nx ny).visited = true
    · rw [hdef, if_pos h1]
      obtain ⟨hv2, hv3⟩ := ih g r x y hx hy hrest hfuel
      have hLE : CarveEvol W H g (carveLoop (enterCell W H fuel) g r x y rest).1 :=
        carveLoop_evol rest g r x y hx hy hrest
      refine ⟨?_, hv3⟩
      intro p hp
      rcases List.mem_cons.1 hp with heq | hmem
      · rw [heq]
        exact hLE.1 nx ny h1
      · exact hv2 p hmem
    · have h1' : (g nx ny).visited = false := by simpa using h1
      rw [hdef, if_neg h1]
      set g2 := carveWall g x y nx ny with hg2
      have hg2vis : ∀ a b, (g2 a b).visited = (g a b).visited :=
        fun a b => visited_carveWall g x y nx ny a b
      have hg2un : (g2 nx ny).visited = false := by rw [hg2vis]; exact h1'
      have hcnt2 : unvisitedCount W H g2 = unvisitedCount W H g :=
        unvisitedCount_eq_of_visited_eq hg2vis
      have hfuel2 : unvisitedCount W H (setVisited g2 nx ny) < fuel := by
        have := unvisitedCount_setVisited_succ (W := W) (H := H) (g := g2)
          (x := nx) (y := ny) hq.1 hq.2 hg2un
        omega
      obtain ⟨he1, he2, he3⟩ := ihC g2 r nx ny hq.1 hq.2 hfuel2
      set g3 := (enterCell W H fuel g2 r nx ny).1 with hg3
      have hE3 : CarveEvol W H g2 g3 := enterCell_evol fuel g2 r nx ny hq.1 hq.2
      have hmono3 : ∀ a b, ((setVisited g2 nx ny) a b).visited = true →
          (g3 a b).visited = true := by
        intro a b hv
        by_cases hc : a = nx ∧ b = ny
        · rw [hc.1, hc.2]; exact he1
        · rw [setVisited_ne hc] at hv
          exact hE3.1 a b hv
      have hfuel3 : unvisitedCount W H g3 ≤ fuel := by
        have h1le : unvisitedCount W H g3 ≤ unvisitedCount W H (setVisited g2 nx ny) :=
          unvisitedCount_le_of_mono hmono3
        omega
      obtain ⟨hv2, hv3⟩ := ih g3 (enterCell W H fuel g2 r nx ny).2 x y hx hy hrest hfuel3
      have hLE : CarveEvol W H g3
          (carveLoop (enterCell W H fuel) g3 (enterCell W H fuel g2 r nx ny).2 x y rest).1 :=
        carveLoop_evol rest g3 _ x y hx hy hrest
      refine ⟨?_, ?_⟩
      · intro p hp
        rcases List.mem_cons.1 hp with heq | hmem
        · rw [heq]
          exact hLE.1 nx ny he1
        · exact hv2 p hmem
      · intro a b ha hb hun hvis
        by_cases hc : (g3 a b).visited = true
        · have hung2 : (g2 a b).visited = false := by rw [hg2vis]; exact hun
          intro p hp
          exact hLE.1 p.1 p.2 (he3 a b ha hb hung2 hc p hp)
        · have hun3 : (g3 a b).visited = false := by simpa using hc
          exact hv3 a b ha hb hun3 hvis

theorem enterCell_complete {W H : Nat} :
    ∀ (fuel : Nat) (g : Grid) (r : RNG) (x y : Nat), x ≤ W → y ≤ H →
      unvisitedCount W H (setVisited g x y) < fuel →
      (((enterCell W H fuel g r x y).1 x y).visited = true) ∧
      (∀ p ∈ nbrs W H x y, ((enterCell W H fuel g r x y).1 p.1 p.2).visited = true) ∧
      (∀ a b, a ≤ W → b ≤ H → (g a b).visited = false →
        ((enterCell W H fuel g r x y).1 a b).visited = true →
        ∀ p ∈ nbrs W H a b, ((enterCell W H fuel g r x y).1 p.1 p.2).visited = true) := by
  intro fuel
  induction fuel with
  | zero => intro g r x y _ _ hfuel; omega
  | succ fuel ih =>
    intro g r x y hx hy hfuel
    have hdef : enterCell W H (fuel + 1) g r x y =
        carveLoop (enterCell W H fuel) (setVisited g x y)
          (shuffle (nbrs W H x y) r).2 x y (shuffle (nbrs W H x y) r).1 := rfl
    have hnsb : ∀ p ∈ (shuffle (nbrs W H x y) r).1, p.1 ≤ W ∧ p.2 ≤ H :=
      fun p hp => nbrs_bounds hx hy (mem_shuffle.1 hp)
    have hfl : unvisitedCount W H (setVisited g x y) ≤ fuel := by omega
    obtain ⟨hv2, hv3⟩ := carveLoop_complete fuel
      (fun g r nx ny h1 h2 h3 => ih g r nx ny h1 h2 h3)
      (shuffle (nbrs W H x y) r).1 (setVisited g x y)
      (shuffle (nbrs W H x y) r).2 x y hx hy hnsb hfl
    have hLE : CarveEvol W H (setVisited g x y) (enterCell W H (fuel + 1) g r x y).1 := by
      rw [hdef]
      exact carveLoop_evol _ _ _ x y hx hy hnsb
    rw [hdef]
    refine ⟨?_, ?_, ?_⟩
    · exact hLE.1 x y (setVisited_self g x y)
    · intro p hp
      exact hv2 p (mem_shuffle.2 hp)
    · intro a b ha hb hun hvis
      by_cases hc : a = x ∧ b = y
      · intro p hp
        rw [hc.1, hc.2] at hp
        exact hv2 p (mem_shuffle.2 hp)
      · have hun1 : ((setVisited g x y) a b).visited = false := by
          rw [setVisited_ne hc]; exact hun
        exact hv3 a b ha hb hun1 hvis

theorem unvisitedCount_start {W H : Nat} :
    unvisitedCount W H (setLeftFalse (setLeftFalse (initGrid W H) 0 0) W (H - 1)) =
      W * H := by
  unfold unvisitedCount
  have hset : (Finset.range (W + 1) ×ˢ Finset.range (H + 1)).filter
      (fun p => ((setLeftFalse (setLeftFalse (initGrid W H) 0 0) W (H - 1))
        p.1 p.2).visited = false) =
      Finset.range W ×ˢ Finset.range H := by
    apply Finset.ext
    intro p
    rw [Finset.mem_filter, Finset.mem_product, Finset.mem_product,
      Finset.mem_range, Finset.mem_range, Finset.mem_range, Finset.mem_range,
      visited_setLeftFalse, visited_setLeftFalse, initGrid_unvisited_iff]
    constructor
    · intro h; exact h.2
    · intro h; exact ⟨⟨by omega, by omega⟩, h⟩
  rw [hset, Finset.card_product, Finset.card_range, Finset.card_range]

theorem get_maze_visits_all (W H : Nat) (r : RNG) (hW : 1 ≤ W) (hH : 1 ≤ H) :
    ∀ a b, a < W → b < H → ((get_maze W H r) a b).visited = true := by
  rw [get_maze_eq]
  set x0 := r 0 % W with hx0def
  set y0 := RNG.tail r 0 % H with hy0def
  set g2 := setLeftFalse (setLeftFalse (initGrid W H) 0 0) W (H - 1) with hg2
  have hx0 : x0 < W := Nat.mod_lt _ hW
  have hy0 : y0 < H := Nat.mod_lt _ hH
  have hg2un : ∀ a b, (g2 a b).visited = false ↔ (a < W ∧ b < H) := by
    intro a b
    rw [hg2, visited_setLeftFalse, visited_setLeftFalse, initGrid_unvisited_iff]
  have hrootun : (g2 x0 y0).visited = false := (hg2un x0 y0).2 ⟨hx0, hy0⟩
  have hfuel : unvisitedCount W H (setVisited g2 x0 y0) < W * H := by
    have hs := unvisitedCount_setVisited_succ (W := W) (H := H) (g := g2)
      (x := x0) (y := y0) (le_of_lt hx0) (le_of_lt hy0) hrootun
    have hc : unvisitedCount W H g2 = W * H := unvisitedCount_start
    omega
  obtain ⟨he1, he2, he3⟩ := enterCell_complete (W * H) g2 (RNG.tail (RNG.tail r))
    x0 y0 (le_of_lt hx0) (le_of_lt hy0) hfuel
  set gf := (enterCell W H (W * H) g2 (RNG.tail (RNG.tail r)) x0 y0).1 with hgf
  have main : ∀ d a b, a < W → b < H →
      (x0 - a) + (a - x0) + (y0 - b) + (b - y0) = d → (gf a b).visited = true := by
    intro d
    induction d using Nat.strong_induction_on with
    | _ d ihd =>
      intro a b ha hb hd
      by_cases hroot : a = x0 ∧ b = y0
      · rw [hroot.1, hroot.2]
        exact he1
      · rcases Nat.lt_trichotomy a x0 with hlt | heq | hgt
        · have hq : (gf (a + 1) b).visited = true :=
            ihd ((x0 - (a + 1)) + ((a + 1) - x0) + (y0 - b) + (b - y0))
              (by omega) (a + 1) b (by omega) hb rfl
          have hqun : (g2 (a + 1) b).visited = false := (hg2un _ _).2 ⟨by omega, hb⟩
          refine he3 (a + 1) b (by omega) (le_of_lt hb) hqun hq (a, b) ?_
          refine mem_nbrs.2 (Or.inl ⟨by omega, ?_⟩)
          refine Prod.ext ?_ rfl
          show a = (a + 1) - 1
          omega
        · have hby : b ≠ y0 := fun hc => hroot ⟨heq, hc⟩
          rcases Nat.lt_trichotomy b y0 with hblt | hbeq | hbgt
          · have hq : (gf a (b + 1)).visited = true :=
              ihd ((x0 - a) + (a - x0) + (y0 - (b + 1)) + ((b + 1) - y0))
                (by omega) a (b + 1) ha (by omega) rfl
            have hqun : (g2 a (b + 1)).visited = false := (hg2un _ _).2 ⟨ha, by omega⟩
            refine he3 a (b + 1) (le_of_lt ha) (by omega) hqun hq (a, b) ?_
            refine mem_nbrs.2 (Or.inr (Or.inr (Or.inl ⟨by omega, ?_⟩)))
            refine Prod.ext rfl ?_
            show b = (b + 1) - 1
            omega
          · exact absurd hbeq hby
          · have hq : (gf a (b - 1)).visited = true :=
              ihd ((x0 - a) + (a - x0) + (y0 - (b - 1)) + ((b - 1) - y0))
                (by omega) a (b - 1) ha (by omega) rfl
            have hqun : (g2 a (b - 1)).visited = false := (hg2un _ _).2 ⟨ha, by omega⟩
            refine he3 a (b - 1) (le_of_lt ha) (by omega) hqun hq (a, b) ?_
            refine mem_nbrs.2 (Or.inr (Or.inr (Or.inr ⟨by omega, ?_⟩)))
            refine Prod.ext rfl ?_
            show b = (b - 1) + 1
            omega
        · have hq : (gf (a - 1) b).visited = true :=
            ihd ((x0 - (a - 1)) + ((a - 1) - x0) + (y0 - b) + (b - y0))
              (by omega) (a - 1) b (by omega) hb rfl
          have hqun : (g2 (a - 1) b).visited = false := (hg2un _ _).2 ⟨by omega, hb⟩
          refine he3 (a - 1) b (by omega) (le_of_lt hb) hqun hq (a, b) ?_
          refine mem_nbrs.2 (Or.inr (Or.inl ⟨by omega, ?_⟩))
          refine Prod.ext ?_ rfl
          show a = (a - 1) + 1
          omega
  intro a b ha hb
  exact main ((x0 - a) + (a - x0) + (y0 - b) + (b - y0)) a b ha hb rfl

/-! ### Graph helpers: acyclicity under pendant edge addition -/

theorem walk_exists_last_edge {V : Type} {G : SimpleGraph V} :
    ∀ {x y : V} (p : G.Walk x y), x ≠ y →
      ∃ w, G.Adj w y ∧ s(w, y) ∈ p.edges := by
  intro x y p
  induction p with
  | nil => intro h; exact absurd rfl h
  | @cons a b c h q ih =>
    intro _
    by_cases hby : b = c
    · subst hby
      exact ⟨a, h, by simp⟩
    · obtain ⟨w, hw, hmem⟩ := ih hby
      exact ⟨w, hw, by simp [hmem]⟩

theorem isAcyclic_of_le {V : Type} {G G' : SimpleGraph V}
    (hle : G ≤ G') (hG' : G'.IsAcyclic) : G.IsAcyclic := by
  intro v c hc
  exact hG' (c.mapLe hle) ((SimpleGraph.Walk.mapLe_isCycle hle).mpr hc)

theorem isAcyclic_sup_edge_isolated {V : Type} [DecidableEq V] {G : SimpleGraph V} {u v : V}
    (hG : G.IsAcyclic) (huv : u ≠ v) (hiso : ∀ w, ¬G.Adj v w) :
    (G ⊔ SimpleGraph.edge u v).IsAcyclic := by
  intro a c hc
  have hadj_v : ∀ w, (G ⊔ SimpleGraph.edge u v).Adj v w → w = u := by
    intro w hw
    rw [SimpleGraph.sup_adj] at hw
    rcases hw with hw | hw
    · exact absurd hw (hiso w)
    · rw [SimpleGraph.edge_adj] at hw
      rcases hw.1 with ⟨h1, _⟩ | ⟨_, h2⟩
      · exact absurd h1.symm huv
      · exact h2
  have hv : v ∉ c.support := by
    intro hv
    have hc' := hc.rotate hv
    set c' := c.rotate hv with hcdef
    cases hg : c' with
    | nil =>
      rw [hg] at hc'
      exact SimpleGraph.Walk.IsCycle.not_of_nil hc'
    | @cons _ b _ h q =>
      rw [hg] at hc'
      have hb : b = u := hadj_v b h
      rw [SimpleGraph.Walk.cons_isCycle_iff] at hc'
      have hbv : b ≠ v := by
        rw [hb]; exact huv
      obtain ⟨w, hw, hmem⟩ := walk_exists_last_edge q hbv
      have hwu : w = u := hadj_v w hw.symm
      have heq : s(v, b) = s(w, v) := by
        rw [hb, hwu, Sym2.eq_swap]
      exact hc'.2 (heq ▸ hmem)
  have hedges : ∀ e ∈ c.edges, e ∈ G.edgeSet := by
    intro e he
    have hadj := SimpleGraph.Walk.edges_subset_edgeSet c he
    obtain ⟨x, y⟩ := e
    rw [SimpleGraph.mem_edgeSet, SimpleGraph.sup_adj] at hadj
    rcases hadj with hadj | hadj
    · exact hadj
    · exfalso
      rw [SimpleGraph.edge_adj] at hadj
      have hxy : x ∈ c.support ∧ y ∈ c.support :=
        ⟨SimpleGraph.Walk.fst_mem_support_of_mem_edges c he,
         SimpleGraph.Walk.snd_mem_support_of_mem_edges c he⟩
      rcases hadj.1 with ⟨_, h2⟩ | ⟨h1, _⟩
      · exact hv (h2 ▸ hxy.2)
      · exact hv (h1 ▸ hxy.1)
  exact hG (c.transfer G hedges) (hc.transfer hedges)

/-! ### CarveWall characterizations and counting under wall removal -/

theorem carveWall_left_nbr {g : Grid} {x y : Nat} (h : 0 < x) :
    carveWall g x y (x - 1) y = setLeftFalse g x y := by
  show (if y = y then
      setLeftFalse (if x - 1 = x then setTopFalse g x (max y y) else g) (max x (x - 1)) y
    else _) = _
  rw [if_pos rfl, if_neg (by omega : ¬(x - 1 = x)),
    show max x (x - 1) = x from by omega]

theorem carveWall_right_nbr {g : Grid} {x y : Nat} :
    carveWall g x y (x + 1) y = setLeftFalse g (x + 1) y := by
  show (if y = y then
      setLeftFalse (if x + 1 = x then setTopFalse g x (max y y) else g) (max x (x + 1)) y
    else _) = _
  rw [if_pos rfl, if_neg (by omega : ¬(x + 1 = x)),
    show max x (x + 1) = x + 1 from by omega]

theorem carveWall_up_nbr {g : Grid} {x y : Nat} (h : 0 < y) :
    carveWall g x y x (y - 1) = setTopFalse g x y := by
  simp only [carveWall]
  rw [if_neg (by omega : ¬(y - 1 = y)), if_pos trivial,
    show max y (y - 1) = y from by omega]

theorem carveWall_down_nbr {g : Grid} {x y : Nat} :
    carveWall g x y x (y + 1) = setTopFalse g x (y + 1) := by
  simp only [carveWall]
  rw [if_neg (by omega : ¬(y + 1 = y)), if_pos trivial,
    show max y (y + 1) = y + 1 from by omega]

theorem removedWallCount_eq_of_walls {W H : Nat} {g g' : Grid}
    (h : ∀ a b, (g' a b).top = (g a b).top ∧ (g' a b).left = (g a b).left) :
    removedWallCount W H g' = removedWallCount W H g := by
  unfold removedWallCount
  congr 1
  · congr 1
    apply Finset.filter_congr
    intro p _
    rw [(h p.1 p.2).1]
  · congr 1
    apply Finset.filter_congr
    intro p _
    rw [(h p.1 p.2).2]

theorem visitedPlayCount_eq_of_visited {W H : Nat} {g g' : Grid}
    (h : ∀ a b, (g' a b).visited = (g a b).visited) :
    visitedPlayCount W H g' = visitedPlayCount W H g := by
  unfold visitedPlayCount
  congr 1
  apply Finset.filter_congr
  intro p _
  rw [h p.1 p.2]

theorem removedWallCount_setTopFalse {W H : Nat} {g : Grid} {x y : Nat}
    (hx : x < W) (h1 : 1 ≤ y) (hy : y < H) (hprev : (g x y).top = true) :
    removedWallCount W H (setTopFalse g x y) = removedWallCount W H g + 1 := by
  unfold removedWallCount
  have hmem : (x, y) ∈ Finset.range W ×ˢ Finset.Ico 1 H := by
    rw [Finset.mem_product, Finset.mem_range, Finset.mem_Ico]
    exact ⟨hx, h1, hy⟩
  have hnot : (x, y) ∉ (Finset.range W ×ˢ Finset.Ico 1 H).filter
      (fun p => (g p.1 p.2).top = false) := by
    rw [Finset.mem_filter]
    intro hc
    rw [hprev] at hc
    cases hc.2
  have hTset : (Finset.range W ×ˢ Finset.Ico 1 H).filter
      (fun p => ((setTopFalse g x y) p.1 p.2).top = false) =
      insert (x, y) ((Finset.range W ×ˢ Finset.Ico 1 H).filter
        (fun p => (g p.1 p.2).top = false)) := by
    apply Finset.ext
    intro p
    rw [Finset.mem_insert, Finset.mem_filter, Finset.mem_filter]
    constructor
    · intro ⟨hd, hv⟩
      by_cases hc : p.1 = x ∧ p.2 = y
      · exact Or.inl (Prod.ext hc.1 hc.2)
      · rw [setTopFalse_ne hc] at hv
        exact Or.inr ⟨hd, hv⟩
    · intro hor
      rcases hor with heq | ⟨hd, hv⟩
      · subst heq
        refine ⟨hmem, ?_⟩
        exact top_setTopFalse_self g x y
      · refine ⟨hd, ?_⟩
        exact top_setTopFalse_mono hv
  have hLset : (Finset.Ico 1 W ×ˢ Finset.range H).filter
      (fun p => ((setTopFalse g x y) p.1 p.2).left = false) =
      (Finset.Ico 1 W ×ˢ Finset.range H).filter
        (fun p => (g p.1 p.2).left = false) := by
    apply Finset.filter_congr
    intro p _
    rw [left_setTopFalse]
  rw [hTset, hLset, Finset.card_insert_of_not_mem hnot]
  omega

theorem removedWallCount_setLeftFalse {W H : Nat} {g : Grid} {x y : Nat}
    (h1 : 1 ≤ x) (hx : x < W) (hy : y < H) (hprev : (g x y).left = true) :
    removedWallCount W H (setLeftFalse g x y) = removedWallCount W H g + 1 := by
  unfold removedWallCount
  have hmem : (x, y) ∈ Finset.Ico 1 W ×ˢ Finset.range H := by
    rw [Finset.mem_product, Finset.mem_Ico, Finset.mem_range]
    exact ⟨⟨h1, hx⟩, hy⟩
  have hnot : (x, y) ∉ (Finset.Ico 1 W ×ˢ Finset.range H).filter
      (fun p => (g p.1 p.2).left = false) := by
    rw [Finset.mem_filter]
    intro hc
    rw [hprev] at hc
    cases hc.2
  have hLset : (Finset.Ico 1 W ×ˢ Finset.range H).filter
      (fun p => ((setLeftFalse g x y) p.1 p.2).left = false) =
      insert (x, y) ((Finset.Ico 1 W ×ˢ Finset.range H).filter
        (fun p => (g p.1 p.2).left = false)) := by
    apply Finset.ext
    intro p
    rw [Finset.mem_insert, Finset.mem_filter, Finset.mem_filter]
    constructor
    · intro ⟨hd, hv⟩
      by_cases hc : p.1 = x ∧ p.2 = y
      · exact Or.inl (Prod.ext hc.1 hc.2)
      · rw [setLeftFalse_ne hc] at hv
        exact Or.inr ⟨hd, hv⟩
    · intro hor
      rcases hor with heq | ⟨hd, hv⟩
      · subst heq
        refine ⟨hmem, ?_⟩
        exact left_setLeftFalse_self g x y
      · refine ⟨hd, ?_⟩
        exact left_setLeftFalse_mono hv
  have hTset : (Finset.range W ×ˢ Finset.Ico 1 H).filter
      (fun p => ((setLeftFalse g x y) p.1 p.2).top = false) =
      (Finset.range W ×ˢ Finset.Ico 1 H).filter
        (fun p => (g p.1 p.2).top = false) := by
    apply Finset.filter_congr
    intro p _
    rw [top_setLeftFalse]
  rw [hTset, hLset, Finset.card_insert_of_not_mem hnot]
  omega

theorem visitedPlayCount_setVisited {W H : Nat} {g : Grid} {x y : Nat}
    (hx : x < W) (hy : y < H) (hun : (g x y).visited = false) :
    visitedPlayCount W H (setVisited g x y) = visitedPlayCount W H g + 1 := by
  unfold visitedPlayCount
  have hmem : (x, y) ∈ Finset.range W ×ˢ Finset.range H := by
    rw [Finset.mem_product, Finset.mem_range, Finset.mem_range]
    exact ⟨hx, hy⟩
  have hnot : (x, y) ∉ (Finset.range W ×ˢ Finset.range H).filter
      (fun p => (g p.1 p.2).visited = true) := by
    rw [Finset.mem_filter]
    intro hc
    rw [hun] at hc
    cases hc.2
  have hset : (Finset.range W ×ˢ Finset.range H).filter
      (fun p => ((setVisited g x y) p.1 p.2).visited = true) =
      insert (x, y) ((Finset.range W ×ˢ Finset.range H).filter
        (fun p => (g p.1 p.2).visited = true)) := by
    apply Finset.ext
    intro p
    rw [Finset.mem_insert, Finset.mem_filter, Finset.mem_filter]
    constructor
    · intro ⟨hd, hv⟩
      by_cases hc : p.1 = x ∧ p.2 = y
      · exact Or.inl (Prod.ext hc.1 hc.2)
      · rw [setVisited_ne hc] at hv
        exact Or.inr ⟨hd, hv⟩
    · intro hor
      rcases hor with heq | ⟨hd, hv⟩
      · subst heq
        exact ⟨hmem, setVisited_self g x y⟩
      · exact ⟨hd, visited_setVisited_mono hv⟩
  rw [hset, Finset.card_insert_of_not_mem hnot]

theorem reach_mono_carve {W H : Nat} {g g' : Grid} (hE : CarveEvol W H g g')
    {u v : Nat × Nat} (h : Relation.ReflTransGen (playStep W H g) u v) :
    Relation.ReflTransGen (playStep W H g') u v := by
  refine Relation.ReflTransGen.mono ?_ h
  rintro p q ⟨h1, h2, h3, h4, hm⟩
  refine ⟨h1, h2, h3, h4, ?_⟩
  rcases hm with hs | hs <;> [left; right] <;>
    rcases hs with ⟨ha, hb, hc⟩ | ⟨ha, hb, hc⟩
  · exact Or.inl ⟨ha, hb, hE.2.1 _ _ hc⟩
  · exact Or.inr ⟨ha, hb, hE.2.2.1 _ _ hc⟩
  · exact Or.inl ⟨ha, hb, hE.2.1 _ _ hc⟩
  · exact Or.inr ⟨ha, hb, hE.2.2.1 _ _ hc⟩

/-! ### The open-wall graph across a carve step -/

theorem mazeGraph_isolated {W H : Nat} {g : Grid} (hWV : WallsVisited W H g)
    {v : Fin W × Fin H} (hun : (g v.1.val v.2.val).visited = false) :
    ∀ w, ¬(mazeGraph W H g).Adj v w := by
  intro w hadj
  rw [mazeGraph, SimpleGraph.fromRel_adj] at hadj
  obtain ⟨hne, hor⟩ := hadj
  rcases hor with hs | hs <;>
    rcases hs with ⟨ha, hb, hc⟩ | ⟨ha, hb, hc⟩
  · obtain ⟨_, h2⟩ := hWV.1 v.1.val w.2.val v.1.2 (by omega) w.2.2 hc
    rw [show w.2.val - 1 = v.2.val from by omega, hun] at h2
    cases h2
  · obtain ⟨_, h2⟩ := hWV.2 w.1.val v.2.val (by omega) w.1.2 v.2.2 hc
    rw [show w.1.val - 1 = v.1.val from by omega, hun] at h2
    cases h2
  · obtain ⟨h1, _⟩ := hWV.1 w.1.val v.2.val w.1.2 (by omega) v.2.2 hc
    rw [show w.1.val = v.1.val from ha.symm, hun] at h1
    cases h1
  · obtain ⟨h1, _⟩ := hWV.2 v.1.val w.2.val (by omega) v.1.2 w.2.2 hc
    rw [show w.2.val = v.2.val from ha.symm, hun] at h1
    cases h1

theorem openStep_carveWall {W H : Nat} {g : Grid} {x y nx ny : Nat}
    (hnb : (nx, ny) ∈ nbrs W H x y) {p q : Nat × Nat}
    (h : openStep (carveWall g x y nx ny) p q) :
    openStep g p q ∨ (p = (x, y) ∧ q = (nx, ny)) ∨ (p = (nx, ny) ∧ q = (x, y)) := by
  rcases mem_nbrs.1 hnb with ⟨hg0, he⟩ | ⟨hg0, he⟩ | ⟨hg0, he⟩ | ⟨hg0, he⟩
  · -- neighbour (x-1, y): wall is left of (x, y)
    have hcw : carveWall g x y nx ny = setLeftFalse g x y := by
      rw [show nx = x - 1 from congrArg Prod.fst he,
        show ny = y from congrArg Prod.snd he]
      exact carveWall_left_nbr hg0
    rw [hcw] at h
    rcases h with ⟨ha, hb, hc⟩ | ⟨ha, hb, hc⟩
    · rw [top_setLeftFalse] at hc
      exact Or.inl (Or.inl ⟨ha, hb, hc⟩)
    · by_cases hpos : q.1 = x ∧ p.2 = y
      · refine Or.inr (Or.inr ⟨?_, ?_⟩)
        · rw [he]
          refine Prod.ext ?_ ?_
          · show p.1 = x - 1
            omega
          · show p.2 = y
            exact hpos.2
        · refine Prod.ext hpos.1 ?_
          show q.2 = y
          omega
      · rw [setLeftFalse_ne hpos] at hc
        exact Or.inl (Or.inr ⟨ha, hb, hc⟩)
  · -- neighbour (x+1, y): wall is left of (x+1, y)
    have hcw : carveWall g x y nx ny = setLeftFalse g (x + 1) y := by
      rw [show nx = x + 1 from congrArg Prod.fst he,
        show ny = y from congrArg Prod.snd he]
      exact carveWall_right_nbr
    rw [hcw] at h
    rcases h with ⟨ha, hb, hc⟩ | ⟨ha, hb, hc⟩
    · rw [top_setLeftFalse] at hc
      exact Or.inl (Or.inl ⟨ha, hb, hc⟩)
    · by_cases hpos : q.1 = x + 1 ∧ p.2 = y
      · refine Or.inr (Or.inl ⟨?_, ?_⟩)
        · refine Prod.ext ?_ ?_
          · show p.1 = x
            omega
          · show p.2 = y
            exact hpos.2
        · rw [he]
          refine Prod.ext hpos.1 ?_
          show q.2 = y
          omega
      · rw [setLeftFalse_ne hpos] at hc
        exact Or.inl (Or.inr ⟨ha, hb, hc⟩)
  · -- neighbour (x, y-1): wall is top of (x, y)
    have hcw : carveWall g x y nx ny = setTopFalse g x y := by
      rw [show nx = x from congrArg Prod.fst he,
        show ny = y - 1 from congrArg Prod.snd he]
      exact carveWall_up_nbr hg0
    rw [hcw] at h
    rcases h with ⟨ha, hb, hc⟩ | ⟨ha, hb, hc⟩
    · by_cases hpos : p.1 = x ∧ q.2 = y
      · refine Or.inr (Or.inr ⟨?_, ?_⟩)
        · rw [he]
          refine Prod.ext hpos.1 ?_
          show p.2 = y - 1
          omega
        · refine Prod.ext ?_ hpos.2
          show q.1 = x
          omega
      · rw [setTopFalse_ne hpos] at hc
        exact Or.inl (Or.inl ⟨ha, hb, hc⟩)
    · rw [left_setTopFalse] at hc
      exact Or.inl (Or.inr ⟨ha, hb, hc⟩)
  · -- neighbour (x, y+1): wall is top of (x, y+1)
    have hcw : carveWall g x y nx ny = setTopFalse g x (y + 1) := by
      rw [show nx = x from congrArg Prod.fst he,
        show ny = y + 1 from congrArg Prod.snd he]
      exact carveWall_down_nbr
    rw [hcw] at h
    rcases h with ⟨ha, hb, hc⟩ | ⟨ha, hb, hc⟩
    · by_cases hpos : p.1 = x ∧ q.2 = y + 1
      · refine Or.inr (Or.inl ⟨?_, ?_⟩)
        · refine Prod.ext hpos.1 ?_
          show p.2 = y
          omega
        · rw [he]
          refine Prod.ext ?_ hpos.2
          show q.1 = x
          omega
      · rw [setTopFalse_ne hpos] at hc
        exact Or.inl (Or.inl ⟨ha, hb, hc⟩)
    · rw [left_setTopFalse] at hc
      exact Or.inl (Or.inr ⟨ha, hb, hc⟩)

theorem mazeGraph_carveWall_le {W H : Nat} {g : Grid} {x y nx ny : Nat}
    (hx : x < W) (hy : y < H) (hnx : nx < W) (hny : ny < H)
    (hnb : (nx, ny) ∈ nbrs W H x y) :
    mazeGraph W H (carveWall g x y nx ny) ≤
      mazeGraph W H g ⊔ SimpleGraph.edge
        (⟨⟨x, hx⟩, ⟨y, hy⟩⟩ : Fin W × Fin H) ⟨⟨nx, hnx⟩, ⟨ny, hny⟩⟩ := by
  intro p q hadj
  rw [mazeGraph, SimpleGraph.fromRel_adj] at hadj
  obtain ⟨hne, hor⟩ := hadj
  rw [SimpleGraph.sup_adj, mazeGraph, SimpleGraph.fromRel_adj, SimpleGraph.edge_adj]
  have hfin : ∀ (u : Fin W × Fin H) (a b : Nat), (u.1.val, u.2.val) = (a, b) →
      (ha : a < W) → (hb : b < H) → u = ⟨⟨a, ha⟩, ⟨b, hb⟩⟩ := by
    intro u a b heq ha hb
    have h1 : u.1.val = a := congrArg Prod.fst heq
    have h2 : u.2.val = b := congrArg Prod.snd heq
    refine Prod.ext (Fin.ext h1) (Fin.ext h2)
  rcases hor with hs | hs
  · rcases openStep_carveWall hnb hs with ho | ⟨hp, hq⟩ | ⟨hp, hq⟩
    · exact Or.inl ⟨hne, Or.inl ho⟩
    · exact Or.inr ⟨Or.inl ⟨hfin p x y hp hx hy, hfin q nx ny hq hnx hny⟩, hne⟩
    · exact Or.inr ⟨Or.inr ⟨hfin p nx ny hp hnx hny, hfin q x y hq hx hy⟩, hne⟩
  · rcases openStep_carveWall hnb hs with ho | ⟨hp, hq⟩ | ⟨hp, hq⟩
    · exact Or.inl ⟨hne, Or.inr ho⟩
    · exact Or.inr ⟨Or.inr ⟨hfin p nx ny hq hnx hny, hfin q x y hp hx hy⟩, hne⟩
    · exact Or.inr ⟨Or.inl ⟨hfin p x y hq hx hy, hfin q nx ny hp hnx hny⟩, hne⟩

/-! ### Invariant preservation across one carve step -/

theorem openStep_walls_iff {g g' : Grid}
    (hw : ∀ a b, (g' a b).top = (g a b).top ∧ (g' a b).left = (g a b).left)
    (p q : Nat × Nat) : openStep g' p q ↔ openStep g p q := by
  unfold openStep
  rw [(hw p.1 q.2).1, (hw q.1 p.2).2]

theorem mazeGraph_le_of_walls {W H : Nat} {g g' : Grid}
    (hw : ∀ a b, (g' a b).top = (g a b).top ∧ (g' a b).left = (g a b).left) :
    mazeGraph W H g' ≤ mazeGraph W H g := by
  intro p q hadj
  rw [mazeGraph, SimpleGraph.fromRel_adj] at hadj ⊢
  refine ⟨hadj.1, ?_⟩
  rcases hadj.2 with hs | hs
  · exact Or.inl ((openStep_walls_iff hw _ _).1 hs)
  · exact Or.inr ((openStep_walls_iff hw _ _).1 hs)

set_option maxHeartbeats 1000000 in
theorem carveStep_inv {W H x0 y0 : Nat} {g : Grid} {x y nx ny : Nat}
    (hx : x < W) (hy : y < H) (hnx : nx < W) (hny : ny < H)
    (hvis : (g x y).visited = true) (hun : (g nx ny).visited = false)
    (hnb : (nx, ny) ∈ nbrs W H x y)
    (hInv : CarveInv W H x0 y0 g) :
    CarveInv W H x0 y0 (setVisited (carveWall g x y nx ny) nx ny) := by
  obtain ⟨hC, hWV, hcnt, hreach, hacyc⟩ := hInv
  set gm := setVisited (carveWall g x y nx ny) nx ny with hgm
  have hE : CarveEvol W H g gm :=
    carveEvol_trans
      (carveEvol_carveWall g x y nx ny (le_of_lt hx) (le_of_lt hy)
        (le_of_lt hnx) (le_of_lt hny))
      (carveEvol_setVisited _ nx ny (le_of_lt hnx) (le_of_lt hny))
  have hvism : ∀ a b, (gm a b).visited = true ↔
      ((a = nx ∧ b = ny) ∨ (g a b).visited = true) := by
    intro a b
    rw [hgm, visited_setVisited_iff, visited_carveWall]
  have hwm : ∀ a b, (gm a b).top = ((carveWall g x y nx ny) a b).top ∧
      (gm a b).left = ((carveWall g x y nx ny) a b).left := by
    intro a b
    rw [hgm]
    exact ⟨top_setVisited _ nx ny a b, left_setVisited _ nx ny a b⟩
  -- acyclicity (independent of the neighbour direction)
  have hcoordne : nx ≠ x ∨ ny ≠ y := by
    rcases mem_nbrs.1 hnb with ⟨h0, he⟩ | ⟨h0, he⟩ | ⟨h0, he⟩ | ⟨h0, he⟩ <;>
      [left; left; right; right] <;>
      [skip; skip; skip; skip] <;>
      · have h1 := congrArg Prod.fst he
        have h2 := congrArg Prod.snd he
        simp only at h1 h2
        omega
  have hacycm : (mazeGraph W H gm).IsAcyclic := by
    have hne : (⟨⟨x, hx⟩, ⟨y, hy⟩⟩ : Fin W × Fin H) ≠ ⟨⟨nx, hnx⟩, ⟨ny, hny⟩⟩ := by
      intro hc
      have h1 : x = nx := congrArg (fun p => (Prod.fst p).val) hc
      have h2 : y = ny := congrArg (fun p => (Prod.snd p).val) hc
      rcases hcoordne with h | h <;> omega
    have hiso : ∀ w, ¬(mazeGraph W H g).Adj ⟨⟨nx, hnx⟩, ⟨ny, hny⟩⟩ w :=
      mazeGraph_isolated hWV hun
    exact isAcyclic_of_le
      ((mazeGraph_le_of_walls hwm).trans
        (mazeGraph_carveWall_le hx hy hnx hny hnb))
      (isAcyclic_sup_edge_isolated hacyc hne hiso)
  -- closure invariant (independent of direction)
  have hCm : ClosedOutside W H gm := closedOutside_mono hC hE.1
  -- reach for already-visited cells (independent of direction)
  have hreach_old : ∀ a b, a < W → b < H → (g a b).visited = true →
      Relation.ReflTransGen (playStep W H gm) (x0, y0) (a, b) :=
    fun a b ha hb hv => reach_mono_carve hE (hreach a b ha hb hv)
  -- direction-dependent facts
  rcases mem_nbrs.1 hnb with ⟨h0, he⟩ | ⟨h0, he⟩ | ⟨h0, he⟩ | ⟨h0, he⟩
  all_goals
    have he1 := congrArg Prod.fst he
    have he2 := congrArg Prod.snd he
    simp only at he1 he2
  · -- left neighbour: (nx, ny) = (x-1, y), wall is left of (x, y)
    subst nx; subst ny
    have hg2eq : carveWall g x y (x - 1) y = setLeftFalse g x y :=
      carveWall_left_nbr h0
    have htopm : ∀ a b, (gm a b).top = (g a b).top := by
      intro a b
      rw [(hwm a b).1, hg2eq, top_setLeftFalse]
    have hleftm_ne : ∀ a b, ¬(a = x ∧ b = y) → (gm a b).left = (g a b).left := by
      intro a b hne
      rw [(hwm a b).2, hg2eq, setLeftFalse_ne hne]
    have hleftm_self : (gm x y).left = false := by
      rw [(hwm x y).2, hg2eq]
      exact left_setLeftFalse_self g x y
    have hprev : (g x y).left = true := by
      rcases Bool.eq_false_or_eq_true (g x y).left with hb | hb
      · exact hb
      · obtain ⟨_, h2⟩ := hWV.2 x y h0 hx hy hb
        rw [h2] at hun
        cases hun
    refine ⟨hCm, ⟨?_, ?_⟩, ?_, ?_, hacycm⟩
    · intro a b ha h1b hb hf
      rw [htopm] at hf
      obtain ⟨hv1, hv2⟩ := hWV.1 a b ha h1b hb hf
      exact ⟨hE.1 a b hv1, hE.1 a (b - 1) hv2⟩
    · intro a b h1a ha hb hf
      by_cases hc : a = x ∧ b = y
      · obtain ⟨ha', hb'⟩ := hc
        subst a; subst b
        refine ⟨hE.1 x y hvis, (hvism (x - 1) y).2 (Or.inl ⟨rfl, rfl⟩)⟩
      · rw [hleftm_ne a b hc] at hf
        obtain ⟨hv1, hv2⟩ := hWV.2 a b h1a ha hb hf
        exact ⟨hE.1 a b hv1, hE.1 (a - 1) b hv2⟩
    · have hr1 : removedWallCount W H gm =
          removedWallCount W H (setLeftFalse g x y) := by
        refine removedWallCount_eq_of_walls ?_
        intro a b
        rw [(hwm a b).1, (hwm a b).2, hg2eq]
        exact ⟨rfl, rfl⟩
      have hr2 : removedWallCount W H (setLeftFalse g x y) =
          removedWallCount W H g + 1 :=
        removedWallCount_setLeftFalse h0 hx hy hprev
      have hv1 : visitedPlayCount W H gm =
          visitedPlayCount W H (carveWall g x y (x - 1) y) + 1 := by
        refine visitedPlayCount_setVisited (W := W) (H := H) hnx hny ?_
        rw [visited_carveWall]
        exact hun
      have hv2 : visitedPlayCount W H (carveWall g x y (x - 1) y) =
          visitedPlayCount W H g :=
        visitedPlayCount_eq_of_visited (fun a b => visited_carveWall g x y _ _ a b)
      omega
    · intro a b ha hb hv
      rcases (hvism a b).1 hv with ⟨ha', hb'⟩ | hold
      · subst a; subst b
        exact Relation.ReflTransGen.tail (hreach_old x y hx hy hvis)
          ⟨hx, hy, hnx, hny, Or.inr (Or.inr ⟨rfl, by omega, hleftm_self⟩)⟩
      · exact hreach_old a b ha hb hold
  · -- right neighbour: (nx, ny) = (x+1, y), wall is left of (x+1, y)
    subst nx; subst ny
    have hg2eq : carveWall g x y (x + 1) y = setLeftFalse g (x + 1) y :=
      carveWall_right_nbr
    have htopm : ∀ a b, (gm a b).top = (g a b).top := by
      intro a b
      rw [(hwm a b).1, hg2eq, top_setLeftFalse]
    have hleftm_ne : ∀ a b, ¬(a = x + 1 ∧ b = y) → (gm a b).left = (g a b).left := by
      intro a b hne
      rw [(hwm a b).2, hg2eq, setLeftFalse_ne hne]
    have hleftm_self : (gm (x + 1) y).left = false := by
      rw [(hwm (x + 1) y).2, hg2eq]
      exact left_setLeftFalse_self g (x + 1) y
    have hprev : (g (x + 1) y).left = true := by
      rcases Bool.eq_false_or_eq_true (g (x + 1) y).left with hb | hb
      · exact hb
      · obtain ⟨h1, _⟩ := hWV.2 (x + 1) y (by omega) hnx hy hb
        rw [h1] at hun
        cases hun
    refine ⟨hCm, ⟨?_, ?_⟩, ?_, ?_, hacycm⟩
    · intro a b ha h1b hb hf
      rw [htopm] at hf
      obtain ⟨hv1, hv2⟩ := hWV.1 a b ha h1b hb hf
      exact ⟨hE.1 a b hv1, hE.1 a (b - 1) hv2⟩
    · intro a b h1a ha hb hf
      by_cases hc : a = x + 1 ∧ b = y
      · obtain ⟨ha', hb'⟩ := hc
        subst a; subst b
        refine ⟨(hvism (x + 1) y).2 (Or.inl ⟨rfl, rfl⟩), ?_⟩
        rw [show x + 1 - 1 = x from by omega]
        exact hE.1 x y hvis
      · rw [hleftm_ne a b hc] at hf
        obtain ⟨hv1, hv2⟩ := hWV.2 a b h1a ha hb hf
        exact ⟨hE.1 a b hv1, hE.1 (a - 1) b hv2⟩
    · have hr1 : removedWallCount W H gm =
          removedWallCount W H (setLeftFalse g (x + 1) y) := by
        refine removedWallCount_eq_of_walls ?_
        intro a b
        rw [(hwm a b).1, (hwm a b).2, hg2eq]
        exact ⟨rfl, rfl⟩
      have hr2 : removedWallCount W H (setLeftFalse g (x + 1) y) =
          removedWallCount W H g + 1 :=
        removedWallCount_setLeftFalse (by omega) hnx hy hprev
      have hv1 : visitedPlayCount W H gm =
          visitedPlayCount W H (carveWall g x y (x + 1) y) + 1 := by
        refine visitedPlayCount_setVisited (W := W) (H := H) hnx hny ?_
        rw [visited_carveWall]
        exact hun
      have hv2 : visitedPlayCount W H (carveWall g x y (x + 1) y) =
          visitedPlayCount W H g :=
        visitedPlayCount_eq_of_visited (fun a b => visited_carveWall g x y _ _ a b)
      omega
    · intro a b ha hb hv
      rcases (hvism a b).1 hv with ⟨ha', hb'⟩ | hold
      · subst a; subst b
        exact Relation.ReflTransGen.tail (hreach_old x y hx hy hvis)
          ⟨hx, hy, hnx, hny, Or.inl (Or.inr ⟨rfl, rfl, hleftm_self⟩)⟩
      · exact hreach_old a b ha hb hold
  · -- upper neighbour: (nx, ny) = (x, y-1), wall is top of (x, y)
    subst nx; subst ny
    have hg2eq : carveWall g x y x (y - 1) = setTopFalse g x y :=
      carveWall_up_nbr h0
    have hleftm : ∀ a b, (gm a b).left = (g a b).left := by
      intro a b
      rw [(hwm a b).2, hg2eq, left_setTopFalse]
    have htopm_ne : ∀ a b, ¬(a = x ∧ b = y) → (gm a b).top = (g a b).top := by
      intro a b hne
      rw [(hwm a b).1, hg2eq, setTopFalse_ne hne]
    have htopm_self : (gm x y).top = false := by
      rw [(hwm x y).1, hg2eq]
      exact top_setTopFalse_self g x y
    have hprev : (g x y).top = true := by
      rcases Bool.eq_false_or_eq_true (g x y).top with hb | hb
      · exact hb
      · obtain ⟨_, h2⟩ := hWV.1 x y hx h0 hy hb
        rw [h2] at hun
        cases hun
    refine ⟨hCm, ⟨?_, ?_⟩, ?_, ?_, hacycm⟩
    · intro a b ha h1b hb hf
      by_cases hc : a = x ∧ b = y
      · obtain ⟨ha', hb'⟩ := hc
        subst a; subst b
        refine ⟨hE.1 x y hvis, (hvism x (y - 1)).2 (Or.inl ⟨rfl, rfl⟩)⟩
      · rw [htopm_ne a b hc] at hf
        obtain ⟨hv1, hv2⟩ := hWV.1 a b ha h1b hb hf
        exact ⟨hE.1 a b hv1, hE.1 a (b - 1) hv2⟩
    · intro a b h1a ha hb hf
      rw [hleftm] at hf
      obtain ⟨hv1, hv2⟩ := hWV.2 a b h1a ha hb hf
      exact ⟨hE.1 a b hv1, hE.1 (a - 1) b hv2⟩
    · have hr1 : removedWallCount W H gm =
          removedWallCount W H (setTopFalse g x y) := by
        refine removedWallCount_eq_of_walls ?_
        intro a b
        rw [(hwm a b).1, (hwm a b).2, hg2eq]
        exact ⟨rfl, rfl⟩
      have hr2 : removedWallCount W H (setTopFalse g x y) =
          removedWallCount W H g + 1 :=
        removedWallCount_setTopFalse hx h0 hy hprev
      have hv1 : visitedPlayCount W H gm =
          visitedPlayCount W H (carveWall g x y x (y - 1)) + 1 := by
        refine visitedPlayCount_setVisited (W := W) (H := H) hnx hny ?_
        rw [visited_carveWall]
        exact hun
      have hv2 : visitedPlayCount W H (carveWall g x y x (y - 1)) =
          visitedPlayCount W H g :=
        visitedPlayCount_eq_of_visited (fun a b => visited_carveWall g x y _ _ a b)
      omega
    · intro a b ha hb hv
      rcases (hvism a b).1 hv with ⟨ha', hb'⟩ | hold
      · subst a; subst b
        exact Relation.ReflTransGen.tail (hreach_old x y hx hy hvis)
          ⟨hx, hy, hnx, hny, Or.inr (Or.inl ⟨rfl, by omega, htopm_self⟩)⟩
      · exact hreach_old a b ha hb hold
  · -- lower neighbour: (nx, ny) = (x, y+1), wall is top of (x, y+1)
    subst nx; subst ny
    have hg2eq : carveWall g x y x (y + 1) = setTopFalse g x (y + 1) :=
      carveWall_down_nbr
    have hleftm : ∀ a b, (gm a b).left = (g a b).left := by
      intro a b
      rw [(hwm a b).2, hg2eq, left_setTopFalse]
    have htopm_ne : ∀ a b, ¬(a = x ∧ b = y + 1) → (gm a b).top = (g a b).top := by
      intro a b hne
      rw [(hwm a b).1, hg2eq, setTopFalse_ne hne]
    have htopm_self : (gm x (y + 1)).top = false := by
      rw [(hwm x (y + 1)).1, hg2eq]
      exact top_setTopFalse_self g x (y + 1)
    have hprev : (g x (y + 1)).top = true := by
      rcases Bool.eq_false_or_eq_true (g x (y + 1)).top with hb | hb
      · exact hb
      · obtain ⟨h1, _⟩ := hWV.1 x (y + 1) hx (by omega) hny hb
        rw [h1] at hun
        cases hun
    refine ⟨hCm, ⟨?_, ?_⟩, ?_, ?_, hacycm⟩
    · intro a b ha h1b hb hf
      by_cases hc : a = x ∧ b = y + 1
      · obtain ⟨ha', hb'⟩ := hc
        subst a; subst b
        refine ⟨(hvism x (y + 1)).2 (Or.inl ⟨rfl, rfl⟩), ?_⟩
        rw [show y + 1 - 1 = y from by omega]
        exact hE.1 x y hvis
      · rw [htopm_ne a b hc] at hf
        obtain ⟨hv1, hv2⟩ := hWV.1 a b ha h1b hb hf
        exact ⟨hE.1 a b hv1, hE.1 a (b - 1) hv2⟩
    · intro a b h1a ha hb hf
      rw [hleftm] at hf
      obtain ⟨hv1, hv2⟩ := hWV.2 a b h1a ha hb hf
      exact ⟨hE.1 a b hv1, hE.1 (a - 1) b hv2⟩
    · have hr1 : removedWallCount W H gm =
          removedWallCount W H (setTopFalse g x (y + 1)) := by
        refine removedWallCount_eq_of_walls ?_
        intro a b
        rw [(hwm a b).1, (hwm a b).2, hg2eq]
        exact ⟨rfl, rfl⟩
      have hr2 : removedWallCount W H (setTopFalse g x (y + 1)) =
          removedWallCount W H g + 1 :=
        removedWallCount_setTopFalse hx (by omega) hny hprev
      have hv1 : visitedPlayCount W H gm =
          visitedPlayCount W H (carveWall g x y x (y + 1)) + 1 := by
        refine visitedPlayCount_setVisited (W := W) (H := H) hnx hny ?_
        rw [visited_carveWall]
        exact hun
      have hv2 : visitedPlayCount W H (carveWall g x y x (y + 1)) =
          visitedPlayCount W H g :=
        visitedPlayCount_eq_of_visited (fun a b => visited_carveWall g x y _ _ a b)
      omega
    · intro a b ha hb hv
      rcases (hvism a b).1 hv with ⟨ha', hb'⟩ | hold
      · subst a; subst b
        exact Relation.ReflTransGen.tail (hreach_old x y hx hy hvis)
          ⟨hx, hy, hnx, hny, Or.inl (Or.inl ⟨rfl, rfl, htopm_self⟩)⟩
      · exact hreach_old a b ha hb hold

/-! ### The invariant through the whole walk -/

theorem carveLoop_inv {W H x0 y0 : Nat} (fuel : Nat)
    (ihI : ∀ (g : Grid) (r : RNG) (nx ny : Nat), nx < W → ny < H →
      unvisitedCount W H (setVisited g nx ny) < fuel →
      CarveInv W H x0 y0 (setVisited g nx ny) →
      CarveInv W H x0 y0 (enterCell W H fuel g r nx ny).1) :
    ∀ (ns : List (Nat × Nat)) (g : Grid) (r : RNG) (x y : Nat),
      x < W → y < H → (g x y).visited = true →
      (∀ p ∈ ns, p ∈ nbrs W H x y) → unvisitedCount W H g ≤ fuel →
      CarveInv W H x0 y0 g →
      CarveInv W H x0 y0 (carveLoop (enterCell W H fuel) g r x y ns).1 := by
  intro ns
  induction ns with
  | nil => intro g r x y _ _ _ _ _ hInv; exact hInv
  | cons q rest ih =>
    obtain ⟨nx, ny⟩ := q
    intro g r x y hx hy hvis hns hfuel hInv
    have hq : (nx, ny) ∈ nbrs W H x y := hns (nx, ny) (List.mem_cons_self _ _)
    have hqb := nbrs_bounds (le_of_lt hx) (le_of_lt hy) hq
    have hrest : ∀ p ∈ rest, p ∈ nbrs W H x y :=
      fun p hp => hns p (List.mem_cons_of_mem _ hp)
    have hdef : carveLoop (enterCell W H fuel) g r x y ((nx, ny) :: rest) =
        (if (g nx ny).visited then carveLoop (enterCell W H fuel) g r x y rest
        else carveLoop (enterCell W H fuel)
          (enterCell W H fuel (carveWall g x y nx ny) r nx ny).1
          (enterCell W H fuel (carveWall g x y nx ny) r nx ny).2 x y rest) := rfl
    rw [hdef]
    by_cases h1 : (g nx ny).visited = true
    · rw [if_pos h1]
      exact ih g r x y hx hy hvis hrest hfuel hInv
    · have h1' : (g nx ny).visited = false := by simpa using h1
      rw [if_neg h1]
      have hplay : nx < W ∧ ny < H := by
        by_contra hc
        exact h1 (hInv.1 nx ny hqb.1 hqb.2 hc)
      set g2 := carveWall g x y nx ny with hg2
      have hg2vis : ∀ a b, (g2 a b).visited = (g a b).visited :=
        fun a b => visited_carveWall g x y nx ny a b
      have hg2un : (g2 nx ny).visited = false := by rw [hg2vis]; exact h1'
      have hcnt2 : unvisitedCount W H g2 = unvisitedCount W H g :=
        unvisitedCount_eq_of_visited_eq hg2vis
      have hfuel2 : unvisitedCount W H (setVisited g2 nx ny) < fuel := by
        have := unvisitedCount_setVisited_succ (W := W) (H := H) (g := g2)
          (x := nx) (y := ny) hqb.1 hqb.2 hg2un
        omega
      have hInvm : CarveInv W H x0 y0 (setVisited g2 nx ny) :=
        carveStep_inv hx hy hplay.1 hplay.2 hvis h1' hq hInv
      have hInv3 : CarveInv W H x0 y0 (enterCell W H fuel g2 r nx ny).1 :=
        ihI g2 r nx ny hplay.1 hplay.2 hfuel2 hInvm
      have hE3 : CarveEvol W H g2 (enterCell W H fuel g2 r nx ny).1 :=
        enterCell_evol fuel g2 r nx ny hqb.1 hqb.2
      have hvis3 : ((enterCell W H fuel g2 r nx ny).1 x y).visited = true := by
        refine hE3.1 x y ?_
        rw [hg2vis]
        exact hvis
      have hfuel3 : unvisitedCount W H (enterCell W H fuel g2 r nx ny).1 ≤ fuel := by
        have hle : unvisitedCount W H (enterCell W H fuel g2 r nx ny).1 ≤
            unvisitedCount W H g2 := unvisitedCount_le_of_mono hE3.1
        omega
      exact ih (enterCell W H fuel g2 r nx ny).1
        (enterCell W H fuel g2 r nx ny).2 x y hx hy hvis3 hrest hfuel3 hInv3

theorem enterCell_inv {W H x0 y0 : Nat} :
    ∀ (fuel : Nat) (g : Grid) (r : RNG) (x y : Nat), x < W → y < H →
      unvisitedCount W H (setVisited g x y) < fuel →
      CarveInv W H x0 y0 (setVisited g x y) →
      CarveInv W H x0 y0 (enterCell W H fuel g r x y).1 := by
  intro fuel
  induction fuel with
  | zero => intro g r x y _ _ hfuel _; omega
  | succ fuel ih =>
    intro g r x y hx hy hfuel hInv
    have hdef : enterCell W H (fuel + 1) g r x y =
        carveLoop (enterCell W H fuel) (setVisited g x y)
          (shuffle (nbrs W H x y) r).2 x y (shuffle (nbrs W H x y) r).1 := rfl
    rw [hdef]
    exact carveLoop_inv fuel (fun g r nx ny h1 h2 h3 h4 => ih g r nx ny h1 h2 h3 h4)
      (shuffle (nbrs W H x y) r).1 (setVisited g x y)
      (shuffle (nbrs W H x y) r).2 x y hx hy (setVisited_self g x y)
      (fun p hp => mem_shuffle.1 hp) (by omega) hInv

/-! ### Invariant at the start of the walk, and claim C1 -/

theorem carveInv_start {W H x0 y0 : Nat} (hx0 : x0 < W) (hy0 : y0 < H) :
    CarveInv W H x0 y0
      (setVisited (setLeftFalse (setLeftFalse (initGrid W H) 0 0) W (H - 1)) x0 y0) := by
  set g2 := setLeftFalse (setLeftFalse (initGrid W H) 0 0) W (H - 1) with hg2
  set gm := setVisited g2 x0 y0 with hgm
  have hvis2 : ∀ a b, (g2 a b).visited = (initGrid W H a b).visited := by
    intro a b
    rw [hg2, visited_setLeftFalse, visited_setLeftFalse]
  have hvism : ∀ a b, (gm a b).visited = true ↔
      ((a = x0 ∧ b = y0) ∨ (initGrid W H a b).visited = true) := by
    intro a b
    rw [hgm, visited_setVisited_iff, hvis2]
  have htopm : ∀ a b, a < W → b < H → (gm a b).top = true := by
    intro a b ha hb
    rw [hgm, top_setVisited, hg2, top_setLeftFalse, top_setLeftFalse,
      initGrid_interior ha hb]
  have hleftm : ∀ a b, 1 ≤ a → a < W → b < H → (gm a b).left = true := by
    intro a b h1 ha hb
    rw [hgm, left_setVisited, hg2,
      setLeftFalse_ne (fun hc => by omega),
      setLeftFalse_ne (fun hc => by omega),
      initGrid_interior ha hb]
  refine ⟨?_, ⟨?_, ?_⟩, ?_, ?_, ?_⟩
  · intro a b ha hb hnp
    refine (hvism a b).2 (Or.inr (initGrid_visited_outside hnp))
  · intro a b ha h1b hb hf
    rw [htopm a b ha hb] at hf
    cases hf
  · intro a b h1a ha hb hf
    rw [hleftm a b h1a ha hb] at hf
    cases hf
  · have hrm : removedWallCount W H gm = 0 := by
      unfold removedWallCount
      have h1 : (Finset.range W ×ˢ Finset.Ico 1 H).filter
          (fun p => (gm p.1 p.2).top = false) = ∅ := by
        rw [Finset.filter_eq_empty_iff]
        intro p hp
        rw [Finset.mem_product, Finset.mem_range, Finset.mem_Ico] at hp
        rw [htopm p.1 p.2 hp.1 hp.2.2]
        simp
      have h2 : (Finset.Ico 1 W ×ˢ Finset.range H).filter
          (fun p => (gm p.1 p.2).left = false) = ∅ := by
        rw [Finset.filter_eq_empty_iff]
        intro p hp
        rw [Finset.mem_product, Finset.mem_Ico, Finset.mem_range] at hp
        rw [hleftm p.1 p.2 hp.1.1 hp.1.2 hp.2]
        simp
      rw [h1, h2]
      simp
    have hvm : visitedPlayCount W H gm = 1 := by
      unfold visitedPlayCount
      have h1 : (Finset.range W ×ˢ Finset.range H).filter
          (fun p => (gm p.1 p.2).visited = true) = {(x0, y0)} := by
        apply Finset.ext
        intro p
        rw [Finset.mem_filter, Finset.mem_singleton, Finset.mem_product,
          Finset.mem_range, Finset.mem_range]
        constructor
        · intro ⟨hd, hv⟩
          rcases (hvism p.1 p.2).1 hv with ⟨h1, h2⟩ | hin
          · exact Prod.ext h1 h2
          · rw [initGrid_interior hd.1 hd.2] at hin
            cases hin
        · intro he
          subst he
          exact ⟨⟨hx0, hy0⟩, (hvism x0 y0).2 (Or.inl ⟨rfl, rfl⟩)⟩
      rw [h1]
      simp
    omega
  · intro a b ha hb hv
    rcases (hvism a b).1 hv with ⟨h1, h2⟩ | hin
    · rw [h1, h2]
    · rw [initGrid_interior ha hb] at hin
      cases hin
  · intro v c hc
    have hnoadj : ∀ p q : Fin W × Fin H, ¬(mazeGraph W H gm).Adj p q := by
      intro p q hadj
      rw [mazeGraph, SimpleGraph.fromRel_adj] at hadj
      rcases hadj.2 with hs | hs <;>
        rcases hs with ⟨ha, hb, hcw⟩ | ⟨ha, hb, hcw⟩
      · rw [htopm p.1.val q.2.val p.1.2 q.2.2] at hcw
        cases hcw
      · rw [hleftm q.1.val p.2.val (by omega) q.1.2 p.2.2] at hcw
        cases hcw
      · rw [htopm q.1.val p.2.val q.1.2 p.2.2] at hcw
        cases hcw
      · rw [hleftm p.1.val q.2.val (by omega) p.1.2 q.2.2] at hcw
        cases hcw
    cases c with
    | nil => exact SimpleGraph.Walk.IsCycle.not_of_nil hc
    | cons h q => exact hnoadj _ _ h

/-- Claim C1: for every `W, H ≥ 1` and every random stream, `get_maze`
produces a perfect maze: exactly `W*H - 1` interior walls are removed,
every playable cell is reachable from every other playable cell through
removed walls, and the open-wall graph on the playable cells has no
cycle. -/
theorem maze_is_perfect (W H : Nat) (r : RNG) (hW : 1 ≤ W) (hH : 1 ≤ H) :
    removedWallCount W H (get_maze W H r) = W * H - 1 ∧
    (∀ p q : Nat × Nat, p.1 < W → p.2 < H → q.1 < W → q.2 < H →
      Relation.ReflTransGen (playStep W H (get_maze W H r)) p q) ∧
    (mazeGraph W H (get_maze W H r)).IsAcyclic := by
  have hvisall := get_maze_visits_all W H r hW hH
  rw [get_maze_eq] at hvisall ⊢
  set x0 := r 0 % W with hx0def
  set y0 := RNG.tail r 0 % H with hy0def
  set g2 := setLeftFalse (setLeftFalse (initGrid W H) 0 0) W (H - 1) with hg2
  have hx0 : x0 < W := Nat.mod_lt _ hW
  have hy0 : y0 < H := Nat.mod_lt _ hH
  have hrootun : (g2 x0 y0).visited = false := by
    rw [hg2, visited_setLeftFalse, visited_setLeftFalse,
      initGrid_interior hx0 hy0]
  have hfuel : unvisitedCount W H (setVisited g2 x0 y0) < W * H := by
    have hs := unvisitedCount_setVisited_succ (W := W) (H := H) (g := g2)
      (x := x0) (y := y0) (le_of_lt hx0) (le_of_lt hy0) hrootun
    have hc : unvisitedCount W H g2 = W * H := unvisitedCount_start
    omega
  have hInvF := enterCell_inv (W * H) g2 (RNG.tail (RNG.tail r)) x0 y0
    hx0 hy0 hfuel (carveInv_start hx0 hy0)
  set gf := (enterCell W H (W * H) g2 (RNG.tail (RNG.tail r)) x0 y0).1 with hgf
  obtain ⟨hCf, hWVf, hcntf, hreachf, hacycf⟩ := hInvF
  have hvc : visitedPlayCount W H gf = W * H := by
    unfold visitedPlayCount
    have h1 : (Finset.range W ×ˢ Finset.range H).filter
        (fun p => (gf p.1 p.2).visited = true) =
        Finset.range W ×ˢ Finset.range H := by
      rw [Finset.filter_eq_self]
      intro p hp
      rw [Finset.mem_product, Finset.mem_range, Finset.mem_range] at hp
      exact hvisall p.1 p.2 hp.1 hp.2
    rw [h1, Finset.card_product, Finset.card_range, Finset.card_range]
  have hsym : Symmetric (playStep W H gf) := by
    rintro p q ⟨h1, h2, h3, h4, hm⟩
    refine ⟨h3, h4, h1, h2, ?_⟩
    rcases hm with h | h
    · exact Or.inr h
    · exact Or.inl h
  have hrev : ∀ {u v : Nat × Nat},
      Relation.ReflTransGen (playStep W H gf) u v →
      Relation.ReflTransGen (playStep W H gf) v u := by
    intro u v h
    induction h with
    | refl => exact Relation.ReflTransGen.refl
    | tail h1 h2 ih => exact Relation.ReflTransGen.head (hsym h2) ih
  refine ⟨by omega, ?_, hacycf⟩
  intro p q hp1 hp2 hq1 hq2
  have hrp := hreachf p.1 p.2 hp1 hp2 (hvisall p.1 p.2 hp1 hp2)
  have hrq := hreachf q.1 q.2 hq1 hq2 (hvisall q.1 q.2 hq1 hq2)
  exact (hrev hrp).trans hrq

/-- Witness for C1 at `W = 2`, `H = 1`, the all-zero random stream. -/
theorem maze_is_perfect_witness :
    1 ≤ 2 ∧
    (removedWallCount 2 1 (get_maze 2 1 (fun _ => 0)) = 2 * 1 - 1 ∧
     (∀ p q : Nat × Nat, p.1 < 2 → p.2 < 1 → q.1 < 2 → q.2 < 1 →
       Relation.ReflTransGen (playStep 2 1 (get_maze 2 1 (fun _ => 0))) p q) ∧
     (mazeGraph 2 1 (get_maze 2 1 (fun _ => 0))).IsAcyclic) :=
  ⟨by decide, maze_is_perfect 2 1 (fun _ => 0) (by decide) (by decide)⟩

/-! ### Solver completeness and path extraction (claim C2) -/

theorem initGrid_path (width height x y : Nat) :
    (initGrid width height x y).path = false := by
  unfold initGrid
  by_cases h1 : x < width ∧ y < height
  · simp [h1]
  · by_cases h2 : x = width ∧ y < height
    · simp [h1, h2]
    · by_cases h3 : x < width ∧ y = height
      · simp [h1, h2, h3]
      · simp [h1, h2, h3]

theorem get_maze_path_false (W H : Nat) (r : RNG) (hW : 1 ≤ W) (hH : 1 ≤ H) :
    ∀ a b, ((get_maze W H r) a b).path = false := by
  intro a b
  rw [get_maze_eq]
  have hx0 : r 0 % W < W := Nat.mod_lt _ hW
  have hy0 : RNG.tail r 0 % H < H := Nat.mod_lt _ hH
  have hE := enterCell_evol (W := W) (H := H) (W * H)
    (setLeftFalse (setLeftFalse (initGrid W H) 0 0) W (H - 1))
    (RNG.tail (RNG.tail r)) (r 0 % W) (RNG.tail r 0 % H)
    (le_of_lt hx0) (le_of_lt hy0)
  rw [hE.2.2.2.1 a b, path_setLeftFalse, path_setLeftFalse, initGrid_path]

theorem guards_of_open {W H x y : Nat} {g : Grid} {q : Nat × Nat}
    (hq1 : q.1 < W) (hq2 : q.2 < H) (ho : openMove g (x, y) q) :
    q ∈ nbrs W H x y ∧
    ¬(q.1 = x ∧ (g x (max y q.2)).top = true) ∧
    ¬(q.2 = y ∧ (g (max x q.1) y).left = true) := by
  rcases ho with hs | hs <;> rcases hs with ⟨h1, h2, h3⟩ | ⟨h1, h2, h3⟩
  · -- downward step from (x, y) to q = (x, y+1)
    refine ⟨mem_nbrs.2 (Or.inr (Or.inr (Or.inr ⟨by omega, ?_⟩))), ?_, ?_⟩
    · exact Prod.ext h1 h2
    · intro hc
      have hm : max y q.2 = q.2 := by omega
      rw [hm] at hc
      have h3' : (g x q.2).top = false := h3
      rw [h3'] at hc
      cases hc.2
    · intro hc
      omega
  · -- rightward step from (x, y) to q = (x+1, y)
    refine ⟨mem_nbrs.2 (Or.inr (Or.inl ⟨by omega, ?_⟩)), ?_, ?_⟩
    · exact Prod.ext h2 h1
    · intro hc
      omega
    · intro hc
      have hm : max x q.1 = q.1 := by omega
      rw [hm] at hc
      have h3' : (g q.1 y).left = false := h3
      rw [h3'] at hc
      cases hc.2
  · -- q = (x, y-1), the step goes downward from q to (x, y)
    refine ⟨mem_nbrs.2 (Or.inr (Or.inr (Or.inl ⟨by omega, ?_⟩))), ?_, ?_⟩
    · exact Prod.ext h1.symm (by omega)
    · intro hc
      have hm : max y q.2 = y := by omega
      rw [hm] at hc
      rw [← h1] at h3
      rw [h3] at hc
      cases hc.2
    · intro hc
      omega
  · -- q = (x-1, y), the step goes rightward from q to (x, y)
    refine ⟨mem_nbrs.2 (Or.inl ⟨by omega, ?_⟩), ?_, ?_⟩
    · exact Prod.ext (by omega) h1.symm
    · intro hc
      omega
    · intro hc
      have hm : max x q.1 = x := by omega
      rw [hm] at hc
      rw [← h1] at h3
      rw [h3] at hc
      cases hc.2

theorem unvisitedCount_le_total {W H : Nat} (g : Grid) :
    unvisitedCount W H g ≤ (W + 1) * (H + 1) := by
  unfold unvisitedCount
  calc ((Finset.range (W + 1) ×ˢ Finset.range (H + 1)).filter
      (fun p => (g p.1 p.2).visited = false)).card
      ≤ (Finset.range (W + 1) ×ˢ Finset.range (H + 1)).card :=
        Finset.card_filter_le _ _
    _ = (W + 1) * (H + 1) := by
        rw [Finset.card_product, Finset.card_range, Finset.card_range]

theorem exploredSeg_refl (W H : Nat) (g : Grid) : ExploredSeg W H g g := by
  intro a b _ _ hv hun
  rw [hv] at hun
  cases hun

theorem exploredSeg_trans {W H : Nat} {g g1 g2 : Grid}
    (hA : ExploredSeg W H g g1) (hB : ExploredSeg W H g1 g2)
    (hmono : ∀ a b, (g1 a b).visited = true → (g2 a b).visited = true)
    (hw : ∀ a b, (g2 a b).top = (g1 a b).top ∧ (g2 a b).left = (g1 a b).left) :
    ExploredSeg W H g g2 := by
  intro a b ha hb hv2 hun0
  by_cases h1 : (g1 a b).visited = true
  · obtain ⟨hgoal, hnbr⟩ := hA a b ha hb h1 hun0
    refine ⟨hgoal, fun q hq1 hq2 ho => ?_⟩
    exact hmono q.1 q.2 (hnbr q hq1 hq2 ((openMove_walls_iff hw _ _).1 ho))
  · have h1' : (g1 a b).visited = false := by simpa using h1
    exact hB a b ha hb hv2 h1'

set_option maxHeartbeats 1000000 in
theorem tryLoop_path_spec {W H : Nat} (fuel : Nat)
    (ihT : ∀ (g : Grid) (nx ny : Nat), ClosedOutside W H g → nx < W → ny < H →
      (g nx ny).visited = false →
      (testPath W H fuel g nx ny).2 = true →
      ∃ l : List (Nat × Nat),
        l.Chain' (playStep W H g) ∧ l.head? = some (nx, ny) ∧
        l.getLast? = some (W - 1, H - 1) ∧ l.Nodup ∧
        (∀ p ∈ l, (g p.1 p.2).visited = false) ∧
        (∀ p ∈ l, p.1 < W ∧ p.2 < H) ∧
        (∀ a b : Nat, (((testPath W H fuel g nx ny).1) a b).path = true ↔
          ((g a b).path = true ∨ (a, b) ∈ l))) :
    ∀ (ns : List (Nat × Nat)) (g : Grid) (x y : Nat),
      ClosedOutside W H g → x < W → y < H → (g x y).visited = true →
      (∀ p ∈ ns, p ∈ nbrs W H x y) →
      (tryLoop (testPath W H fuel) g x y ns).2 = true →
      ∃ l : List (Nat × Nat),
        ((x, y) :: l).Chain' (playStep W H g) ∧
        ((x, y) :: l).getLast? = some (W - 1, H - 1) ∧
        l.Nodup ∧
        (∀ p ∈ l, (g p.1 p.2).visited = false) ∧
        (∀ p ∈ l, p.1 < W ∧ p.2 < H) ∧
        (∀ a b : Nat, (((tryLoop (testPath W H fuel) g x y ns).1) a b).path = true ↔
          ((g a b).path = true ∨ (a, b) ∈ (x, y) :: l)) := by
  intro ns
  induction ns with
  | nil =>
    intro g x y _ _ _ _ _ ht
    cases ht
  | cons q rest ih =>
    obtain ⟨nx, ny⟩ := q
    intro g x y hC hx hy hvxy hns ht
    have hq := hns (nx, ny) (List.mem_cons_self _ _)
    have hqb := nbrs_bounds (le_of_lt hx) (le_of_lt hy) hq
    have hrest : ∀ p ∈ rest, p ∈ nbrs W H x y :=
      fun p hp => hns p (List.mem_cons_of_mem _ hp)
    have hdef : tryLoop (testPath W H fuel) g x y ((nx, ny) :: rest) =
        (if (g nx ny).visited then tryLoop (testPath W H fuel) g x y rest
        else if nx = x ∧ (g x (max y ny)).top then
          tryLoop (testPath W H fuel) g x y rest
        else if ny = y ∧ (g (max x nx) y).left then
          tryLoop (testPath W H fuel) g x y rest
        else if (testPath W H fuel g nx ny).2 then
          (setPath (testPath W H fuel g nx ny).1 x y, true)
        else tryLoop (testPath W H fuel) (testPath W H fuel g nx ny).1 x y rest) := rfl
    rw [hdef] at ht ⊢
    by_cases h1 : (g nx ny).visited = true
    · rw [if_pos h1] at ht ⊢
      exact ih g x y hC hx hy hvxy hrest ht
    rw [if_neg h1] at ht ⊢
    have h1' : (g nx ny).visited = false := by simpa using h1
    have hnxy : nx < W ∧ ny < H := by
      by_contra hcon
      have hcv := hC nx ny hqb.1 hqb.2 hcon
      rw [hcv] at h1'
      cases h1'
    by_cases h2 : nx = x ∧ (g x (max y ny)).top = true
    · rw [if_pos h2] at ht ⊢
      exact ih g x y hC hx hy hvxy hrest ht
    rw [if_neg h2] at ht ⊢
    by_cases h3 : ny = y ∧ (g (max x nx) y).left = true
    · rw [if_pos h3] at ht ⊢
      exact ih g x y hC hx hy hvxy hrest ht
    rw [if_neg h3] at ht ⊢
    by_cases h4 : (testPath W H fuel g nx ny).2 = true
    · rw [if_pos h4] at ht ⊢
      obtain ⟨l', hch, hhd, hlst, hnd, hunv, hbd, hpa⟩ :=
        ihT g nx ny hC hnxy.1 hnxy.2 h1' h4
      cases l' with
      | nil => simp at hhd
      | cons q0 t =>
        have hq0 : q0 = (nx, ny) := Option.some.inj hhd
        subst hq0
        refine ⟨(nx, ny) :: t, ?_, ?_, hnd, hunv, hbd, ?_⟩
        · rw [List.chain'_cons]
          exact ⟨⟨hx, hy, hnxy.1, hnxy.2, open_of_guards hq h2 h3⟩, hch⟩
        · rw [List.getLast?_cons_cons]
          exact hlst
        · intro a b
          rw [path_setPath_iff, hpa a b]
          constructor
          · rintro (hxy | hgp | hmem)
            · exact Or.inr (List.mem_cons.2 (Or.inl (by rw [hxy.1, hxy.2])))
            · exact Or.inl hgp
            · exact Or.inr (List.mem_cons.2 (Or.inr hmem))
          · rintro (hgp | hmem)
            · exact Or.inr (Or.inl hgp)
            · rcases List.mem_cons.1 hmem with heq | hmem2
              · exact Or.inl ⟨congrArg Prod.fst heq, congrArg Prod.snd heq⟩
              · exact Or.inr (Or.inr hmem2)
    · rw [if_neg h4] at ht ⊢
      have h4' : (testPath W H fuel g nx ny).2 = false := by simpa using h4
      set g3 := (testPath W H fuel g nx ny).1 with hg3
      have hE3 : SolveEvol W H g g3 := testPath_evol fuel g nx ny hqb.1 hqb.2
      have hC3 : ClosedOutside W H g3 := closedOutside_mono hC hE3.2.2.1
      have hv3 : (g3 x y).visited = true := hE3.2.2.1 x y hvxy
      obtain ⟨l, hch, hlst, hnd, hunv, hbd, hpa⟩ :=
        ih g3 x y hC3 hx hy hv3 hrest ht
      have hw3 : ∀ a b, (g3 a b).top = (g a b).top ∧ (g3 a b).left = (g a b).left :=
        fun a b => ⟨hE3.1 a b, hE3.2.1 a b⟩
      refine ⟨l, ?_, hlst, hnd, ?_, hbd, ?_⟩
      · exact hch.imp fun p q hpq =>
          ⟨hpq.1, hpq.2.1, hpq.2.2.1, hpq.2.2.2.1,
           (openMove_walls_iff hw3 p q).1 hpq.2.2.2.2⟩
      · intro p hp
        have hun3 := hunv p hp
        rcases Bool.eq_false_or_eq_true ((g p.1 p.2).visited) with hb | hb
        · rw [hE3.2.2.1 p.1 p.2 hb] at hun3
          cases hun3
        · exact hb
      · intro a b
        rw [hpa a b]
        have hp3 : (g3 a b).path = (g a b).path :=
          testPath_false_paths fuel g nx ny hqb.1 hqb.2 h4' a b
        rw [hp3]

theorem testPath_path_spec {W H : Nat} :
    ∀ (fuel : Nat) (g : Grid) (x y : Nat),
      ClosedOutside W H g → x < W → y < H → (g x y).visited = false →
      (testPath W H fuel g x y).2 = true →
      ∃ l : List (Nat × Nat),
        l.Chain' (playStep W H g) ∧ l.head? = some (x, y) ∧
        l.getLast? = some (W - 1, H - 1) ∧ l.Nodup ∧
        (∀ p ∈ l, (g p.1 p.2).visited = false) ∧
        (∀ p ∈ l, p.1 < W ∧ p.2 < H) ∧
        (∀ a b : Nat, (((testPath W H fuel g x y).1) a b).path = true ↔
          ((g a b).path = true ∨ (a, b) ∈ l)) := by
  intro fuel
  induction fuel with
  | zero => intro g x y _ _ _ _ ht; cases ht
  | succ fuel ih =>
    intro g x y hC hx hy hun ht
    have hdef : testPath W H (fuel + 1) g x y =
        (if x = W - 1 ∧ y = H - 1 then (setPath (setVisited g x y) x y, true)
        else tryLoop (testPath W H fuel) (setVisited g x y) x y (nbrs W H x y)) := rfl
    rw [hdef] at ht ⊢
    by_cases h0 : x = W - 1 ∧ y = H - 1
    · rw [if_pos h0] at ht ⊢
      refine ⟨[(x, y)], List.chain'_singleton _, rfl, ?_, ?_, ?_, ?_, ?_⟩
      · rw [h0.1, h0.2]
        simp
      · exact List.nodup_singleton _
      · intro p hp
        have hp' : p = (x, y) := List.mem_singleton.1 hp
        rw [hp']
        exact hun
      · intro p hp
        have hp' : p = (x, y) := List.mem_singleton.1 hp
        rw [hp']
        exact ⟨hx, hy⟩
      · intro a b
        rw [path_setPath_iff, path_setVisited]
        constructor
        · rintro (hxy | hgp)
          · exact Or.inr (List.mem_singleton.2 (by rw [hxy.1, hxy.2]))
          · exact Or.inl hgp
        · rintro (hgp | hmem)
          · exact Or.inr hgp
          · have heq := List.mem_singleton.1 hmem
            exact Or.inl ⟨congrArg Prod.fst heq, congrArg Prod.snd heq⟩
    · rw [if_neg h0] at ht ⊢
      set g1 := setVisited g x y with hg1
      have hC1 : ClosedOutside W H g1 :=
        closedOutside_mono hC (fun a b h => visited_setVisited_mono h)
      have hv1 : (g1 x y).visited = true := setVisited_self g x y
      obtain ⟨l, hch, hlst, hnd, hunv, hbd, hpa⟩ :=
        tryLoop_path_spec fuel
          (fun g nx ny hCg hnx hny hung htg => ih g nx ny hCg hnx hny hung htg)
          (nbrs W H x y) g1 x y hC1 hx hy hv1 (fun p hp => hp) ht
      have hw1 : ∀ a b, (g1 a b).top = (g a b).top ∧ (g1 a b).left = (g a b).left := by
        intro a b
        rw [hg1]
        exact ⟨top_setVisited g x y a b, left_setVisited g x y a b⟩
      refine ⟨(x, y) :: l, ?_, rfl, hlst, ?_, ?_, ?_, ?_⟩
      · exact hch.imp fun p q hpq =>
          ⟨hpq.1, hpq.2.1, hpq.2.2.1, hpq.2.2.2.1,
           (openMove_walls_iff hw1 p q).1 hpq.2.2.2.2⟩
      · rw [List.nodup_cons]
        refine ⟨?_, hnd⟩
        intro hmem
        have h1' : (g1 x y).visited = false := hunv (x, y) hmem
        rw [hv1] at h1'
        cases h1'
      · intro p hp
        rcases List.mem_cons.1 hp with heq | hmem
        · rw [heq]
          exact hun
        · have h1' : (g1 p.1 p.2).visited = false := hunv p hmem
          by_cases hc : p.1 = x ∧ p.2 = y
          · have h2' : (g1 p.1 p.2).visited = true := by
              rw [hc.1, hc.2]
              exact setVisited_self g x y
            rw [h2'] at h1'
            cases h1'
          · rw [hg1, setVisited_ne hc] at h1'
            exact h1'
      · intro p hp
        rcases List.mem_cons.1 hp with heq | hmem
        · rw [heq]
          exact ⟨hx, hy⟩
        · exact hbd p hmem
      · intro a b
        rw [hpa a b]
        have hp1 : (g1 a b).path = (g a b).path := by
          rw [hg1]
          exact path_setVisited g x y a b
        rw [hp1]

set_option maxHeartbeats 1000000 in
theorem tryLoop_explore {W H : Nat} (fuel : Nat)
    (ihT : ∀ (g : Grid) (nx ny : Nat), nx < W → ny < H → ClosedOutside W H g →
      unvisitedCount W H (setVisited g nx ny) < fuel →
      (testPath W H fuel g nx ny).2 = false →
      (((testPath W H fuel g nx ny).1 nx ny).visited = true) ∧
      ExploredSeg W H g (testPath W H fuel g nx ny).1) :
    ∀ (ns : List (Nat × Nat)) (g : Grid) (x y : Nat),
      ClosedOutside W H g → x < W → y < H →
      (∀ p ∈ ns, p ∈ nbrs W H x y) →
      unvisitedCount W H g ≤ fuel →
      (tryLoop (testPath W H fuel) g x y ns).2 = false →
      ExploredSeg W H g (tryLoop (testPath W H fuel) g x y ns).1 ∧
      (∀ p ∈ ns, ((tryLoop (testPath W H fuel) g x y ns).1 p.1 p.2).visited = true ∨
        (p.1 = x ∧ (g x (max y p.2)).top = true) ∨
        (p.2 = y ∧ (g (max x p.1) y).left = true)) := by
  intro ns
  induction ns with
  | nil =>
    intro g x y _ _ _ _ _ _
    exact ⟨exploredSeg_refl W H g, fun p hp => absurd hp (List.not_mem_nil p)⟩
  | cons q rest ih =>
    obtain ⟨nx, ny⟩ := q
    intro g x y hC hx hy hns hfuel hf
    have hq := hns (nx, ny) (List.mem_cons_self _ _)
    have hqb := nbrs_bounds (le_of_lt hx) (le_of_lt hy) hq
    have hrest : ∀ p ∈ rest, p ∈ nbrs W H x y :=
      fun p hp => hns p (List.mem_cons_of_mem _ hp)
    have hrestb : ∀ p ∈ rest, p.1 ≤ W ∧ p.2 ≤ H :=
      fun p hp => nbrs_bounds (le_of_lt hx) (le_of_lt hy) (hrest p hp)
    have hdef : tryLoop (testPath W H fuel) g x y ((nx, ny) :: rest) =
        (if (g nx ny).visited then tryLoop (testPath W H fuel) g x y rest
        else if nx = x ∧ (g x (max y ny)).top then
          tryLoop (testPath W H fuel) g x y rest
        else if ny = y ∧ (g (max x nx) y).left then
          tryLoop (testPath W H fuel) g x y rest
        else if (testPath W H fuel g nx ny).2 then
          (setPath (testPath W H fuel g nx ny).1 x y, true)
        else tryLoop (testPath W H fuel) (testPath W H fuel g nx ny).1 x y rest) := rfl
    rw [hdef] at hf ⊢
    by_cases h1 : (g nx ny).visited = true
    · rw [if_pos h1] at hf ⊢
      obtain ⟨hseg, hrest2⟩ := ih g x y hC hx hy hrest hfuel hf
      have hE : SolveEvol W H g (tryLoop (testPath W H fuel) g x y rest).1 :=
        tryLoop_pres (SolveEvol W H) (solveEvol_refl W H)
          (fun ha hb => solveEvol_trans ha hb) solveEvol_setPath
          (testPath W H fuel) (fun g a b ha hb => testPath_evol fuel g a b ha hb)
          rest g x y (le_of_lt hx) (le_of_lt hy) hrestb
      refine ⟨hseg, ?_⟩
      intro p hp
      rcases List.mem_cons.1 hp with heq | hmem
      · left
        rw [heq]
        exact hE.2.2.1 nx ny h1
      · exact hrest2 p hmem
    rw [if_neg h1] at hf ⊢
    have h1' : (g nx ny).visited = false := by simpa using h1
    by_cases h2 : nx = x ∧ (g x (max y ny)).top = true
    · rw [if_pos h2] at hf ⊢
      obtain ⟨hseg, hrest2⟩ := ih g x y hC hx hy hrest hfuel hf
      refine ⟨hseg, ?_⟩
      intro p hp
      rcases List.mem_cons.1 hp with heq | hmem
      · right
        left
        rw [heq]
        exact h2
      · exact hrest2 p hmem
    rw [if_neg h2] at hf ⊢
    by_cases h3 : ny = y ∧ (g (max x nx) y).left = true
    · rw [if_pos h3] at hf ⊢
      obtain ⟨hseg, hrest2⟩ := ih g x y hC hx hy hrest hfuel hf
      refine ⟨hseg, ?_⟩
      intro p hp
      rcases List.mem_cons.1 hp with heq | hmem
      · right
        right
        rw [heq]
        exact h3
      · exact hrest2 p hmem
    rw [if_neg h3] at hf ⊢
    by_cases h4 : (testPath W H fuel g nx ny).2 = true
    · rw [if_pos h4] at hf
      cases hf
    · rw [if_neg h4] at hf ⊢
      have h4' : (testPath W H fuel g nx ny).2 = false := by simpa using h4
      have hnxy : nx < W ∧ ny < H := by
        by_contra hcon
        have hcv := hC nx ny hqb.1 hqb.2 hcon
        rw [hcv] at h1'
        cases h1'
      have hfuel2 : unvisitedCount W H (setVisited g nx ny) < fuel := by
        have := unvisitedCount_setVisited_lt (W := W) (H := H) (g := g)
          (x := nx) (y := ny) hqb.1 hqb.2 h1'
        omega
      obtain ⟨hTv, hTseg⟩ := ihT g nx ny hnxy.1 hnxy.2 hC hfuel2 h4'
      set g3 := (testPath W H fuel g nx ny).1 with hg3
      have hE3 : SolveEvol W H g g3 := testPath_evol fuel g nx ny hqb.1 hqb.2
      have hC3 : ClosedOutside W H g3 := closedOutside_mono hC hE3.2.2.1
      have hmono3 : ∀ a b, ((setVisited g nx ny) a b).visited = true →
          (g3 a b).visited = true := by
        intro a b hv
        by_cases hc : a = nx ∧ b = ny
        · rw [hc.1, hc.2]
          exact hTv
        · rw [setVisited_ne hc] at hv
          exact hE3.2.2.1 a b hv
      have hfuel3 : unvisitedCount W H g3 ≤ fuel := by
        have h1le : unvisitedCount W H g3 ≤ unvisitedCount W H (setVisited g nx ny) :=
          unvisitedCount_le_of_mono hmono3
        omega
      obtain ⟨hseg2, hrest2⟩ := ih g3 x y hC3 hx hy hrest hfuel3 hf
      have hEout : SolveEvol W H g3 (tryLoop (testPath W H fuel) g3 x y rest).1 :=
        tryLoop_pres (SolveEvol W H) (solveEvol_refl W H)
          (fun ha hb => solveEvol_trans ha hb) solveEvol_setPath
          (testPath W H fuel) (fun g a b ha hb => testPath_evol fuel g a b ha hb)
          rest g3 x y (le_of_lt hx) (le_of_lt hy) hrestb
      have hwout : ∀ a b,
          ((tryLoop (testPath W H fuel) g3 x y rest).1 a b).top = (g3 a b).top ∧
          ((tryLoop (testPath W H fuel) g3 x y rest).1 a b).left = (g3 a b).left :=
        fun a b => ⟨hEout.1 a b, hEout.2.1 a b⟩
      refine ⟨exploredSeg_trans hTseg hseg2 hEout.2.2.1 hwout, ?_⟩
      intro p hp
      rcases List.mem_cons.1 hp with heq | hmem
      · left
        rw [heq]
        exact hEout.2.2.1 nx ny hTv
      · rcases hrest2 p hmem with hv | hg | hg
        · exact Or.inl hv
        · right
          left
          refine ⟨hg.1, ?_⟩
          rw [← hE3.1 x (max y p.2)]
          exact hg.2
        · right
          right
          refine ⟨hg.1, ?_⟩
          rw [← hE3.2.1 (max x p.1) y]
          exact hg.2

set_option maxHeartbeats 1000000 in
theorem testPath_explore {W H : Nat} :
    ∀ (fuel : Nat) (g : Grid) (x y : Nat), x < W → y < H →
      ClosedOutside W H g →
      unvisitedCount W H (setVisited g x y) < fuel →
      (testPath W H fuel g x y).2 = false →
      (((testPath W H fuel g x y).1 x y).visited = true) ∧
      ExploredSeg W H g (testPath W H fuel g x y).1 := by
  intro fuel
  induction fuel with
  | zero =>
    intro g x y _ _ _ hfuel _
    omega
  | succ fuel ih =>
    intro g x y hx hy hC hfuel hf
    have hdef : testPath W H (fuel + 1) g x y =
        (if x = W - 1 ∧ y = H - 1 then (setPath (setVisited g x y) x y, true)
        else tryLoop (testPath W H fuel) (setVisited g x y) x y (nbrs W H x y)) := rfl
    rw [hdef] at hf ⊢
    by_cases h0 : x = W - 1 ∧ y = H - 1
    · rw [if_pos h0] at hf
      cases hf
    · rw [if_neg h0] at hf ⊢
      set g1 := setVisited g x y with hg1
      have hC1 : ClosedOutside W H g1 :=
        closedOutside_mono hC (fun a b h => visited_setVisited_mono h)
      have hfuel1 : unvisitedCount W H g1 ≤ fuel := by
        omega
      obtain ⟨hseg, hns⟩ := tryLoop_explore fuel
          (fun g nx ny ha hb hc hd he => ih g nx ny ha hb hc hd he)
          (nbrs W H x y) g1 x y hC1 hx hy (fun p hp => hp) hfuel1 hf
      have hEloop : SolveEvol W H g1
          (tryLoop (testPath W H fuel) g1 x y (nbrs W H x y)).1 :=
        tryLoop_pres (SolveEvol W H) (solveEvol_refl W H)
          (fun ha hb => solveEvol_trans ha hb) solveEvol_setPath
          (testPath W H fuel) (fun g a b ha hb => testPath_evol fuel g a b ha hb)
          (nbrs W H x y) g1 x y (le_of_lt hx) (le_of_lt hy)
          (fun p hp => nbrs_bounds (le_of_lt hx) (le_of_lt hy) hp)
      have hv1top : (g1 x y).visited = true := setVisited_self g x y
      refine ⟨hEloop.2.2.1 x y hv1top, ?_⟩
      intro a b ha hb hv hun
      by_cases hab : a = x ∧ b = y
      · obtain ⟨ha1, ha2⟩ := hab
        subst ha1
        subst ha2
        refine ⟨?_, ?_⟩
        · intro hgoal
          exact h0 ⟨hgoal.1, hgoal.2⟩
        · intro q hq1 hq2 ho
          have hwl : ∀ c d,
              ((tryLoop (testPath W H fuel) g1 a b (nbrs W H a b)).1 c d).top =
                (g1 c d).top ∧
              ((tryLoop (testPath W H fuel) g1 a b (nbrs W H a b)).1 c d).left =
                (g1 c d).left :=
            fun c d => ⟨hEloop.1 c d, hEloop.2.1 c d⟩
          have ho1 : openMove g1 (a, b) q := (openMove_walls_iff hwl _ _).1 ho
          obtain ⟨hqmem, hg2', hg3'⟩ := guards_of_open hq1 hq2 ho1
          rcases hns q hqmem with hv' | hgg | hgg
          · exact hv'
          · exact absurd hgg hg2'
          · exact absurd hgg hg3'
      · have hun1 : (g1 a b).visited = false := by
          rw [hg1, setVisited_ne hab]
          exact hun
        exact hseg a b ha hb hv hun1

theorem testPath_complete {W H : Nat} (fuel : Nat) (g : Grid)
    (hW : 1 ≤ W) (hH : 1 ≤ H) (hC : ClosedOutside W H g)
    (hfresh : ∀ a b, a < W → b < H → (g a b).visited = false)
    (hfuel : unvisitedCount W H (setVisited g 0 0) < fuel)
    (hsolv : Solvable W H g) :
    (testPath W H fuel g 0 0).2 = true := by
  rcases Bool.eq_false_or_eq_true ((testPath W H fuel g 0 0).2) with hb | hb
  · exact hb
  · exfalso
    obtain ⟨hv0, hseg⟩ := testPath_explore fuel g 0 0 (by omega) (by omega) hC hfuel hb
    have hE : SolveEvol W H g (testPath W H fuel g 0 0).1 :=
      testPath_evol fuel g 0 0 (by omega) (by omega)
    have hw : ∀ a b, ((testPath W H fuel g 0 0).1 a b).top = (g a b).top ∧
        ((testPath W H fuel g 0 0).1 a b).left = (g a b).left :=
      fun a b => ⟨hE.1 a b, hE.2.1 a b⟩
    have hreach : ∀ v : Nat × Nat,
        Relation.ReflTransGen (playStep W H g) (0, 0) v →
        v.1 < W → v.2 < H →
        ((testPath W H fuel g 0 0).1 v.1 v.2).visited = true := by
      intro v hrtg
      induction hrtg with
      | refl =>
        intro _ _
        exact hv0
      | tail hsteps hstep ihv =>
        intro hc1 hc2
        obtain ⟨hb1, hb2, hc1', hc2', hm⟩ := hstep
        have hbf := hfresh _ _ hb1 hb2
        obtain ⟨_, hnbr⟩ := hseg _ _ hb1 hb2 (ihv hb1 hb2) hbf
        refine hnbr _ hc1 hc2 ?_
        exact (openMove_walls_iff hw _ _).2 hm
    have hgl := hreach (W - 1, H - 1) hsolv (by omega) (by omega)
    have hglf := hfresh (W - 1) (H - 1) (by omega) (by omega)
    obtain ⟨hng, _⟩ := hseg (W - 1) (H - 1) (by omega) (by omega) hgl hglf
    exact hng ⟨rfl, rfl⟩

theorem get_maze_solvable (W H : Nat) (r : RNG) (hW : 1 ≤ W) (hH : 1 ≤ H) :
    Solvable W H (get_maze W H r) := by
  have hvisall := get_maze_visits_all W H r hW hH
  rw [get_maze_eq] at hvisall
  show Relation.ReflTransGen (playStep W H (get_maze W H r)) (0, 0) (W - 1, H - 1)
  rw [get_maze_eq]
  set x0 := r 0 % W with hx0def
  set y0 := RNG.tail r 0 % H with hy0def
  set g2 := setLeftFalse (setLeftFalse (initGrid W H) 0 0) W (H - 1) with hg2
  have hx0 : x0 < W := Nat.mod_lt _ hW
  have hy0 : y0 < H := Nat.mod_lt _ hH
  have hrootun : (g2 x0 y0).visited = false := by
    rw [hg2, visited_setLeftFalse, visited_setLeftFalse, initGrid_unvisited_iff]
    exact ⟨hx0, hy0⟩
  have hfuel : unvisitedCount W H (setVisited g2 x0 y0) < W * H := by
    have hs := unvisitedCount_setVisited_succ (W := W) (H := H) (g := g2)
      (x := x0) (y := y0) (le_of_lt hx0) (le_of_lt hy0) hrootun
    have hc : unvisitedCount W H g2 = W * H := unvisitedCount_start
    omega
  have hInvF := enterCell_inv (W * H) g2 (RNG.tail (RNG.tail r)) x0 y0
    hx0 hy0 hfuel (carveInv_start hx0 hy0)
  obtain ⟨_, _, _, hreachf, _⟩ := hInvF
  set gf := (enterCell W H (W * H) g2 (RNG.tail (RNG.tail r)) x0 y0).1 with hgf
  have hsym : Symmetric (playStep W H gf) := by
    rintro p q ⟨h1, h2, h3, h4, hm⟩
    refine ⟨h3, h4, h1, h2, ?_⟩
    rcases hm with h | h
    · exact Or.inr h
    · exact Or.inl h
  have hrev : ∀ {u v : Nat × Nat},
      Relation.ReflTransGen (playStep W H gf) u v →
      Relation.ReflTransGen (playStep W H gf) v u := by
    intro u v h
    induction h with
    | refl => exact Relation.ReflTransGen.refl
    | tail h1 h2 ihr => exact Relation.ReflTransGen.head (hsym h2) ihr
  have h00 := hreachf 0 0 (by omega) (by omega) (hvisall 0 0 (by omega) (by omega))
  have hgl := hreachf (W - 1) (H - 1) (by omega) (by omega)
    (hvisall (W - 1) (H - 1) (by omega) (by omega))
  exact (hrev h00).trans hgl

/-- Claim C2: for every `W, H ≥ 1`, every random stream and the grid
`get_maze` produces, `set_maze_path` succeeds: the cells it marks
`path = true` form a simple path (a duplicate-free chain of open moves)
from the entrance `(0, 0)` to the goal `(W-1, H-1)`, and the number of
marked cells is at least `1` and at most `W * H`. -/
theorem solve_generated_maze (W H : Nat) (r : RNG) (hW : 1 ≤ W) (hH : 1 ≤ H) :
    ∃ l : List (Nat × Nat),
      l.head? = some (0, 0) ∧
      l.getLast? = some (W - 1, H - 1) ∧
      l.Chain' (playStep W H (get_maze W H r)) ∧
      l.Nodup ∧
      (∀ a b : Nat,
        ((set_maze_path W H (get_maze W H r)) a b).path = true ↔ (a, b) ∈ l) ∧
      1 ≤ pathCount W H (set_maze_path W H (get_maze W H r)) ∧
      pathCount W H (set_maze_path W H (get_maze W H r)) ≤ W * H := by
  set gm := get_maze W H r with hgm
  set g0 := resetVisited W H gm with hg0
  have hfresh : ∀ a b, a < W → b < H → (g0 a b).visited = false := by
    intro a b ha hb
    rw [hg0]
    simp [resetVisited, ha, hb]
  have hC0 : ClosedOutside W H g0 := by
    intro a b ha hb hnp
    rw [hg0, resetVisited_outside gm hnp]
    exact get_maze_visited_outside r hW hH a b hnp
  have hw0 : ∀ a b, (g0 a b).top = (gm a b).top ∧ (g0 a b).left = (gm a b).left := by
    intro a b
    rw [hg0]
    exact ⟨top_resetVisited W H gm a b, left_resetVisited W H gm a b⟩
  have hsolv0 : Solvable W H g0 := by
    have hs : Relation.ReflTransGen (playStep W H gm) (0, 0) (W - 1, H - 1) :=
      get_maze_solvable W H r hW hH
    exact reach_walls (fun a b => ⟨(hw0 a b).1.symm, (hw0 a b).2.symm⟩) hs
  have hfuel : unvisitedCount W H (setVisited g0 0 0) < (W + 1) * (H + 1) := by
    have h1 := unvisitedCount_setVisited_lt (W := W) (H := H) (g := g0)
      (x := 0) (y := 0) (by omega) (by omega) (hfresh 0 0 (by omega) (by omega))
    have h2 := unvisitedCount_le_total (W := W) (H := H) g0
    omega
  have htrue : (testPath W H ((W + 1) * (H + 1)) g0 0 0).2 = true :=
    testPath_complete ((W + 1) * (H + 1)) g0 hW hH hC0 hfresh hfuel hsolv0
  obtain ⟨l, hch, hhd, hlst, hnd, hunv, hbd, hpa⟩ :=
    testPath_path_spec ((W + 1) * (H + 1)) g0 0 0 hC0 (by omega) (by omega)
      (hfresh 0 0 (by omega) (by omega)) htrue
  have hres : set_maze_path W H gm = (testPath W H ((W + 1) * (H + 1)) g0 0 0).1 := rfl
  have hiff : ∀ a b : Nat,
      ((set_maze_path W H gm) a b).path = true ↔ (a, b) ∈ l := by
    intro a b
    rw [hres, hpa a b]
    have hp0 : (g0 a b).path = false := by
      rw [hg0, path_resetVisited]
      exact get_maze_path_false W H r hW hH a b
    rw [hp0]
    simp
  refine ⟨l, hhd, hlst, ?_, hnd, hiff, ?_, ?_⟩
  · exact hch.imp fun p q hpq =>
      ⟨hpq.1, hpq.2.1, hpq.2.2.1, hpq.2.2.2.1,
       (openMove_walls_iff hw0 p q).1 hpq.2.2.2.2⟩
  · have h00 : ((0, 0) : Nat × Nat) ∈ l := by
      cases l with
      | nil => simp at hhd
      | cons q t =>
        have hq' : q = (0, 0) := Option.some.inj hhd
        rw [hq']
        exact List.mem_cons_self _ _
    have hmem : ((0, 0) : Nat × Nat) ∈
        (Finset.range (W + 1) ×ˢ Finset.range (H + 1)).filter
          (fun p => ((set_maze_path W H gm) p.1 p.2).path = true) := by
      rw [Finset.mem_filter, Finset.mem_product, Finset.mem_range, Finset.mem_range]
      exact ⟨⟨by omega, by omega⟩, (hiff 0 0).2 h00⟩
    have hpos := Finset.card_pos.2 ⟨_, hmem⟩
    unfold pathCount
    omega
  · have hsub : (Finset.range (W + 1) ×ˢ Finset.range (H + 1)).filter
        (fun p => ((set_maze_path W H gm) p.1 p.2).path = true) ⊆
        Finset.range W ×ˢ Finset.range H := by
      intro p hp
      rw [Finset.mem_filter] at hp
      have hpl : (p.1, p.2) ∈ l := (hiff p.1 p.2).1 hp.2
      have hbp := hbd (p.1, p.2) hpl
      rw [Finset.mem_product, Finset.mem_range, Finset.mem_range]
      exact ⟨hbp.1, hbp.2⟩
    have hcard := Finset.card_le_card hsub
    rw [Finset.card_product, Finset.card_range, Finset.card_range] at hcard
    unfold pathCount
    omega

/-- Witness for C2 at `W = 2`, `H = 1`, the all-zero random stream. -/
theorem solve_generated_maze_witness :
    1 ≤ 2 ∧
    (∃ l : List (Nat × Nat),
      l.head? = some (0, 0) ∧
      l.getLast? = some (2 - 1, 1 - 1) ∧
      l.Chain' (playStep 2 1 (get_maze 2 1 (fun _ => 0))) ∧
      l.Nodup ∧
      (∀ a b : Nat,
        ((set_maze_path 2 1 (get_maze 2 1 (fun _ => 0))) a b).path = true ↔
          (a, b) ∈ l) ∧
      1 ≤ pathCount 2 1 (set_maze_path 2 1 (get_maze 2 1 (fun _ => 0))) ∧
      pathCount 2 1 (set_maze_path 2 1 (get_maze 2 1 (fun _ => 0))) ≤ 2 * 1) :=
  ⟨by decide, solve_generated_maze 2 1 (fun _ => 0) (by decide) (by decide)⟩
